import Mathlib

/-!
TerraBox_Persistence: named areas in the Arduino EEPROM.

A shallow embedding of `src/Persistence.cpp` and `src/Persistence.h` as built for the
Arduino Mega 2560, the one board for which the header defines `EEPROM_RD_INT`:
`int` and `unsigned int` are 16 bits wide, `char` is signed, pointers are 16 bits wide,
`struct persistentAreaHeader` is 20 bytes without padding, stored little-endian; the
Arduino AVR core compiles with `-fpermissive`, under which the comparison of a byte with a
pointer in `persistentStore` is accepted.

* `uint16_t` and `unsigned int` values are `Nat` reduced `% 65536`, `uint32_t` values are
  `Nat` reduced `% 4294967296`, `int16_t` and `int32_t` results are `Int`. An address that
  is only handed on to `EEPROM.read` or `EEPROM.write` is not reduced modulo 4294967296
  first, since these reduce it modulo 65536 anyway.
* A size argument of type `uint16_t` is a `Nat`; the statements bound it where they need to.
* The loops that walk the header chain (`addr += next`) need not terminate (a stored `next`
  of 0 repeats the same header for ever), so they take fuel and return `none` when it runs
  out.
* A C string argument is the list of the bytes found at the pointer, followed by zero bytes.
* A local `struct persistentAreaHeader header;` is not initialised by the C code and some
  paths read it before anything was stored in it; its RAM address and its indeterminate
  content are arguments of the functions that declare one.
-/

namespace Persistence

/-! ## The medium -/

/-- The EEPROM behind the Arduino `EEPROM` object. `cell` holds what is stored at each
16 bit address, `stored a old v` is what the cell at `a` holds after the raw driver was asked
to write `v` over `old` (`v` itself on a sound medium, anything on a worn one), `length` is
`EEPROM.length()` and `writes` counts the raw write calls made so far. -/
structure Eeprom where
  cell : Nat → Nat
  stored : Nat → Nat → Nat → Nat
  length : Nat
  writes : Nat

/-- The byte `EEPROM.read(idx)` / `EEPROM[idx]` returns. The index is converted to `int` and
then to a 16 bit pointer, which keeps it modulo 65536; a cell holds one byte. -/
def EEPROM_read (e : Eeprom) (idx : Nat) : Nat :=
  e.cell (idx % 65536) % 256

/-- The medium after `EEPROM.write(idx, val)`: one raw write, always performed. -/
def EEPROM_write (e : Eeprom) (idx val : Nat) : Eeprom :=
  { e with
    cell := fun a =>
      if a = idx % 65536 then e.stored (idx % 65536) (e.cell (idx % 65536) % 256) (val % 256)
      else e.cell a
    writes := e.writes + 1 }

/-- Every raw write reads back as the byte that was written. -/
def Reliable (e : Eeprom) : Prop :=
  ∀ a old v, e.stored a old v = v

/-- The macro `EEPROM_SIZE`, that is `EEPROM.length()`, a `uint16_t`. -/
def EEPROM_SIZE (e : Eeprom) : Nat :=
  e.length % 65536

/-- The macro `EEPROM_RD_BYTE(addr)`. -/
def EEPROM_RD_BYTE (e : Eeprom) (addr : Nat) : Nat :=
  EEPROM_read e addr

/-- The macro `EEPROM_RD_INT(addr)`: the little-endian 16 bit value at `addr`, as an
`unsigned int`. -/
def EEPROM_RD_INT (e : Eeprom) (addr : Nat) : Nat :=
  (EEPROM_read e (addr + 1) * 256 + EEPROM_read e addr) % 65536

def EPR16_TFT_CALIBR_X_S : Nat := 6

def EPR16_TFT_CALIBR_Y_S : Nat := 8

def EPR_START_FREE : Nat := 10

def PERSISTENT_AREA_NAME_SIZE : Nat := 16

/-- The macro `PERSISTENT_AREA_PREFIX_SIZE`, `sizeof(persistentAreaHeader)`: 2 + 2 + 16. -/
def PERSISTENT_AREA_PREFIX_SIZE : Nat := 20

/-- The macro `ADR_TFT_CALIBR_X`: `EEPROM_SIZE` less twice the stored X calibration size,
computed in `unsigned int` and then widened to `uint32_t`. -/
def ADR_TFT_CALIBR_X (e : Eeprom) : Nat :=
  (EEPROM_SIZE e + 65536 - (EEPROM_RD_INT e EPR16_TFT_CALIBR_X_S * 2) % 65536) % 65536

/-- The macro `ADR_TFT_CALIBR_Y`: `ADR_TFT_CALIBR_X` less twice the stored Y calibration size,
the product computed in `unsigned int`, the difference in `uint32_t`. -/
def ADR_TFT_CALIBR_Y (e : Eeprom) : Nat :=
  (ADR_TFT_CALIBR_X e + 4294967296 - (EEPROM_RD_INT e EPR16_TFT_CALIBR_Y_S * 2) % 65536)
    % 4294967296

/-- The macro `EPR_END_FREE`: the first address past the allocatable region. -/
def EPR_END_FREE (e : Eeprom) : Nat :=
  ADR_TFT_CALIBR_Y e

/-! ## Values -/

/-- The value of a byte seen through the (signed) type `char`. -/
def toChar (b : Nat) : Int :=
  if b % 256 < 128 then ((b % 256 : Nat) : Int) else ((b % 256 : Nat) : Int) - 256

/-- Conversion of an integer to `int16_t`. -/
def toInt16 (x : Int) : Int :=
  if x % 65536 < 32768 then x % 65536 else x % 65536 - 65536

/-- The struct `persistentAreaHeader`: `next`, `data` and the 16 name bytes. -/
structure persistentAreaHeader where
  next : Nat
  data : Nat
  name : List Nat

/-- A local `struct persistentAreaHeader header;` of a C function: the RAM address it lives
at and the indeterminate content it has before anything is stored in it. -/
structure HeaderLocal where
  ptr : Nat
  init : persistentAreaHeader

/-- The 20 bytes of a header as `(char*)&header` exposes them. -/
def headerBytes (h : persistentAreaHeader) : List Nat :=
  [h.next % 256, h.next / 256 % 256, h.data % 256, h.data / 256 % 256]
    ++ (List.range PERSISTENT_AREA_NAME_SIZE).map (fun i => h.name.getD i 0 % 256)

/-- The header that 20 bytes copied over `(char*)&header` make up. -/
def headerOfBytes (bs : List Nat) : persistentAreaHeader :=
  { next := (bs.getD 0 0 % 256 + 256 * (bs.getD 1 0 % 256))
    data := (bs.getD 2 0 % 256 + 256 * (bs.getD 3 0 % 256))
    name := (List.range PERSISTENT_AREA_NAME_SIZE).map (fun i => bs.getD (4 + i) 0 % 256) }

/-- The 16 bytes `strncpy(header.name, name, PERSISTENT_AREA_NAME_SIZE)` leaves in the name
field: the characters of `name` up to its terminator, then zero bytes. -/
def strncpy : List Nat → Nat → List Nat
  | _, 0 => []
  | [], n + 1 => 0 :: strncpy [] n
  | c :: cs, n + 1 => if c % 256 = 0 then 0 :: strncpy [] n else c % 256 :: strncpy cs n

/-! ## Internal functions -/

/-- The loop of `persistentStrCmp`; `i` counts the bytes compared, the first argument bounds
the iterations (the loop returns when `i` is 15). -/
def persistentStrCmp.loop (e : Eeprom) (s2 : List Nat) : Nat → Nat → Nat → Int
  | 0, _, _ => 0
  | k + 1, s1, i =>
    let eprC := toChar (EEPROM_RD_BYTE e s1)
    let c := toChar (s2.getD i 0)
    let diff := eprC - c
    if diff = 0 ∧ c + eprC ≠ 0 then
      if i = 15 then diff else persistentStrCmp.loop e s2 k (s1 + 1) (i + 1)
    else diff

/-- `persistentStrCmp(s1, s2)`: compares the name stored at EEPROM address `s1` with the
string `s2`; 0 when they are taken to be equal. -/
def persistentStrCmp (e : Eeprom) (s1 : Nat) (s2 : List Nat) : Int :=
  persistentStrCmp.loop e s2 16 s1 0

/-- The loop of `isPersistentStorageVirgin`: `k` is `EEPROM_SIZE - i`. The counter is an
`int` compared with the `unsigned int` size, so the comparison is unsigned; past 32767 the
increment leaves the range of `int` and the AVR compiler lets it wrap, which the natural
number counter reproduces. -/
def isPersistentStorageVirgin.loop (e : Eeprom) : Nat → Nat → Bool
  | 0, _ => true
  | k + 1, i => if EEPROM_read e i ≠ 0xff then false else isPersistentStorageVirgin.loop e k (i + 1)

/-- `isPersistentStorageVirgin()`. -/
def isPersistentStorageVirgin (e : Eeprom) : Bool :=
  isPersistentStorageVirgin.loop e (EEPROM_SIZE e) 0

/-- The loop of `persistentStore`: `k` iterations left, `j` bytes of `data` consumed. The test
`EEPROM.read(addr) != data` compares the stored byte with the pointer `data` itself. -/
def persistentStore.loop (dataPtr : Nat) (data : List Nat) (size : Nat) :
    Nat → Nat → Nat → Eeprom → Int × Eeprom
  | 0, _, _, e => ((size : Int), e)
  | k + 1, addr, j, e =>
    if EEPROM_read e addr ≠ (dataPtr + j) % 65536 then
      let e1 := EEPROM_write e addr (data.getD j 0)
      if EEPROM_read e1 addr ≠ data.getD j 0 % 256 then (-1, e1)
      else persistentStore.loop dataPtr data size k (addr + 1) (j + 1) e1
    else persistentStore.loop dataPtr data size k addr j e

/-- `persistentStore(addr, data, size)`; `dataPtr` is the value of the pointer `data`, `data`
the bytes it points at. Returns the `int32_t` result and the medium afterwards. -/
def persistentStore (e : Eeprom) (addr dataPtr : Nat) (data : List Nat) (size : Nat) :
    Int × Eeprom :=
  persistentStore.loop dataPtr data size size addr 0 e

/-- `persistentRead(addr, dataSize, data)`: the `dataSize` bytes copied to `data`. -/
def persistentRead (e : Eeprom) (addr dataSize : Nat) : List Nat :=
  (List.range dataSize).map (fun i => EEPROM_read e (addr + i))

/-- The loop of `persistentClear`: `addrWr` only advances after a write. -/
def persistentClear.loop (addr clearWith size : Nat) : Nat → Nat → Eeprom → Int × Eeprom
  | 0, _, e => ((size : Int), e)
  | k + 1, addrWr, e =>
    if EEPROM_read e addrWr ≠ clearWith % 256 then
      let e1 := EEPROM_write e addrWr clearWith
      if EEPROM_read e1 addrWr ≠ clearWith % 256 then
        (-(((addrWr + 4294967296 - addr) % 4294967296 : Nat) : Int), e1)
      else persistentClear.loop addr clearWith size k ((addrWr + 1) % 4294967296) e1
    else persistentClear.loop addr clearWith size k addrWr e

/-- `persistentClear(addr, clearWith, size)`. -/
def persistentClear (e : Eeprom) (addr clearWith size : Nat) : Int × Eeprom :=
  persistentClear.loop addr clearWith size size addr e

/-- The loop of `getPersistentAreaAddress`. -/
def getPersistentAreaAddress.loop (e : Eeprom) (name : List Nat) : Nat → Nat → Option Nat
  | 0, _ => none
  | fuel + 1, addr =>
    if addr < EPR_END_FREE e then
      if addr = 0xffff then some 0
      else if persistentStrCmp e (addr + 4) name = 0 then
        some ((addr + PERSISTENT_AREA_PREFIX_SIZE) % 4294967296)
      else getPersistentAreaAddress.loop e name fuel ((addr + EEPROM_RD_INT e addr) % 4294967296)
    else some 0

/-- `getPersistentAreaAddress(name)`: the data address of the area, 0 when not found. -/
def getPersistentAreaAddress (fuel : Nat) (e : Eeprom) (name : List Nat) : Option Nat :=
  getPersistentAreaAddress.loop e name fuel EPR_START_FREE

/-- The loop of `getPersistentHeaderAddress`. -/
def getPersistentHeaderAddress.loop (e : Eeprom) (name : List Nat) : Nat → Nat → Option Nat
  | 0, _ => none
  | fuel + 1, addr =>
    if addr < EPR_END_FREE e then
      if addr = 0xffff then some 0
      else if persistentStrCmp e (addr + 4) name = 0 then some addr
      else getPersistentHeaderAddress.loop e name fuel ((addr + EEPROM_RD_INT e addr) % 4294967296)
    else some 0

/-- `getPersistentHeaderAddress(name)`: the header address of the area, 0 when not found. -/
def getPersistentHeaderAddress (fuel : Nat) (e : Eeprom) (name : List Nat) : Option Nat :=
  getPersistentHeaderAddress.loop e name fuel EPR_START_FREE

/-- `hasPersistentArea(name)`. -/
def hasPersistentArea (fuel : Nat) (e : Eeprom) (name : List Nat) : Option Bool :=
  (getPersistentHeaderAddress fuel e name).map (fun addr => decide (addr ≠ 0))

/-- `persistentReadHeader(uint32_t addr, header)`: `addr` is a data address. Returns the
result and the content of `*header` afterwards, which is left as it was when the address is
refused. -/
def persistentReadHeader (e : Eeprom) (addr : Nat) (header : persistentAreaHeader) :
    Nat × persistentAreaHeader :=
  if addr < EPR_START_FREE ∨ addr ≥ EPR_END_FREE e then (0, header)
  else
    (addr, headerOfBytes (persistentRead e
      ((addr + 4294967296 - PERSISTENT_AREA_PREFIX_SIZE) % 4294967296)
      PERSISTENT_AREA_PREFIX_SIZE))

/-- `persistentReadHeader(char* name, header)`. -/
def persistentReadHeaderByName (fuel : Nat) (e : Eeprom) (name : List Nat)
    (header : persistentAreaHeader) : Option (Nat × persistentAreaHeader) :=
  match getPersistentHeaderAddress fuel e name with
  | none => none
  | some addr =>
    some (persistentReadHeader e ((addr + PERSISTENT_AREA_PREFIX_SIZE) % 4294967296) header)

/-- `newPersistentHeader(name, addr, size)`; `hl` is its local `header`. -/
def newPersistentHeader (e : Eeprom) (name : List Nat) (addr size : Nat) (hl : HeaderLocal) :
    Int × Eeprom :=
  let addr := (addr + 4294967296 - PERSISTENT_AREA_PREFIX_SIZE) % 4294967296
  if EEPROM_RD_INT e ((addr + 2) % 65536) % 65536 ≠ 0xffff then (-2, e)
  else
    let next := EEPROM_RD_INT e ((addr + 2) % 65536)
    if next ≠ 0xffff ∨ next < (size + PERSISTENT_AREA_PREFIX_SIZE) % 65536 then (-4, e)
    else
      let reuse : Bool := decide (next ≠ 0xffff)
      let header : persistentAreaHeader :=
        { next := if !reuse then (PERSISTENT_AREA_PREFIX_SIZE + size) % 65536 else hl.init.next
          data := PERSISTENT_AREA_PREFIX_SIZE
          name := strncpy name PERSISTENT_AREA_NAME_SIZE }
      let r := persistentStore e addr hl.ptr (headerBytes header) PERSISTENT_AREA_PREFIX_SIZE
      let rv : Nat := (r.1 % 4294967296).toNat
      if rv < 0 then (-3, r.2) else (toInt16 size, r.2)

/-- The loop of `findNewPersistentArea`; `header` is the content of the local `header`, which
an iteration keeps when `persistentReadHeader` refuses the address. -/
def findNewPersistentArea.loop (e : Eeprom) (dataSize : Nat) :
    Nat → Nat → persistentAreaHeader → Option Nat
  | 0, _, _ => none
  | fuel + 1, addr, header =>
    if addr < EPR_END_FREE e then
      let header :=
        (persistentReadHeader e ((addr + PERSISTENT_AREA_PREFIX_SIZE) % 4294967296) header).2
      if header.data ≠ 0xffff then
        findNewPersistentArea.loop e dataSize fuel ((addr + header.next) % 4294967296) header
      else if header.next = 0xffff then
        if (header.next + PERSISTENT_AREA_PREFIX_SIZE + dataSize) % 65536 < EPR_END_FREE e then
          some ((addr + PERSISTENT_AREA_PREFIX_SIZE) % 4294967296)
        else
          findNewPersistentArea.loop e dataSize fuel ((addr + header.next) % 4294967296) header
      else if header.next ≥ (PERSISTENT_AREA_PREFIX_SIZE + dataSize) % 65536 then
        some ((addr + PERSISTENT_AREA_PREFIX_SIZE) % 4294967296)
      else
        findNewPersistentArea.loop e dataSize fuel ((addr + header.next) % 4294967296) header
    else some 0

/-- `findNewPersistentArea(dataSize)`; `hl` is its local `header`. -/
def findNewPersistentArea (fuel : Nat) (e : Eeprom) (dataSize : Nat) (hl : HeaderLocal) :
    Option Nat :=
  findNewPersistentArea.loop e dataSize fuel EPR_START_FREE hl.init

/-! ## External functions -/

/-- `newPersistentArea(name, dataSize)`: the `uint32_t` result and the medium afterwards;
`lf` and `lh` are the locals of `findNewPersistentArea` and `newPersistentHeader`. -/
def newPersistentArea (fuel : Nat) (e : Eeprom) (name : List Nat) (dataSize : Nat)
    (lf lh : HeaderLocal) : Option (Nat × Eeprom) :=
  match getPersistentHeaderAddress fuel e name with
  | none => none
  | some existAddr =>
    if existAddr ≠ 0 then some (4294967295, e)
    else
      match findNewPersistentArea fuel e dataSize lf with
      | none => none
      | some addr =>
        if addr ≤ 0 then some (0, e)
        else
          let r := newPersistentHeader e name addr dataSize lh
          if r.1 % 65536 = ((dataSize % 65536 : Nat) : Int) then some (addr, r.2)
          else some (0, r.2)

/-- `persistentReadArea(name, dataSize, data)`: the `int16_t` result and the content of the
caller's buffer `data` afterwards. -/
def persistentReadArea (fuel : Nat) (e : Eeprom) (name : List Nat) (dataSize : Nat)
    (data : List Nat) (hl : HeaderLocal) : Option (Int × List Nat) :=
  match persistentReadHeaderByName fuel e name hl.init with
  | none => none
  | some (addr, header) =>
    if addr = 0 then some (-1, data)
    else
      let areaDataSize := (header.next + 65536 - header.data % 65536) % 65536
      if areaDataSize ≠ dataSize then some (-2, data)
      else some (1, persistentRead e addr dataSize ++ data.drop dataSize)

/-- The write loop of `persistentWriteArea`: `k` is `end - addrWr`, `j` the bytes of `data`
consumed. `EEPROM.read(addrWr) != *data` compares an unsigned byte with a `char`. -/
def persistentWriteArea.loop (start dataSize : Nat) (data : List Nat) :
    Nat → Nat → Nat → Eeprom → Int × Eeprom
  | 0, addrWr, _, e => (toInt16 (((addrWr + 4294967296 - start) % 4294967296 : Nat) : Int), e)
  | k + 1, addrWr, j, e =>
    if ((EEPROM_read e addrWr : Nat) : Int) ≠ toChar (data.getD j 0) then
      let e1 := EEPROM_write e addrWr (data.getD j 0)
      let c := toChar (EEPROM_read e1 addrWr)
      if c ≠ toChar (data.getD j 0) then
        (toInt16 ((((addrWr + 4294967296 - start) % 4294967296 + 4294967296 - dataSize)
          % 4294967296 : Nat) : Int), e1)
      else persistentWriteArea.loop start dataSize data k (addrWr + 1) (j + 1) e1
    else persistentWriteArea.loop start dataSize data k (addrWr + 1) (j + 1) e

/-- `persistentWriteArea(name, dataSize, data)`. -/
def persistentWriteArea (fuel : Nat) (e : Eeprom) (name : List Nat) (dataSize : Nat)
    (data : List Nat) (hl : HeaderLocal) : Option (Int × Eeprom) :=
  match persistentReadHeaderByName fuel e name hl.init with
  | none => none
  | some (addr, _) =>
    if addr = 0 then some (0, e)
    else
      let start := addr
      let end_ := (start + dataSize) % 4294967296
      if dataSize ≠ (end_ + 4294967296 - start) % 4294967296 then some (0, e)
      else some (persistentWriteArea.loop start dataSize data (end_ - start) start 0 e)

/-- `freePersistentArea(name)`; `hl` is its local `header`. -/
def freePersistentArea (fuel : Nat) (e : Eeprom) (name : List Nat) (hl : HeaderLocal) :
    Option (Int × Eeprom) :=
  match getPersistentHeaderAddress fuel e name with
  | none => none
  | some addr =>
    if addr = 0 then some (-1, e)
    else
      match persistentReadHeaderByName fuel e name hl.init with
      | none => none
      | some (_, header) =>
        if header.data % 65536 = 0xffff then some (2, e)
        else
          let addrNext := (addr + header.next) % 4294967296
          let nextHeader := headerOfBytes (persistentRead e addrNext PERSISTENT_AREA_PREFIX_SIZE)
          let addrData := (addr + header.data) % 4294967296
          let header1 : persistentAreaHeader :=
            { next := if nextHeader.next = 0xffff then 0xffff else header.next
              data := 0xffff
              name := List.replicate PERSISTENT_AREA_NAME_SIZE 0xFF }
          let r := persistentStore e addr hl.ptr (headerBytes header1) PERSISTENT_AREA_PREFIX_SIZE
          if r.1 ≠ 20 then some (toInt16 (-r.1), r.2)
          else
            let dataSize := (addrNext + 4294967296 - addrData) % 4294967296 % 65536
            let r2 := persistentClear r.2 addrData 0xff dataSize
            if r2.1 ≠ (dataSize : Int) then
              some (toInt16 ((((r2.1 % 4294967296).toNat ||| 0xC000 : Nat) : Int)), r2.2)
            else some (1, r2.2)

/-! ## A concrete medium -/

/-- A 4096 byte medium in factory state but for the two calibration sizes at addresses 6 to 9,
which are 0, so that the allocatable region is `[10, 4096)`; every write succeeds. -/
def blank : Eeprom :=
  { cell := fun a => if 6 ≤ a ∧ a < 10 then 0 else 255
    stored := fun _ _ v => v
    length := 4096
    writes := 0 }

/-- The locals used in the examples: a header in SRAM at 0x21E0 holding zero bytes. -/
def local0 : HeaderLocal :=
  { ptr := 0x21E0, init := { next := 0, data := 0, name := [] } }

/-- The medium an operation leaves behind (`blank` when it ran out of fuel). -/
def stateAfter {α : Type} (r : Option (α × Eeprom)) : Eeprom :=
  match r with
  | some (_, e) => e
  | none => blank

/-- The medium `blank` after `newPersistentArea("A", 10)`: the cell of "A" at 10. -/
def areaA : Eeprom :=
  stateAfter (newPersistentArea 3 blank [65] 10 local0 local0)

/-- The medium `areaA` after `newPersistentArea("B", 5)`: the cell of "B" at 40. -/
def areaAB : Eeprom :=
  stateAfter (newPersistentArea 4 areaA [66] 5 local0 local0)

/-- The medium `areaAB` after `freePersistentArea("A")`: a freed cell of capacity 30 at 10,
followed by the cell of "B". -/
def freedA : Eeprom :=
  stateAfter (freePersistentArea 4 areaAB [65] local0)

/-- The medium `blank` after `newPersistentArea("A", 3)`. -/
def area3 : Eeprom :=
  stateAfter (newPersistentArea 3 blank [65] 3 local0 local0)

/-- The medium `area3` after `persistentWriteArea("A", 3, {1, 255, 2})`. -/
def area3w : Eeprom :=
  stateAfter (persistentWriteArea 3 area3 [65] 3 [1, 255, 2] local0)

/-- The medium `blank` with a worn cell at address 12, which keeps what it holds whatever is
written to it. -/
def wornBlank : Eeprom :=
  { blank with stored := fun a old v => if a = 12 then old else v }

/-- The medium `areaA` whose cell at address 12, the low byte of the `data` field of "A", has
worn out since: it keeps what it holds whatever is written to it. -/
def wornA : Eeprom :=
  { areaA with stored := fun a old v => if a = 12 then old else v }

/-- A 4096 byte medium with 2000 X calibration values: the size 2000 at 6 and 7, the size 0
of the Y values at 8 and 9, the 4000 bytes of calibration data, all zero, at `[96, 4096)`; the
allocatable region `[10, 96)` is in factory state. -/
def calibrated : Eeprom :=
  { cell := fun a =>
      if a = 6 then 0xD0 else if a = 7 then 0x07 else if a = 8 ∨ a = 9 then 0
      else if 96 ≤ a ∧ a < 4096 then 0 else 255
    stored := fun _ _ v => v
    length := 4096
    writes := 0 }

/-- The medium `calibrated` after `newPersistentArea("A", 66)`: the cell fills the region. -/
def calibratedA : Eeprom :=
  stateAfter (newPersistentArea 3 calibrated [65] 66 local0 local0)

/-- A medium that holds 0xFF everywhere, the calibration sizes included. -/
def factory : Eeprom :=
  { cell := fun _ => 255
    stored := fun _ _ v => v
    length := 4096
    writes := 0 }

/-- The medium `blank` after `newPersistentArea("A", 0)`. -/
def area0 : Eeprom :=
  stateAfter (newPersistentArea 3 blank [65] 0 local0 local0)

/-- The medium `calibratedA` with 0xFF instead of 0 in the first calibration value, at the
addresses 96 and 97 just past the allocatable region. -/
def calibratedFF : Eeprom :=
  { calibratedA with cell := fun a => if a = 96 ∨ a = 97 then 255 else calibratedA.cell a }

/-- The medium `freedA` after `newPersistentArea("C", 5)`, which takes the freed cell of
capacity 30 at 10. -/
def reusedC : Eeprom :=
  stateAfter (newPersistentArea 4 freedA [67] 5 local0 local0)

/-- The medium `blank` after `newPersistentArea("AAAAAAAAAAAAAAAA", 1)`: the 16 characters of
the name fill the name field at `[14, 30)`. -/
def areaLong : Eeprom :=
  stateAfter (newPersistentArea 3 blank (List.replicate 16 65) 1 local0 local0)

/-- The medium `blank` with a `next` field of 0 in the header at 10. -/
def zeroNext : Eeprom :=
  { blank with cell := fun a => if a = 10 ∨ a = 11 then 0 else blank.cell a }

/-- The medium `blank` after `newPersistentArea("X", 65517)`, which the code accepts: the header
at 10 holds `next` = (20 + 65517) mod 65536 = 1 and `data` = 20. -/
def areaX : Eeprom :=
  stateAfter (newPersistentArea 3 blank [88] 65517 local0 local0)

/-- The medium `areaX` after `freePersistentArea("X")`: a freed cell of one byte at 10. -/
def freedX : Eeprom :=
  stateAfter (freePersistentArea 3 areaX [88] local0)

/-- The medium `freedX` after `newPersistentArea("B", 5)`, which stores the header of "B"
at 11. -/
def areaXB : Eeprom :=
  stateAfter (newPersistentArea 5 freedX [66] 5 local0 local0)

/-- The medium `areaAB` whose cell at address 12, the low byte of the `data` field of "A", has
worn out since: it keeps what it holds whatever is written to it. -/
def wornAB : Eeprom :=
  { areaAB with stored := fun a old v => if a = 12 then old else v }

/-- The medium `factory` with a worn cell at address 10, which keeps what it holds whatever is
written to it. -/
def wornFactory : Eeprom :=
  { factory with stored := fun a old v => if a = 10 then old else v }

/-- The medium `freedA` after `newPersistentArea("C", 7)`, which takes the freed cell of
capacity 30 at 10. -/
def reusedC7 : Eeprom :=
  stateAfter (newPersistentArea 4 freedA [67] 7 local0 local0)

/-! ## Predicates of the statements -/

/-- `e2` differs from `e1` at most in the cells `[lo, hi)`: same driver, same length. -/
def Outside (lo hi : Nat) (e1 e2 : Eeprom) : Prop :=
  e2.stored = e1.stored ∧ e2.length = e1.length ∧ ∀ a, a < lo ∨ hi ≤ a → e2.cell a = e1.cell a

/-- The configuration the allocator is meant for: the allocatable region ends inside the
medium, and the medium is no larger than the 4096 bytes of the Mega 2560. -/
def Sane (e : Eeprom) : Prop :=
  EPR_END_FREE e ≤ e.length ∧ e.length ≤ 4096

/-- `ChainTo e m target c`: following the stored `next` offsets from the header address `c`
leads to the header address `target`, every cell passed on the way being at least `m` bytes
long. -/
inductive ChainTo (e : Eeprom) (m : Nat) (target : Nat) : Nat → Prop
  | here : ChainTo e m target target
  | step {c : Nat} : m ≤ EEPROM_RD_INT e c → ChainTo e m target (c + EEPROM_RD_INT e c) →
      ChainTo e m target c

/-- `e2` has the length of `e1` and the same content in every cell below `h`. -/
def SameBelow (h : Nat) (e1 e2 : Eeprom) : Prop :=
  e2.length = e1.length ∧ ∀ a, a < h → e2.cell a = e1.cell a

/-- When `findNewPersistentArea` takes the cell whose header it has just read. -/
def Usable (e : Eeprom) (dataSize : Nat) (header : persistentAreaHeader) : Prop :=
  header.data = 0xffff ∧
    ((header.next = 0xffff ∧
        (header.next + PERSISTENT_AREA_PREFIX_SIZE + dataSize) % 65536 < EPR_END_FREE e) ∨
      (header.next ≠ 0xffff ∧ header.next ≥ (PERSISTENT_AREA_PREFIX_SIZE + dataSize) % 65536))

instance decidableUsable (e : Eeprom) (dataSize : Nat) (header : persistentAreaHeader) :
    Decidable (Usable e dataSize header) := by
  unfold Usable
  infer_instance

/-- The region of `e` from `a` on is virgin and has room for a header: `a + 20` lies before
`EPR_END_FREE` and every byte of `[a, EPR_END_FREE)` is 0xFF. -/
def VirginFrom (e : Eeprom) (a : Nat) : Prop :=
  a + 20 < EPR_END_FREE e ∧ ∀ x, a ≤ x → x < EPR_END_FREE e → EEPROM_read e x = 0xff

/-- The header at `a` is that of a live area of `n` payload bytes: `next` is `20 + n` and
`data` is 20. -/
def LiveAt (e : Eeprom) (a n : Nat) : Prop :=
  EEPROM_RD_INT e a = 20 + n ∧ EEPROM_RD_INT e (a + 2) = 20

/-- The header at `a` is that of a freed cell of `N` bytes: `next` is `N`, at least the size
of a header, and `data` is 0xFFFF. -/
def FreedAt (e : Eeprom) (a N : Nat) : Prop :=
  20 ≤ N ∧ EEPROM_RD_INT e a = N ∧ EEPROM_RD_INT e (a + 2) = 0xffff

/-- `Layout e req a`: from the header address `a` on, the region of `e` is a row of cells, live
or freed, each at least a header long, followed by virgin space that has room for a header
before `EPR_END_FREE`; `req` gives, by header address, the payload size that was asked for when
the live area there was allocated. -/
inductive Layout (e : Eeprom) (req : Nat → Option Nat) : Nat → Prop
  | tail {a : Nat} : VirginFrom e a → Layout e req a
  | live {a n : Nat} : LiveAt e a n → req a = some n → Layout e req (a + (20 + n)) →
      Layout e req a
  | freed {a N : Nat} : FreedAt e a N → Layout e req (a + N) → Layout e req a

/-- `Reached e req`: the medium `e` is reached from a sound medium with a virgin allocatable
region by calls that succeed within their contracts, and `req` records the payload size asked
for at the allocation of each live area, by header address. The calls are
`newPersistentArea(name, n)` returning the data address `h + 20` of a cell that is virgin or
a freed cell of exactly the capacity asked for, and that leaves room for a further header
before `EPR_END_FREE`; `freePersistentArea(name)` returning 1 and leaving the payload range
0xFF; `persistentWriteArea(name, n, data)` to a live area with its stored size `n`. -/
inductive Reached : Eeprom → (Nat → Option Nat) → Prop
  | virgin (e : Eeprom) : Reliable e → Sane e → 30 < EPR_END_FREE e →
      (∀ x, EPR_START_FREE ≤ x → x < EPR_END_FREE e → EEPROM_read e x = 0xff) →
      Reached e (fun _ => none)
  | alloc {e : Eeprom} {req : Nat → Option Nat} (fuel : Nat) (name : List Nat) (n h : Nat)
      (lf lh : HeaderLocal) (e1 : Eeprom) : Reached e req →
      256 ≤ lh.ptr ∧ lh.ptr + 20 ≤ 65536 →
      newPersistentArea fuel e name n lf lh = some (h + 20, e1) →
      h + 40 + n < EPR_END_FREE e →
      (EEPROM_RD_INT e h = 0xffff ∨ EEPROM_RD_INT e h = 20 + n) →
      Reached e1 (Function.update req h (some n))
  | free {e : Eeprom} {req : Nat → Option Nat} (fuel : Nat) (name : List Nat) (h : Nat)
      (hl : HeaderLocal) (e1 : Eeprom) : Reached e req →
      256 ≤ hl.ptr ∧ hl.ptr + 20 ≤ 65536 →
      getPersistentHeaderAddress fuel e name = some h →
      freePersistentArea fuel e name hl = some (1, e1) →
      (∀ x, h + 20 ≤ x → x < h + EEPROM_RD_INT e h → EEPROM_read e1 x = 0xff) →
      Reached e1 (Function.update req h none)
  | write {e : Eeprom} {req : Nat → Option Nat} (fuel : Nat) (name : List Nat) (n : Nat)
      (data : List Nat) (h : Nat) (hl : HeaderLocal) (rc : Int) (e1 : Eeprom) : Reached e req →
      getPersistentHeaderAddress fuel e name = some h → h ≠ 0 →
      EEPROM_RD_INT e (h + 2) ≠ 0xffff →
      (EEPROM_RD_INT e h + 65536 - EEPROM_RD_INT e (h + 2)) % 65536 = n →
      persistentWriteArea fuel e name n data hl = some (rc, e1) →
      Reached e1 req

/-! ## Lemmas -/

theorem Outside.refl (lo hi : Nat) (e : Eeprom) : Outside lo hi e e :=
  ⟨Eq.refl _, Eq.refl _, fun _ _ => Eq.refl _⟩

theorem Outside.mono {lo hi p q : Nat} {e1 e2 : Eeprom} (h : Outside lo hi e1 e2)
    (hlo : p ≤ lo) (hhi : hi ≤ q) : Outside p q e1 e2 :=
  ⟨h.1, h.2.1, fun a ha => h.2.2 a (by omega)⟩

theorem Outside.trans {lo hi : Nat} {e1 e2 e3 : Eeprom} (h12 : Outside lo hi e1 e2)
    (h23 : Outside lo hi e2 e3) : Outside lo hi e1 e3 :=
  ⟨h23.1.trans h12.1, h23.2.1.trans h12.2.1, fun a ha => (h23.2.2 a ha).trans (h12.2.2 a ha)⟩

theorem Outside.reliable {lo hi : Nat} {e1 e2 : Eeprom} (h : Outside lo hi e1 e2)
    (hrel : Reliable e1) : Reliable e2 := by
  intro a old v
  rw [h.1]
  exact hrel a old v

theorem Outside.readOutside {lo hi : Nat} {e1 e2 : Eeprom} (h : Outside lo hi e1 e2) (a : Nat)
    (ha : a % 65536 < lo ∨ hi ≤ a % 65536) : EEPROM_read e2 a = EEPROM_read e1 a := by
  unfold EEPROM_read
  rw [h.2.2 _ ha]

theorem EEPROM_read_lt (e : Eeprom) (a : Nat) : EEPROM_read e a < 256 := by
  unfold EEPROM_read
  omega

theorem Outside_write (e : Eeprom) (idx val : Nat) (h : idx < 65536) :
    Outside idx (idx + 1) e (EEPROM_write e idx val) := by
  refine ⟨Eq.refl _, Eq.refl _, fun a ha => ?_⟩
  have hne : a ≠ idx % 65536 := by omega
  simp [EEPROM_write, hne]

theorem EEPROM_read_write_same (e : Eeprom) (hrel : Reliable e) (idx val : Nat) :
    EEPROM_read (EEPROM_write e idx val) idx = val % 256 := by
  simp [EEPROM_read, EEPROM_write, hrel _ _ _]

theorem persistentStore_loop_spec (dataPtr : Nat) (data : List Nat) (size total : Nat)
    (hp : 256 ≤ dataPtr) (hp2 : dataPtr + total ≤ 65536) :
    ∀ (k addr j : Nat) (e : Eeprom), Reliable e → j + k ≤ total → addr + k ≤ 65536 →
      (persistentStore.loop dataPtr data size k addr j e).1 = (size : Int) ∧
      Outside addr (addr + k) e (persistentStore.loop dataPtr data size k addr j e).2 ∧
      ∀ i, i < k →
        EEPROM_read (persistentStore.loop dataPtr data size k addr j e).2 (addr + i)
          = data.getD (j + i) 0 % 256 := by
  intro k
  induction k with
  | zero =>
    intro addr j e _ _ _
    refine ⟨Eq.refl _, ?_, fun i hi => absurd hi (Nat.not_lt_zero i)⟩
    exact Outside.refl _ _ _
  | succ k ih =>
    intro addr j e hrel hj ha
    have hne : EEPROM_read e addr ≠ (dataPtr + j) % 65536 := by
      have := EEPROM_read_lt e addr
      omega
    have hrd := EEPROM_read_write_same e hrel addr (data.getD j 0)
    have hout := Outside_write e addr (data.getD j 0) (by omega)
    have hstep : persistentStore.loop dataPtr data size (k + 1) addr j e
        = persistentStore.loop dataPtr data size k (addr + 1) (j + 1)
            (EEPROM_write e addr (data.getD j 0)) := by
      rw [persistentStore.loop]
      simp only [hne, hrd, ne_eq, not_true_eq_false, not_false_eq_true, if_true, if_false]
    rw [hstep]
    obtain ⟨h1, h2, h3⟩ := ih (addr + 1) (j + 1) _ (hout.reliable hrel) (by omega) (by omega)
    refine ⟨h1, ?_, ?_⟩
    · exact (hout.mono (Nat.le_refl _) (by omega)).trans (h2.mono (by omega) (by omega))
    · intro i hi
      cases i with
      | zero =>
        have hr := h2.readOutside addr (by omega)
        simp only [Nat.add_zero]
        rw [hr]
        exact hrd
      | succ i =>
        have := h3 i (by omega)
        rw [show addr + (i + 1) = addr + 1 + i by omega, show j + (i + 1) = j + 1 + i by omega]
        exact this

theorem persistentStore_spec (e : Eeprom) (hrel : Reliable e) (addr dataPtr : Nat)
    (data : List Nat) (size : Nat) (hp : 256 ≤ dataPtr) (hp2 : dataPtr + size ≤ 65536)
    (ha : addr + size ≤ 65536) :
    (persistentStore e addr dataPtr data size).1 = (size : Int) ∧
    Outside addr (addr + size) e (persistentStore e addr dataPtr data size).2 ∧
    ∀ i, i < size →
      EEPROM_read (persistentStore e addr dataPtr data size).2 (addr + i) = data.getD i 0 % 256 := by
  have h := persistentStore_loop_spec dataPtr data size size hp hp2 size addr 0 e hrel
    (by omega) ha
  simpa [persistentStore] using h

theorem persistentClear_loop_spec (addr clearWith size : Nat) :
    ∀ (k addrWr : Nat) (e : Eeprom), Reliable e → addrWr + k ≤ 65536 →
      (persistentClear.loop addr clearWith size k addrWr e).1 = (size : Int) ∧
      Outside addrWr (addrWr + k) e (persistentClear.loop addr clearWith size k addrWr e).2 := by
  intro k
  induction k with
  | zero =>
    intro addrWr e _ _
    exact ⟨Eq.refl _, Outside.refl _ _ _⟩
  | succ k ih =>
    intro addrWr e hrel ha
    rw [persistentClear.loop]
    by_cases hc : EEPROM_read e addrWr = clearWith % 256
    · simp only [hc, ne_eq, not_true_eq_false, if_false]
      obtain ⟨h1, h2⟩ := ih addrWr e hrel (by omega)
      exact ⟨h1, h2.mono (Nat.le_refl _) (by omega)⟩
    · have hrd := EEPROM_read_write_same e hrel addrWr clearWith
      have hout := Outside_write e addrWr clearWith (by omega)
      have hm : (addrWr + 1) % 4294967296 = addrWr + 1 := by omega
      simp only [hc, hrd, hm, ne_eq, not_true_eq_false, not_false_eq_true, if_true, if_false]
      obtain ⟨h1, h2⟩ := ih (addrWr + 1) _ (hout.reliable hrel) (by omega)
      exact ⟨h1, (hout.mono (Nat.le_refl _) (by omega)).trans (h2.mono (by omega) (by omega))⟩

theorem persistentClear_spec (e : Eeprom) (hrel : Reliable e) (addr clearWith size : Nat)
    (ha : addr + size ≤ 65536) :
    (persistentClear e addr clearWith size).1 = (size : Int) ∧
    Outside addr (addr + size) e (persistentClear e addr clearWith size).2 :=
  persistentClear_loop_spec addr clearWith size size addr e hrel ha

theorem toChar_mod (b : Nat) : toChar (b % 256) = toChar b := by
  unfold toChar
  simp

theorem toChar_eq_natCast {r b : Nat} (h : (r : Int) = toChar b) : r = b % 256 := by
  unfold toChar at h
  split at h <;> omega

theorem persistentWriteArea_loop_spec (start dataSize : Nat) (data : List Nat) :
    ∀ (k addrWr j : Nat) (e : Eeprom), Reliable e → addrWr + k ≤ 65536 → start ≤ addrWr →
      (persistentWriteArea.loop start dataSize data k addrWr j e).1
        = toInt16 ((addrWr + k - start : Nat) : Int) ∧
      Outside addrWr (addrWr + k) e (persistentWriteArea.loop start dataSize data k addrWr j e).2 ∧
      ∀ i, i < k →
        EEPROM_read (persistentWriteArea.loop start dataSize data k addrWr j e).2 (addrWr + i)
          = data.getD (j + i) 0 % 256 := by
  intro k
  induction k with
  | zero =>
    intro addrWr j e _ ha hs
    refine ⟨?_, Outside.refl _ _ _, fun i hi => absurd hi (Nat.not_lt_zero i)⟩
    rw [persistentWriteArea.loop]
    have : (addrWr + 4294967296 - start) % 4294967296 = addrWr + 0 - start := by omega
    simp only [this]
  | succ k ih =>
    intro addrWr j e hrel ha hs
    rw [persistentWriteArea.loop]
    by_cases hc : ((EEPROM_read e addrWr : Nat) : Int) = toChar (data.getD j 0)
    · simp only [hc, ne_eq, not_true_eq_false, if_false]
      obtain ⟨h1, h2, h3⟩ := ih (addrWr + 1) (j + 1) e hrel (by omega) (by omega)
      refine ⟨?_, h2.mono (by omega) (by omega), ?_⟩
      · rw [h1, show addrWr + 1 + k - start = addrWr + (k + 1) - start by omega]
      · intro i hi
        cases i with
        | zero =>
          have hr := h2.readOutside addrWr (by omega)
          simp only [Nat.add_zero]
          rw [hr]
          exact toChar_eq_natCast hc
        | succ i =>
          have := h3 i (by omega)
          rw [show addrWr + (i + 1) = addrWr + 1 + i by omega,
            show j + (i + 1) = j + 1 + i by omega]
          exact this
    · have hrd := EEPROM_read_write_same e hrel addrWr (data.getD j 0)
      have hout := Outside_write e addrWr (data.getD j 0) (by omega)
      have hv : toChar (EEPROM_read (EEPROM_write e addrWr (data.getD j 0)) addrWr)
          = toChar (data.getD j 0) := by
        rw [hrd, toChar_mod]
      simp only [hc, hv, ne_eq, not_true_eq_false, not_false_eq_true, if_true, if_false]
      obtain ⟨h1, h2, h3⟩ := ih (addrWr + 1) (j + 1) _ (hout.reliable hrel) (by omega) (by omega)
      refine ⟨?_, ?_, ?_⟩
      · rw [h1, show addrWr + 1 + k - start = addrWr + (k + 1) - start by omega]
      · exact (hout.mono (Nat.le_refl _) (by omega)).trans (h2.mono (by omega) (by omega))
      · intro i hi
        cases i with
        | zero =>
          have hr := h2.readOutside addrWr (by omega)
          simp only [Nat.add_zero]
          rw [hr]
          exact hrd
        | succ i =>
          have := h3 i (by omega)
          rw [show addrWr + (i + 1) = addrWr + 1 + i by omega,
            show j + (i + 1) = j + 1 + i by omega]
          exact this

theorem ChainTo.le {e : Eeprom} {m target c : Nat} (h : ChainTo e m target c) : c ≤ target := by
  induction h with
  | here => exact Nat.le_refl _
  | step _ _ ih => omega

theorem SameBelow.self (h : Nat) (e : Eeprom) : SameBelow h e e :=
  ⟨Eq.refl _, fun _ _ => Eq.refl _⟩

theorem Outside.sameBelow {lo hi h : Nat} {e1 e2 : Eeprom} (ho : Outside lo hi e1 e2)
    (hh : h ≤ lo) : SameBelow h e1 e2 :=
  ⟨ho.2.1, fun a ha => ho.2.2 a (by omega)⟩

theorem SameBelow.readBelow {h : Nat} {e1 e2 : Eeprom} (hs : SameBelow h e1 e2) (a : Nat)
    (ha : a % 65536 < h) : EEPROM_read e2 a = EEPROM_read e1 a := by
  unfold EEPROM_read
  rw [hs.2 _ ha]

theorem EEPROM_RD_INT_congr {e1 e2 : Eeprom} {a : Nat}
    (h0 : EEPROM_read e2 a = EEPROM_read e1 a)
    (h1 : EEPROM_read e2 (a + 1) = EEPROM_read e1 (a + 1)) :
    EEPROM_RD_INT e2 a = EEPROM_RD_INT e1 a := by
  unfold EEPROM_RD_INT
  rw [h0, h1]

theorem SameBelow.endFree {h : Nat} {e1 e2 : Eeprom} (hs : SameBelow h e1 e2) (hh : 10 ≤ h) :
    EPR_END_FREE e2 = EPR_END_FREE e1 := by
  have h6 := hs.readBelow 6 (by omega)
  have h7 := hs.readBelow 7 (by omega)
  have h8 := hs.readBelow 8 (by omega)
  have h9 := hs.readBelow 9 (by omega)
  unfold EPR_END_FREE ADR_TFT_CALIBR_Y ADR_TFT_CALIBR_X EEPROM_SIZE
  rw [EEPROM_RD_INT_congr (a := EPR16_TFT_CALIBR_X_S) h6 h7,
    EEPROM_RD_INT_congr (a := EPR16_TFT_CALIBR_Y_S) h8 h9, hs.1]

theorem SameBelow.sane {h : Nat} {e1 e2 : Eeprom} (hs : SameBelow h e1 e2) (hh : 10 ≤ h)
    (h1 : Sane e1) : Sane e2 := by
  unfold Sane
  rw [hs.endFree hh, hs.1]
  exact h1

theorem persistentStrCmp_loop_congr {e1 e2 : Eeprom} (s2 : List Nat) :
    ∀ (k s1 i : Nat), (∀ t, t < k → EEPROM_read e2 (s1 + t) = EEPROM_read e1 (s1 + t)) →
      persistentStrCmp.loop e2 s2 k s1 i = persistentStrCmp.loop e1 s2 k s1 i := by
  intro k
  induction k with
  | zero => intro s1 i _; rfl
  | succ k ih =>
    intro s1 i h
    rw [persistentStrCmp.loop, persistentStrCmp.loop]
    have h0 := h 0 (by omega)
    simp only [Nat.add_zero] at h0
    have hrec := ih (s1 + 1) (i + 1) (fun t ht => by
      have := h (t + 1) (by omega)
      rw [show s1 + 1 + t = s1 + (t + 1) by omega]
      exact this)
    simp only [EEPROM_RD_BYTE, h0, hrec]

theorem persistentStrCmp_congr {e1 e2 : Eeprom} (s1 : Nat) (s2 : List Nat)
    (h : ∀ t, t < 16 → EEPROM_read e2 (s1 + t) = EEPROM_read e1 (s1 + t)) :
    persistentStrCmp e2 s1 s2 = persistentStrCmp e1 s1 s2 :=
  persistentStrCmp_loop_congr s2 16 s1 0 h

theorem persistentRead_congr {e1 e2 : Eeprom} (a n : Nat)
    (h : ∀ t, t < n → EEPROM_read e2 (a + t) = EEPROM_read e1 (a + t)) :
    persistentRead e2 a n = persistentRead e1 a n := by
  unfold persistentRead
  apply List.map_congr_left
  intro t ht
  exact h t (List.mem_range.mp ht)

theorem persistentRead_getD (e : Eeprom) (a n i : Nat) (h : i < n) :
    (persistentRead e a n).getD i 0 = EEPROM_read e (a + i) := by
  unfold persistentRead
  simp [List.getD, h]

theorem readHeader_next (e : Eeprom) (a : Nat) :
    (headerOfBytes (persistentRead e a 20)).next = EEPROM_RD_INT e a := by
  have h0 := persistentRead_getD e a 20 0 (by omega)
  have h1 := persistentRead_getD e a 20 1 (by omega)
  have b0 := EEPROM_read_lt e a
  have b1 := EEPROM_read_lt e (a + 1)
  simp only [Nat.add_zero] at h0
  simp only [headerOfBytes, h0, h1, EEPROM_RD_INT]
  omega

theorem readHeader_data (e : Eeprom) (a : Nat) :
    (headerOfBytes (persistentRead e a 20)).data = EEPROM_RD_INT e (a + 2) := by
  have h0 := persistentRead_getD e a 20 2 (by omega)
  have h1 := persistentRead_getD e a 20 3 (by omega)
  have b0 := EEPROM_read_lt e (a + 2)
  have b1 := EEPROM_read_lt e (a + 3)
  simp only [headerOfBytes, h0, h1, EEPROM_RD_INT, show a + 2 + 1 = a + 3 by omega]
  omega

theorem EEPROM_RD_INT_lt (e : Eeprom) (a : Nat) : EEPROM_RD_INT e a < 65536 := by
  unfold EEPROM_RD_INT
  omega

/-- One iteration of the walk of `getPersistentHeaderAddress` at a header that carries
another name. -/
theorem lookup_loop_skip (e : Eeprom) (name : List Nat) (fuel c : Nat)
    (hlt : c < EPR_END_FREE e) (hne : c ≠ 0xffff)
    (hcmp : persistentStrCmp e (c + 4) name ≠ 0) :
    getPersistentHeaderAddress.loop e name (fuel + 1) c
      = getPersistentHeaderAddress.loop e name fuel ((c + EEPROM_RD_INT e c) % 4294967296) := by
  rw [getPersistentHeaderAddress.loop]
  simp only [hlt, hne, hcmp, if_true, if_false]

/-- One iteration of the walk of `getPersistentHeaderAddress` at a header that carries the
name. -/
theorem lookup_loop_hit (e : Eeprom) (name : List Nat) (fuel c : Nat)
    (hlt : c < EPR_END_FREE e) (hne : c ≠ 0xffff)
    (hcmp : persistentStrCmp e (c + 4) name = 0) :
    getPersistentHeaderAddress.loop e name (fuel + 1) c = some c := by
  rw [getPersistentHeaderAddress.loop]
  simp only [hlt, hne, hcmp, if_true, if_false]

/-- The walk of `getPersistentHeaderAddress` at an address past the region. -/
theorem lookup_loop_past (e : Eeprom) (name : List Nat) (fuel c : Nat)
    (hge : EPR_END_FREE e ≤ c) :
    getPersistentHeaderAddress.loop e name (fuel + 1) c = some 0 := by
  rw [getPersistentHeaderAddress.loop]
  have : ¬ c < EPR_END_FREE e := by omega
  simp only [this, if_false]

theorem lookup_loop_mono (e : Eeprom) (name : List Nat) :
    ∀ (fuel c r : Nat), getPersistentHeaderAddress.loop e name fuel c = some r →
      ∀ k, getPersistentHeaderAddress.loop e name (fuel + k) c = some r := by
  intro fuel
  induction fuel with
  | zero =>
    intro c r h
    rw [getPersistentHeaderAddress.loop] at h
    exact absurd h (by simp)
  | succ f ih =>
    intro c r h k
    rw [show f + 1 + k = (f + k) + 1 by omega]
    rw [getPersistentHeaderAddress.loop] at h ⊢
    split_ifs at h ⊢ with h1 h2 h3
    · exact h
    · exact h
    · exact ih _ _ h k
    · exact h

/-- The walk of `getPersistentHeaderAddress` passes the cells of a chain that leads to `h`
when it ends with a result that none of them explains, and it does so on every medium with the
same content below `h`. -/
theorem lookup_passes {e : Eeprom} (name : List Nat) {h : Nat} (hs : Sane e) :
    ∀ {c : Nat}, ChainTo e 20 h c → 10 ≤ c → h < EPR_END_FREE e →
      ∀ (fuel r : Nat), getPersistentHeaderAddress.loop e name fuel c = some r →
        (r = 0 ∨ h ≤ r) →
        ∃ k, k < fuel ∧ ∀ e2, SameBelow h e e2 → ∀ g,
          getPersistentHeaderAddress.loop e2 name (k + g) c
            = getPersistentHeaderAddress.loop e2 name g h := by
  intro c hc
  induction hc with
  | here =>
    intro _ _ fuel r hr _
    refine ⟨0, ?_, fun e2 _ g => by rw [Nat.zero_add]⟩
    cases fuel with
    | zero =>
      rw [getPersistentHeaderAddress.loop] at hr
      exact absurd hr (by simp)
    | succ f => omega
  | @step c hm hrest ih =>
    intro hc10 hend fuel r hr hrr
    have hle := hrest.le
    have hnx := EEPROM_RD_INT_lt e c
    have hE : EPR_END_FREE e ≤ 4096 := Nat.le_trans hs.1 hs.2
    have hlt : c < EPR_END_FREE e := by omega
    have hne : c ≠ 0xffff := by omega
    have hmod : (c + EEPROM_RD_INT e c) % 4294967296 = c + EEPROM_RD_INT e c := by omega
    cases fuel with
    | zero =>
      rw [getPersistentHeaderAddress.loop] at hr
      exact absurd hr (by simp)
    | succ f =>
      have hcmp : persistentStrCmp e (c + 4) name ≠ 0 := by
        intro h0
        rw [lookup_loop_hit e name f c hlt hne h0] at hr
        have : c = r := Option.some.inj hr
        omega
      rw [lookup_loop_skip e name f c hlt hne hcmp, hmod] at hr
      obtain ⟨k, hk, hall⟩ := ih (by omega) hend f r hr hrr
      refine ⟨k + 1, by omega, fun e2 h2 g => ?_⟩
      have hend2 := h2.endFree (by omega)
      have hcmp2 : persistentStrCmp e2 (c + 4) name = persistentStrCmp e (c + 4) name :=
        persistentStrCmp_congr _ _ (fun t ht => h2.readBelow _ (by omega))
      have hnx2 : EEPROM_RD_INT e2 c = EEPROM_RD_INT e c :=
        EEPROM_RD_INT_congr (h2.readBelow _ (by omega)) (h2.readBelow _ (by omega))
      rw [show k + 1 + g = (k + g) + 1 by omega,
        lookup_loop_skip e2 name (k + g) c (by omega) hne (by rw [hcmp2]; exact hcmp),
        hnx2, hmod]
      exact hall e2 h2 g

theorem EPR_END_FREE_lt (e : Eeprom) : EPR_END_FREE e < 4294967296 := by
  unfold EPR_END_FREE ADR_TFT_CALIBR_Y
  omega

/-- `persistentReadHeader` at the data address of a header that lies inside the region. -/
theorem persistentReadHeader_ok (e : Eeprom) (c : Nat) (header : persistentAreaHeader)
    (hlt : c + 20 < EPR_END_FREE e) :
    persistentReadHeader e ((c + PERSISTENT_AREA_PREFIX_SIZE) % 4294967296) header
      = (c + 20, headerOfBytes (persistentRead e c 20)) := by
  have hE := EPR_END_FREE_lt e
  have h1 : (c + 20) % 4294967296 = c + 20 := by omega
  have h2 : (c + 20 + 4294967296 - 20) % 4294967296 = c := by omega
  have h3 : ¬ (c + 20 < 10 ∨ c + 20 ≥ EPR_END_FREE e) := by omega
  simp only [persistentReadHeader, PERSISTENT_AREA_PREFIX_SIZE, EPR_START_FREE, h1, h2, h3,
    if_false]

/-- One iteration of the loop of `findNewPersistentArea`. -/
theorem find_loop_succ (e : Eeprom) (n fuel addr : Nat) (header : persistentAreaHeader) :
    findNewPersistentArea.loop e n (fuel + 1) addr header
      = if addr < EPR_END_FREE e then
          if Usable e n
              (persistentReadHeader e ((addr + PERSISTENT_AREA_PREFIX_SIZE) % 4294967296) header).2
          then some ((addr + PERSISTENT_AREA_PREFIX_SIZE) % 4294967296)
          else findNewPersistentArea.loop e n fuel
            ((addr + (persistentReadHeader e
              ((addr + PERSISTENT_AREA_PREFIX_SIZE) % 4294967296) header).2.next) % 4294967296)
            (persistentReadHeader e ((addr + PERSISTENT_AREA_PREFIX_SIZE) % 4294967296) header).2
        else some 0 := by
  rw [findNewPersistentArea.loop]
  generalize (persistentReadHeader e ((addr + PERSISTENT_AREA_PREFIX_SIZE) % 4294967296)
    header).2 = H
  unfold Usable
  by_cases h0 : addr < EPR_END_FREE e
  · simp only [h0, if_true]
    by_cases h1 : H.data = 0xffff
    · by_cases h2 : H.next = 0xffff
      · by_cases h3 : (H.next + PERSISTENT_AREA_PREFIX_SIZE + n) % 65536 < EPR_END_FREE e
        · simp [h1, h2, h3]
        · simp [h1, h2, h3]
      · by_cases h3 : H.next ≥ (PERSISTENT_AREA_PREFIX_SIZE + n) % 65536
        · simp [h1, h2, h3]
        · simp [h1, h2, h3]
    · simp [h1]
  · simp only [h0, if_false]

/-- The walk of `findNewPersistentArea` passes the cells of a chain that leads to `h` when it
ends with a result that none of them explains, and it does so on every medium with the same
content below `h`. -/
theorem find_passes {e : Eeprom} (n : Nat) {h : Nat} (hs : Sane e) :
    ∀ {c : Nat}, ChainTo e 20 h c → 10 ≤ c → h < EPR_END_FREE e →
      ∀ (fuel : Nat) (hdr : persistentAreaHeader) (r : Nat),
        findNewPersistentArea.loop e n fuel c hdr = some r → (r = 0 ∨ h + 20 ≤ r) →
        ∃ k, k < fuel ∧ ∀ e2, SameBelow h e e2 → ∀ g hdr0, ∃ hdr1,
          findNewPersistentArea.loop e2 n (k + g) c hdr0
            = findNewPersistentArea.loop e2 n g h hdr1 := by
  intro c hc
  induction hc with
  | here =>
    intro _ _ fuel hdr r hr _
    refine ⟨0, ?_, fun e2 _ g hdr0 => ⟨hdr0, by rw [Nat.zero_add]⟩⟩
    cases fuel with
    | zero =>
      rw [findNewPersistentArea.loop] at hr
      exact absurd hr (by simp)
    | succ f => omega
  | @step c hm hrest ih =>
    intro hc10 hend fuel hdr r hr hrr
    have hle := hrest.le
    have hnx := EEPROM_RD_INT_lt e c
    have hE : EPR_END_FREE e ≤ 4096 := Nat.le_trans hs.1 hs.2
    have hlt : c < EPR_END_FREE e := by omega
    have hmod : (c + EEPROM_RD_INT e c) % 4294967296 = c + EEPROM_RD_INT e c := by omega
    have hmod2 : (c + PERSISTENT_AREA_PREFIX_SIZE) % 4294967296 = c + 20 := by
      unfold PERSISTENT_AREA_PREFIX_SIZE
      omega
    cases fuel with
    | zero =>
      rw [findNewPersistentArea.loop] at hr
      exact absurd hr (by simp)
    | succ f =>
      rw [find_loop_succ, if_pos hlt, persistentReadHeader_ok e c hdr (by omega)] at hr
      simp only [readHeader_next] at hr
      have hnu : ¬ Usable e n (headerOfBytes (persistentRead e c 20)) := by
        intro hu
        rw [if_pos hu, hmod2] at hr
        have : c + 20 = r := Option.some.inj hr
        omega
      rw [if_neg hnu, hmod] at hr
      obtain ⟨k, hk, hall⟩ := ih (by omega) hend f _ r hr hrr
      refine ⟨k + 1, by omega, fun e2 h2 g hdr0 => ?_⟩
      have hend2 := h2.endFree (by omega)
      have hrd2 : persistentRead e2 c 20 = persistentRead e c 20 :=
        persistentRead_congr _ _ (fun t ht => h2.readBelow _ (by omega))
      have hnu2 : ¬ Usable e2 n (headerOfBytes (persistentRead e c 20)) := by
        unfold Usable at hnu ⊢
        rw [hend2]
        exact hnu
      obtain ⟨hdr1, h1⟩ := hall e2 h2 g (headerOfBytes (persistentRead e c 20))
      refine ⟨hdr1, ?_⟩
      rw [show k + 1 + g = (k + g) + 1 by omega, find_loop_succ, if_pos (by omega),
        persistentReadHeader_ok e2 c hdr0 (by omega), hrd2, if_neg hnu2]
      simp only [readHeader_next]
      rw [hmod]
      exact h1

/-- The loop of `findNewPersistentArea` at a header inside the region that is usable. -/
theorem find_loop_hit (e : Eeprom) (n fuel c : Nat) (hdr : persistentAreaHeader)
    (hlt : c + 20 < EPR_END_FREE e)
    (hu : Usable e n (headerOfBytes (persistentRead e c 20))) :
    findNewPersistentArea.loop e n (fuel + 1) c hdr = some (c + 20) := by
  have hE := EPR_END_FREE_lt e
  rw [find_loop_succ, if_pos (by omega), persistentReadHeader_ok e c hdr hlt, if_pos hu]
  unfold PERSISTENT_AREA_PREFIX_SIZE
  congr 1
  omega

theorem toChar_injOn {a b : Nat} (h : toChar a = toChar b) : a % 256 = b % 256 := by
  unfold toChar at h
  split at h <;> split at h <;> omega

theorem toChar_eq_zero {a : Nat} (h : toChar a + toChar a = 0) : a % 256 = 0 := by
  unfold toChar at h
  split at h <;> omega

theorem strncpy_getD : ∀ (name : List Nat) (n i : Nat), i < n →
    (∀ j, j < i → name.getD j 0 % 256 ≠ 0) →
    (strncpy name n).getD i 0 = name.getD i 0 % 256 := by
  intro name
  induction name with
  | nil =>
    intro n
    induction n with
    | zero => intro i hi; omega
    | succ n ihn =>
      intro i hi hj
      cases i with
      | zero => simp [strncpy]
      | succ i =>
        have := hj 0 (by omega)
        simp at this
  | cons c cs ih =>
    intro n i hi hj
    cases n with
    | zero => omega
    | succ n =>
      cases i with
      | zero =>
        rw [strncpy]
        split_ifs with hc
        · simp [hc]
        · simp
      | succ i =>
        have hc := hj 0 (by omega)
        simp only [List.getD_cons_zero] at hc
        rw [strncpy, if_neg hc]
        simp only [List.getD_cons_succ]
        apply ih n i (by omega)
        intro j hjlt
        have := hj (j + 1) (by omega)
        simpa using this

/-- Names are compared equal with the name field `strncpy` made of them. -/
theorem persistentStrCmp_loop_stored (e : Eeprom) (name : List Nat) (s : Nat)
    (hst : ∀ i, i < 16 → EEPROM_read e (s + i) = (strncpy name 16).getD i 0 % 256) :
    ∀ (k i : Nat), k + i = 16 → (∀ j, j < i → name.getD j 0 % 256 ≠ 0) →
      persistentStrCmp.loop e name k (s + i) i = 0 := by
  intro k
  induction k with
  | zero => intro i _ _; rfl
  | succ k ih =>
    intro i hki hpre
    rw [persistentStrCmp.loop]
    have hrd : EEPROM_read e (s + i) = name.getD i 0 % 256 := by
      rw [hst i (by omega), strncpy_getD name 16 i (by omega) hpre]
      omega
    have hch : toChar (EEPROM_RD_BYTE e (s + i)) = toChar (name.getD i 0) := by
      rw [EEPROM_RD_BYTE, hrd, toChar_mod]
    simp only [hch, sub_self, true_and]
    split_ifs with h1 h2
    · rfl
    · apply ih (i + 1) (by omega)
      intro j hj
      by_cases hji : j = i
      · subst hji
        intro h0
        apply h1
        have : toChar (name.getD j 0) = 0 := by
          unfold toChar
          rw [h0]
          rfl
        rw [this]
        rfl
      · exact hpre j (by omega)
    · rfl

theorem persistentStrCmp_stored (e : Eeprom) (name : List Nat) (s : Nat)
    (hst : ∀ i, i < 16 → EEPROM_read e (s + i) = (strncpy name 16).getD i 0 % 256) :
    persistentStrCmp e s name = 0 := by
  have := persistentStrCmp_loop_stored e name s hst 16 0 (by omega) (fun j hj => by omega)
  simpa [persistentStrCmp] using this

/-- A name that does not start with the byte 0xFF is not compared equal with a name field
that starts with 0xFF, such as that of a cell never written or of a freed one. -/
theorem persistentStrCmp_filler (e : Eeprom) (name : List Nat) (s : Nat)
    (hst : EEPROM_read e s = 255) (hname : name.getD 0 0 % 256 ≠ 255) :
    persistentStrCmp e s name ≠ 0 := by
  unfold persistentStrCmp
  rw [persistentStrCmp.loop]
  have hd : toChar (EEPROM_RD_BYTE e s) - toChar (name.getD 0 0) ≠ 0 := by
    rw [EEPROM_RD_BYTE, hst]
    intro h
    have h2 : toChar 255 = toChar (name.getD 0 0) := by omega
    have := toChar_injOn h2
    omega
  simp only [hd, false_and, if_false]
  exact hd

theorem headerBytes_getD_name (H : persistentAreaHeader) (i : Nat) (hi : i < 16) :
    (headerBytes H).getD (4 + i) 0 = H.name.getD i 0 % 256 := by
  unfold headerBytes PERSISTENT_AREA_NAME_SIZE
  rw [List.getD_append_right _ _ _ _ (by simp)]
  simp [List.getD, hi]

/-- What the 20 stored bytes of a header read back as. -/
theorem stored_header_fields (e : Eeprom) (h : Nat) (H : persistentAreaHeader)
    (hst : ∀ i, i < 20 → EEPROM_read e (h + i) = (headerBytes H).getD i 0 % 256)
    (hn : H.next < 65536) (hd : H.data < 65536) :
    EEPROM_RD_INT e h = H.next ∧ EEPROM_RD_INT e (h + 2) = H.data ∧
      ∀ i, i < 16 → EEPROM_read e (h + 4 + i) = H.name.getD i 0 % 256 := by
  have h0 := hst 0 (by omega)
  have h1 := hst 1 (by omega)
  have h2 := hst 2 (by omega)
  have h3 := hst 3 (by omega)
  simp only [headerBytes, List.cons_append, List.getD_cons_zero, List.getD_cons_succ,
    Nat.add_zero] at h0 h1 h2 h3
  refine ⟨?_, ?_, ?_⟩
  · unfold EEPROM_RD_INT
    rw [h0, h1]
    omega
  · unfold EEPROM_RD_INT
    rw [show h + 2 + 1 = h + 3 by omega, h2, h3]
    omega
  · intro i hi
    rw [show h + 4 + i = h + (4 + i) by omega, hst (4 + i) (by omega),
      headerBytes_getD_name H i hi]
    omega

/-- `newPersistentHeader` on a cell whose `data` field is 0xFFFF, on a sound medium: the
header is written with `next = PREFIX + size`, whatever `next` was. -/
theorem newPersistentHeader_spec (e : Eeprom) (hrel : Reliable e) (name : List Nat)
    (h n : Nat) (hl : HeaderLocal) (hh : h + 20 ≤ 65536)
    (hp : 256 ≤ hl.ptr) (hp2 : hl.ptr + 20 ≤ 65536)
    (hfree : EEPROM_RD_INT e (h + 2) = 0xffff) :
    (newPersistentHeader e name (h + 20) n hl).1 = toInt16 n ∧
    Outside h (h + 20) e (newPersistentHeader e name (h + 20) n hl).2 ∧
    EEPROM_RD_INT (newPersistentHeader e name (h + 20) n hl).2 h = (20 + n) % 65536 ∧
    EEPROM_RD_INT (newPersistentHeader e name (h + 20) n hl).2 (h + 2) = 20 ∧
    ∀ i, i < 16 → EEPROM_read (newPersistentHeader e name (h + 20) n hl).2 (h + 4 + i)
      = (strncpy name 16).getD i 0 % 256 := by
  have ha : (h + 20 + 4294967296 - 20) % 4294967296 = h := by omega
  have ha2 : (h + 2) % 65536 = h + 2 := by omega
  have hc1 : ¬ (EEPROM_RD_INT e (h + 2) % 65536 ≠ 0xffff) := by
    rw [hfree]
    decide
  have hc2 : ¬ (EEPROM_RD_INT e (h + 2) ≠ 0xffff ∨
      EEPROM_RD_INT e (h + 2) < (n + 20) % 65536) := by
    rw [hfree]
    omega
  have hre : decide (EEPROM_RD_INT e (h + 2) ≠ 0xffff) = false := by
    rw [hfree]
    decide
  obtain ⟨s1, s2, s3⟩ := persistentStore_spec e hrel h hl.ptr
    (headerBytes { next := (20 + n) % 65536, data := 20, name := strncpy name 16 }) 20
    hp hp2 hh
  have hnew : newPersistentHeader e name (h + 20) n hl
      = (toInt16 n, (persistentStore e h hl.ptr
          (headerBytes { next := (20 + n) % 65536, data := 20, name := strncpy name 16 }) 20).2) := by
    unfold newPersistentHeader
    simp only [PERSISTENT_AREA_PREFIX_SIZE, PERSISTENT_AREA_NAME_SIZE]
    simp only [ha, ha2]
    rw [if_neg hc1, if_neg hc2]
    rw [hre, if_neg (Nat.not_lt_zero _)]
    rfl
  rw [hnew]
  obtain ⟨f1, f2, f3⟩ := stored_header_fields _ h _ s3
    (show (20 + n) % 65536 < 65536 by omega) (show 20 < 65536 by omega)
  refine ⟨?_, ?_, ?_, ?_, ?_⟩
  · dsimp only
  · exact s2
  · exact f1
  · exact f2
  · exact f3

/-- `newPersistentHeader` refuses a cell whose `data` field is not 0xFFFF. -/
theorem newPersistentHeader_inUse (e : Eeprom) (name : List Nat) (h n : Nat) (hl : HeaderLocal)
    (hh : h + 20 ≤ 65536) (hlive : EEPROM_RD_INT e (h + 2) ≠ 0xffff) :
    newPersistentHeader e name (h + 20) n hl = (-2, e) := by
  have ha : (h + 20 + 4294967296 - 20) % 4294967296 = h := by omega
  have ha2 : (h + 2) % 65536 = h + 2 := by omega
  have hb := EEPROM_RD_INT_lt e (h + 2)
  have hc1 : EEPROM_RD_INT e (h + 2) % 65536 ≠ 0xffff := by omega
  unfold newPersistentHeader
  simp only [PERSISTENT_AREA_PREFIX_SIZE, ha, ha2, hc1, ne_eq, not_false_eq_true, if_true]

/-- What a successful `newPersistentArea` went through. -/
theorem newPersistentArea_inv {fuel : Nat} {e e1 : Eeprom} {name : List Nat} {n h : Nat}
    {lf lh : HeaderLocal} (hb : h + 20 + n ≤ 4096)
    (halloc : newPersistentArea fuel e name n lf lh = some (h + 20, e1)) :
    getPersistentHeaderAddress fuel e name = some 0 ∧
    findNewPersistentArea fuel e n lf = some (h + 20) ∧
    EEPROM_RD_INT e (h + 2) = 0xffff ∧
    e1 = (newPersistentHeader e name (h + 20) n lh).2 := by
  unfold newPersistentArea at halloc
  cases hlook : getPersistentHeaderAddress fuel e name with
  | none => simp [hlook] at halloc
  | some x =>
    simp only [hlook] at halloc
    by_cases hx : x = 0
    · subst hx
      simp only [ne_eq, not_true_eq_false, if_false] at halloc
      cases hfind : findNewPersistentArea fuel e n lf with
      | none => simp [hfind] at halloc
      | some a =>
        simp only [hfind] at halloc
        by_cases ha : a ≤ 0
        · simp only [ha, if_true, Option.some.injEq, Prod.mk.injEq] at halloc
          omega
        · simp only [ha, if_false] at halloc
          split_ifs at halloc with hr
          · simp only [Option.some.injEq, Prod.mk.injEq] at halloc
            obtain ⟨h1, h2⟩ := halloc
            subst h1
            refine ⟨Eq.refl _, Eq.refl _, ?_, h2.symm⟩
            by_contra hlive
            rw [newPersistentHeader_inUse e name h n lh (by omega) hlive] at hr
            omega
          · simp only [Option.some.injEq, Prod.mk.injEq] at halloc
            omega
    · simp only [hx, ne_eq, not_false_eq_true, if_true, Option.some.injEq, Prod.mk.injEq]
        at halloc
      omega

/-- `persistentReadHeader(name, header)` for a name that resolves to a header inside the
region. -/
theorem persistentReadHeaderByName_ok (fuel : Nat) (e : Eeprom) (name : List Nat) (h : Nat)
    (hdr : persistentAreaHeader) (hlook : getPersistentHeaderAddress fuel e name = some h)
    (hdata : h + 20 < EPR_END_FREE e) :
    persistentReadHeaderByName fuel e name hdr
      = some (h + 20, headerOfBytes (persistentRead e h 20)) := by
  unfold persistentReadHeaderByName
  rw [hlook]
  simp only [persistentReadHeader_ok e h hdr hdata]

/-- `freePersistentArea` of a live area with a well-formed header inside the region, on a
sound medium: it returns 1, changes nothing outside the cell, sets `data` to 0xFFFF and the
name to 0xFF bytes, and sets `next` to 0xFFFF when the header that follows has `next`
0xFFFF. -/
theorem freePersistentArea_spec (e : Eeprom) (hrel : Reliable e) (hs : Sane e)
    (name : List Nat) (fuel h : Nat) (hl : HeaderLocal)
    (hlook : getPersistentHeaderAddress fuel e name = some h) (h10 : 10 ≤ h)
    (hdata : h + 20 < EPR_END_FREE e)
    (hD : EEPROM_RD_INT e (h + 2) = 20) (hN : 20 ≤ EEPROM_RD_INT e h)
    (hcell : h + EEPROM_RD_INT e h ≤ EPR_END_FREE e)
    (hp : 256 ≤ hl.ptr) (hp2 : hl.ptr + 20 ≤ 65536) :
    ∃ e1, freePersistentArea fuel e name hl = some (1, e1) ∧
      Outside h (h + EEPROM_RD_INT e h) e e1 ∧
      EEPROM_RD_INT e1 (h + 2) = 0xffff ∧
      EEPROM_RD_INT e1 h
        = (if EEPROM_RD_INT e (h + EEPROM_RD_INT e h) = 0xffff then 0xffff
           else EEPROM_RD_INT e h) ∧
      EEPROM_read e1 (h + 4) = 255 := by
  have hE : EPR_END_FREE e ≤ 4096 := Nat.le_trans hs.1 hs.2
  have hNlt := EEPROM_RD_INT_lt e h
  obtain ⟨s1, s2, s3⟩ := persistentStore_spec e hrel h hl.ptr
    (headerBytes
      { next := if EEPROM_RD_INT e (h + EEPROM_RD_INT e h) = 0xffff then 0xffff
          else EEPROM_RD_INT e h
        data := 0xffff
        name := List.replicate 16 0xFF }) 20 hp hp2 (by omega)
  obtain ⟨c1, c2⟩ := persistentClear_spec _ (s2.reliable hrel) (h + 20) 0xff
    (EEPROM_RD_INT e h - 20) (by omega)
  refine ⟨(persistentClear (persistentStore e h hl.ptr
    (headerBytes
      { next := if EEPROM_RD_INT e (h + EEPROM_RD_INT e h) = 0xffff then 0xffff
          else EEPROM_RD_INT e h
        data := 0xffff
        name := List.replicate 16 0xFF }) 20).2 (h + 20) 0xff (EEPROM_RD_INT e h - 20)).2,
    ?_, ?_, ?_, ?_, ?_⟩
  · unfold freePersistentArea
    rw [hlook]
    have hne : ¬ h = 0 := by omega
    simp only [hne, if_false, persistentReadHeaderByName_ok fuel e name h hl.init hlook hdata,
      readHeader_data, readHeader_next, hD, PERSISTENT_AREA_PREFIX_SIZE,
      PERSISTENT_AREA_NAME_SIZE]
    have hm1 : (h + EEPROM_RD_INT e h) % 4294967296 = h + EEPROM_RD_INT e h := by omega
    have hm2 : (h + 20) % 4294967296 = h + 20 := by omega
    have hm3 : (h + EEPROM_RD_INT e h + 4294967296 - (h + 20)) % 4294967296 % 65536
        = EEPROM_RD_INT e h - 20 := by omega
    have hd : ¬ (20 % 65536 = 65535) := by omega
    simp only [hm1, hm2, hm3, hd, if_false, readHeader_next]
    have s1' : ¬ (persistentStore e h hl.ptr
      (headerBytes
        { next := if EEPROM_RD_INT e (h + EEPROM_RD_INT e h) = 0xffff then 0xffff
            else EEPROM_RD_INT e h
          data := 0xffff
          name := List.replicate 16 0xFF }) 20).1 ≠ 20 := by
      rw [s1]
      simp
    rw [if_neg s1']
    have c1' : ¬ (persistentClear (persistentStore e h hl.ptr
      (headerBytes
        { next := if EEPROM_RD_INT e (h + EEPROM_RD_INT e h) = 0xffff then 0xffff
            else EEPROM_RD_INT e h
          data := 0xffff
          name := List.replicate 16 0xFF }) 20).2 (h + 20) 0xff (EEPROM_RD_INT e h - 20)).1
        ≠ ((EEPROM_RD_INT e h - 20 : Nat) : Int) := by
      rw [c1]
      simp
    rw [if_neg c1']
  · have hc2 : Outside h (h + EEPROM_RD_INT e h) _ _ :=
      c2.mono (p := h) (q := h + EEPROM_RD_INT e h) (by omega) (by omega)
    exact (s2.mono (Nat.le_refl _) (by omega)).trans hc2
  · obtain ⟨f1, f2, f3⟩ := stored_header_fields _ h _ s3
      (show (if EEPROM_RD_INT e (h + EEPROM_RD_INT e h) = 0xffff then 0xffff
        else EEPROM_RD_INT e h) < 65536 by split_ifs <;> omega)
      (show 0xffff < 65536 by omega)
    rw [EEPROM_RD_INT_congr (c2.readOutside _ (by omega)) (c2.readOutside _ (by omega))]
    exact f2
  · obtain ⟨f1, f2, f3⟩ := stored_header_fields _ h _ s3
      (show (if EEPROM_RD_INT e (h + EEPROM_RD_INT e h) = 0xffff then 0xffff
        else EEPROM_RD_INT e h) < 65536 by split_ifs <;> omega)
      (show 0xffff < 65536 by omega)
    rw [EEPROM_RD_INT_congr (c2.readOutside _ (by omega)) (c2.readOutside _ (by omega))]
    exact f1
  · obtain ⟨f1, f2, f3⟩ := stored_header_fields _ h _ s3
      (show (if EEPROM_RD_INT e (h + EEPROM_RD_INT e h) = 0xffff then 0xffff
        else EEPROM_RD_INT e h) < 65536 by split_ifs <;> omega)
      (show 0xffff < 65536 by omega)
    rw [c2.readOutside _ (by omega)]
    have := f3 0 (by omega)
    simpa using this

theorem toInt16_emod (x : Int) : toInt16 x % 65536 = x % 65536 := by
  unfold toInt16
  split <;> omega

/-- A name resolves to the header at `h` on every medium that agrees with `e` below `h` and
stores the name at `h`, when the chain of `e` leads to `h` and the lookup of the name on `e`
was not answered by a cell before `h`. -/
theorem lookup_resolves {e e2 : Eeprom} (name : List Nat) {h : Nat} (hs : Sane e)
    (hchain : ChainTo e 20 h EPR_START_FREE) (hin : h < EPR_END_FREE e) (fuel r : Nat)
    (hr : getPersistentHeaderAddress fuel e name = some r) (hrr : r = 0 ∨ h ≤ r)
    (h2 : SameBelow h e e2) (hcmp : persistentStrCmp e2 (h + 4) name = 0) :
    getPersistentHeaderAddress fuel e2 name = some h := by
  have h10 : 10 ≤ h := hchain.le
  have hE : EPR_END_FREE e ≤ 4096 := Nat.le_trans hs.1 hs.2
  obtain ⟨k, hk, hall⟩ := lookup_passes name hs hchain (Nat.le_refl _) hin fuel r hr hrr
  have hstep := hall e2 h2 (fuel - k)
  rw [show k + (fuel - k) = fuel by omega] at hstep
  unfold getPersistentHeaderAddress
  rw [hstep]
  obtain ⟨g, hg⟩ : ∃ g, fuel - k = g + 1 := ⟨fuel - k - 1, by omega⟩
  rw [hg]
  exact lookup_loop_hit e2 name g h (by rw [h2.endFree h10]; exact hin) (by omega) hcmp

theorem persistentRead_eq_payload (e : Eeprom) (a : Nat) (payload : List Nat)
    (hbytes : ∀ b ∈ payload, b < 256)
    (hst : ∀ i, i < payload.length → EEPROM_read e (a + i) = payload.getD i 0 % 256) :
    persistentRead e a payload.length = payload := by
  unfold persistentRead
  apply List.ext_getElem
  · simp
  · intro i h1 h2
    simp only [List.getElem_map, List.getElem_range]
    rw [hst i h2]
    have hb := hbytes payload[i] (List.getElem_mem h2)
    rw [List.getD_eq_getElem _ _ h2]
    omega

/-- The walk of `getPersistentHeaderAddress` finds a header, and so returns an address other
than 0, when some header on the chain carries the name. -/
theorem lookup_reaches {e : Eeprom} (name : List Nat) {h : Nat} (hs : Sane e)
    (hin : h < EPR_END_FREE e) (hname : persistentStrCmp e (h + 4) name = 0) :
    ∀ {c : Nat}, ChainTo e 0 h c → 10 ≤ c →
      ∃ F r, r ≠ 0 ∧ ∀ fuel, F ≤ fuel →
        getPersistentHeaderAddress.loop e name fuel c = some r := by
  have hE : EPR_END_FREE e ≤ 4096 := Nat.le_trans hs.1 hs.2
  intro c hc
  induction hc with
  | here =>
    intro h10
    refine ⟨1, h, by omega, fun fuel hf => ?_⟩
    obtain ⟨g, hg⟩ : ∃ g, fuel = g + 1 := ⟨fuel - 1, by omega⟩
    rw [hg]
    exact lookup_loop_hit e name g h hin (by omega) hname
  | @step c _ hrest ih =>
    intro h10
    have hle := hrest.le
    by_cases hcmp : persistentStrCmp e (c + 4) name = 0
    · refine ⟨1, c, by omega, fun fuel hf => ?_⟩
      obtain ⟨g, hg⟩ : ∃ g, fuel = g + 1 := ⟨fuel - 1, by omega⟩
      rw [hg]
      exact lookup_loop_hit e name g c (by omega) (by omega) hcmp
    · obtain ⟨F, r, hr, hall⟩ := ih (by omega)
      refine ⟨F + 1, r, hr, fun fuel hf => ?_⟩
      obtain ⟨g, hg⟩ : ∃ g, fuel = g + 1 := ⟨fuel - 1, by omega⟩
      rw [hg, lookup_loop_skip e name g c (by omega) (by omega) hcmp,
        show (c + EEPROM_RD_INT e c) % 4294967296 = c + EEPROM_RD_INT e c by omega]
      exact hall g (by omega)

/-- The walk of `getPersistentHeaderAddress` from an address at or past `hi` is the same on two
media that differ at most in the cells `[lo, hi)`. -/
theorem lookup_loop_congr_above {e e1 : Eeprom} (name : List Nat) {lo hi : Nat}
    (ho : Outside lo hi e e1) (hlo : 10 ≤ lo) (hs : Sane e) :
    ∀ (fuel c : Nat), hi ≤ c →
      getPersistentHeaderAddress.loop e1 name fuel c
        = getPersistentHeaderAddress.loop e name fuel c := by
  have hE : EPR_END_FREE e ≤ 4096 := Nat.le_trans hs.1 hs.2
  have hend : EPR_END_FREE e1 = EPR_END_FREE e := (ho.sameBelow (Nat.le_refl _)).endFree hlo
  intro fuel
  induction fuel with
  | zero => intro c _; rfl
  | succ f ih =>
    intro c hc
    rw [getPersistentHeaderAddress.loop, getPersistentHeaderAddress.loop, hend]
    by_cases hlt : c < EPR_END_FREE e
    · have hcmp : persistentStrCmp e1 (c + 4) name = persistentStrCmp e (c + 4) name :=
        persistentStrCmp_congr _ _ (fun t ht => ho.readOutside _ (by omega))
      have hnx : EEPROM_RD_INT e1 c = EEPROM_RD_INT e c :=
        EEPROM_RD_INT_congr (ho.readOutside _ (by omega)) (ho.readOutside _ (by omega))
      have hb := EEPROM_RD_INT_lt e c
      rw [hcmp, hnx, ih ((c + EEPROM_RD_INT e c) % 4294967296) (by omega)]
    · simp only [hlt, if_false]

/-- The loop of `isPersistentStorageVirgin` returns true exactly when the `k` bytes from `i` on
are 0xFF. -/
theorem isPersistentStorageVirgin_loop_iff (e : Eeprom) :
    ∀ (k i : Nat), isPersistentStorageVirgin.loop e k i = true ↔
      ∀ j, j < k → EEPROM_read e (i + j) = 0xff := by
  intro k
  induction k with
  | zero =>
    intro i
    simp [isPersistentStorageVirgin.loop]
  | succ k ih =>
    intro i
    rw [isPersistentStorageVirgin.loop]
    by_cases h0 : EEPROM_read e i = 0xff
    · simp only [h0, ne_eq, not_true_eq_false, if_false]
      rw [ih (i + 1)]
      constructor
      · intro hall j hj
        cases j with
        | zero => simpa using h0
        | succ j =>
          have := hall j (by omega)
          rw [show i + (j + 1) = i + 1 + j by omega]
          exact this
      · intro hall j hj
        have := hall (j + 1) (by omega)
        rw [show i + 1 + j = i + (j + 1) by omega]
        exact this
    · simp only [h0, ne_eq, not_false_eq_true, if_true]
      constructor
      · intro hf
        exact absurd hf (by simp)
      · intro hall
        exact absurd (by simpa using hall 0 (by omega)) h0

/-- What a `newPersistentArea` that returned a data address inside the 16 bit address space
went through. -/
theorem newPersistentArea_inv_general {fuel : Nat} {e e1 : Eeprom} {name : List Nat} {n h : Nat}
    {lf lh : HeaderLocal} (hb : h + 20 ≤ 65536)
    (halloc : newPersistentArea fuel e name n lf lh = some (h + 20, e1)) :
    getPersistentHeaderAddress fuel e name = some 0 ∧
    findNewPersistentArea fuel e n lf = some (h + 20) ∧
    (newPersistentHeader e name (h + 20) n lh).1 % 65536 = ((n % 65536 : Nat) : Int) ∧
    e1 = (newPersistentHeader e name (h + 20) n lh).2 := by
  unfold newPersistentArea at halloc
  cases hlook : getPersistentHeaderAddress fuel e name with
  | none => simp [hlook] at halloc
  | some x =>
    simp only [hlook] at halloc
    by_cases hx : x = 0
    · subst hx
      simp only [ne_eq, not_true_eq_false, if_false] at halloc
      cases hfind : findNewPersistentArea fuel e n lf with
      | none => simp [hfind] at halloc
      | some a =>
        simp only [hfind] at halloc
        by_cases ha : a ≤ 0
        · simp only [ha, if_true, Option.some.injEq, Prod.mk.injEq] at halloc
          omega
        · simp only [ha, if_false] at halloc
          split_ifs at halloc with hr
          · simp only [Option.some.injEq, Prod.mk.injEq] at halloc
            obtain ⟨h1, h2⟩ := halloc
            subst h1
            exact ⟨Eq.refl _, Eq.refl _, hr, h2.symm⟩
          · simp only [Option.some.injEq, Prod.mk.injEq] at halloc
            omega
    · simp only [hx, ne_eq, not_false_eq_true, if_true, Option.some.injEq, Prod.mk.injEq]
        at halloc
      omega

/-- After a `newPersistentArea` that returned the data address `h + 20` on a sound medium, the
`data` field of the header at `h` is not 0xFFFF: it was so before, or the header was written. -/
theorem newPersistentArea_data_field {fuel : Nat} {e e1 : Eeprom} {name : List Nat} {n h : Nat}
    {lf lh : HeaderLocal} (hrel : Reliable e) (hp : 256 ≤ lh.ptr ∧ lh.ptr + 20 ≤ 65536)
    (hb : h + 20 ≤ 65536)
    (halloc : newPersistentArea fuel e name n lf lh = some (h + 20, e1)) :
    e1.length = e.length ∧ EEPROM_RD_INT e1 (h + 2) ≠ 0xffff := by
  obtain ⟨_, _, _, he1⟩ := newPersistentArea_inv_general hb halloc
  by_cases hfree : EEPROM_RD_INT e (h + 2) = 0xffff
  · obtain ⟨_, o1, _, f2, _⟩ := newPersistentHeader_spec e hrel name h n lh hb hp.1 hp.2 hfree
    rw [← he1] at o1 f2
    exact ⟨o1.2.1, by rw [f2]; decide⟩
  · rw [newPersistentHeader_inUse e name h n lh hb hfree] at he1
    rw [he1]
    exact ⟨Eq.refl _, hfree⟩

/-- The walk of `getPersistentAreaAddress` is that of `getPersistentHeaderAddress`, and
returns the data address of the header the latter finds. -/
theorem areaAddress_loop_of_headerAddress (e : Eeprom) (name : List Nat) :
    ∀ (fuel c r : Nat), getPersistentHeaderAddress.loop e name fuel c = some r → r ≠ 0 →
      getPersistentAreaAddress.loop e name fuel c
        = some ((r + PERSISTENT_AREA_PREFIX_SIZE) % 4294967296) := by
  intro fuel
  induction fuel with
  | zero =>
    intro c r h _
    rw [getPersistentHeaderAddress.loop] at h
    exact absurd h (by simp)
  | succ f ih =>
    intro c r h hr
    rw [getPersistentHeaderAddress.loop] at h
    rw [getPersistentAreaAddress.loop]
    split_ifs at h ⊢ with h1 h2 h3
    · exact absurd (Option.some.inj h).symm hr
    · rw [Option.some.inj h]
    · exact ih _ _ h hr
    · exact absurd (Option.some.inj h).symm hr

/-- `freePersistentArea` of a live area with a well-formed header inside the region, on a
sound medium: the medium it leaves, field by field. -/
theorem freePersistentArea_effect (e : Eeprom) (hrel : Reliable e) (hs : Sane e)
    (name : List Nat) (fuel h : Nat) (hl : HeaderLocal)
    (hlook : getPersistentHeaderAddress fuel e name = some h) (h10 : 10 ≤ h)
    (hdata : h + 20 < EPR_END_FREE e)
    (hD : EEPROM_RD_INT e (h + 2) = 20) (hN : 20 ≤ EEPROM_RD_INT e h)
    (hcell : h + EEPROM_RD_INT e h ≤ EPR_END_FREE e)
    (hp : 256 ≤ hl.ptr) (hp2 : hl.ptr + 20 ≤ 65536) :
    ∃ e1, freePersistentArea fuel e name hl = some (1, e1) ∧
      Outside h (h + 20) e (persistentStore e h hl.ptr
        (headerBytes
          { next := if EEPROM_RD_INT e (h + EEPROM_RD_INT e h) = 0xffff then 0xffff
              else EEPROM_RD_INT e h
            data := 0xffff
            name := List.replicate 16 0xFF }) 20).2 ∧
      e1 = (persistentClear (persistentStore e h hl.ptr
        (headerBytes
          { next := if EEPROM_RD_INT e (h + EEPROM_RD_INT e h) = 0xffff then 0xffff
              else EEPROM_RD_INT e h
            data := 0xffff
            name := List.replicate 16 0xFF }) 20).2 (h + 20) 0xff (EEPROM_RD_INT e h - 20)).2 ∧
      Outside h (h + EEPROM_RD_INT e h) e e1 ∧
      EEPROM_RD_INT e1 (h + 2) = 0xffff ∧
      EEPROM_RD_INT e1 h
        = (if EEPROM_RD_INT e (h + EEPROM_RD_INT e h) = 0xffff then 0xffff
           else EEPROM_RD_INT e h) ∧
      ∀ i, i < 16 → EEPROM_read e1 (h + 4 + i) = 0xff := by
  have hE : EPR_END_FREE e ≤ 4096 := Nat.le_trans hs.1 hs.2
  have hNlt := EEPROM_RD_INT_lt e h
  obtain ⟨s1, s2, s3⟩ := persistentStore_spec e hrel h hl.ptr
    (headerBytes
      { next := if EEPROM_RD_INT e (h + EEPROM_RD_INT e h) = 0xffff then 0xffff
          else EEPROM_RD_INT e h
        data := 0xffff
        name := List.replicate 16 0xFF }) 20 hp hp2 (by omega)
  obtain ⟨c1, c2⟩ := persistentClear_spec _ (s2.reliable hrel) (h + 20) 0xff
    (EEPROM_RD_INT e h - 20) (by omega)
  obtain ⟨f1, f2, f3⟩ := stored_header_fields _ h _ s3
    (show (if EEPROM_RD_INT e (h + EEPROM_RD_INT e h) = 0xffff then 0xffff
      else EEPROM_RD_INT e h) < 65536 by split_ifs <;> omega)
    (show 0xffff < 65536 by omega)
  refine ⟨_, ?_, s2, Eq.refl _, ?_, ?_, ?_, ?_⟩
  · unfold freePersistentArea
    rw [hlook]
    have hne : ¬ h = 0 := by omega
    simp only [hne, if_false, persistentReadHeaderByName_ok fuel e name h hl.init hlook hdata,
      readHeader_data, readHeader_next, hD, PERSISTENT_AREA_PREFIX_SIZE,
      PERSISTENT_AREA_NAME_SIZE]
    have hm1 : (h + EEPROM_RD_INT e h) % 4294967296 = h + EEPROM_RD_INT e h := by omega
    have hm2 : (h + 20) % 4294967296 = h + 20 := by omega
    have hm3 : (h + EEPROM_RD_INT e h + 4294967296 - (h + 20)) % 4294967296 % 65536
        = EEPROM_RD_INT e h - 20 := by omega
    have hd : ¬ (20 % 65536 = 65535) := by omega
    simp only [hm1, hm2, hm3, hd, if_false, readHeader_next]
    have s1n : ¬ (persistentStore e h hl.ptr
      (headerBytes
        { next := if EEPROM_RD_INT e (h + EEPROM_RD_INT e h) = 0xffff then 0xffff
            else EEPROM_RD_INT e h
          data := 0xffff
          name := List.replicate 16 0xFF }) 20).1 ≠ 20 := by
      rw [s1]
      simp
    rw [if_neg s1n]
    have c1n : ¬ (persistentClear (persistentStore e h hl.ptr
      (headerBytes
        { next := if EEPROM_RD_INT e (h + EEPROM_RD_INT e h) = 0xffff then 0xffff
            else EEPROM_RD_INT e h
          data := 0xffff
          name := List.replicate 16 0xFF }) 20).2 (h + 20) 0xff (EEPROM_RD_INT e h - 20)).1
        ≠ ((EEPROM_RD_INT e h - 20 : Nat) : Int) := by
      rw [c1]
      simp
    rw [if_neg c1n]
  · have hc2 : Outside h (h + EEPROM_RD_INT e h) _ _ :=
      c2.mono (p := h) (q := h + EEPROM_RD_INT e h) (by omega) (by omega)
    exact (s2.mono (Nat.le_refl _) (by omega)).trans hc2
  · rw [EEPROM_RD_INT_congr (c2.readOutside _ (by omega)) (c2.readOutside _ (by omega))]
    exact f2
  · rw [EEPROM_RD_INT_congr (c2.readOutside _ (by omega)) (c2.readOutside _ (by omega))]
    exact f1
  · intro i hi
    rw [c2.readOutside _ (by omega), f3 i hi, List.getD_eq_getElem?_getD,
      List.getElem?_replicate]
    simp [hi]

/-- After the header at `h` was freed, the walk of `getPersistentHeaderAddress` no longer
answers with it: a name that does not start with 0xFF, that was first found at `h` and that no
header after that cell carries, resolves nowhere. -/
theorem lookup_after_free {e e1 : Eeprom} (name : List Nat) {h : Nat} (fuel : Nat)
    (hs : Sane e) (hchain : ChainTo e 20 h EPR_START_FREE)
    (hlook : getPersistentHeaderAddress fuel e name = some h)
    (hdata : h + 20 < EPR_END_FREE e)
    (hcell : h + EEPROM_RD_INT e h ≤ EPR_END_FREE e)
    (hname : name.getD 0 0 % 256 ≠ 255)
    (hrest : getPersistentHeaderAddress.loop e name fuel (h + EEPROM_RD_INT e h) = some 0)
    (o1 : Outside h (h + EEPROM_RD_INT e h) e e1)
    (n1 : EEPROM_RD_INT e1 h
      = (if EEPROM_RD_INT e (h + EEPROM_RD_INT e h) = 0xffff then 0xffff
         else EEPROM_RD_INT e h))
    (c1 : EEPROM_read e1 (h + 4) = 255) :
    ∃ F, ∀ f, F ≤ f → getPersistentHeaderAddress f e1 name = some 0 := by
  have h10 : 10 ≤ h := hchain.le
  have hE : EPR_END_FREE e ≤ 4096 := Nat.le_trans hs.1 hs.2
  have hNlt := EEPROM_RD_INT_lt e h
  have hsame : SameBelow h e e1 := o1.sameBelow (Nat.le_refl _)
  have hend : EPR_END_FREE e1 = EPR_END_FREE e := hsame.endFree h10
  obtain ⟨k, hk, hall⟩ := lookup_passes name hs hchain (Nat.le_refl _) (by omega) fuel h hlook
    (Or.inr (Nat.le_refl _))
  have hcmp : persistentStrCmp e1 (h + 4) name ≠ 0 := persistentStrCmp_filler e1 name _ c1 hname
  refine ⟨k + fuel + 2, fun f hf => ?_⟩
  have hstep := hall e1 hsame (f - k)
  rw [show k + (f - k) = f by omega] at hstep
  unfold getPersistentHeaderAddress
  rw [hstep]
  obtain ⟨g, hg⟩ : ∃ g, f - k = (g + fuel) + 1 := ⟨f - k - fuel - 1, by omega⟩
  rw [hg, lookup_loop_skip e1 name (g + fuel) h (by omega) (by omega) hcmp, n1]
  split_ifs with htail
  · obtain ⟨g2, hg2⟩ : ∃ g2, g + fuel = g2 + 1 := ⟨g + fuel - 1, by omega⟩
    rw [hg2]
    exact lookup_loop_past e1 name g2 _ (by omega)
  · rw [show (h + EEPROM_RD_INT e h) % 4294967296 = h + EEPROM_RD_INT e h by omega,
      lookup_loop_congr_above name o1 h10 hs (g + fuel) _ (Nat.le_refl _),
      Nat.add_comm g fuel]
    exact lookup_loop_mono e name fuel _ 0 hrest g

theorem EEPROM_RD_INT_of_ff {e : Eeprom} {a : Nat} (h0 : EEPROM_read e a = 0xff)
    (h1 : EEPROM_read e (a + 1) = 0xff) : EEPROM_RD_INT e a = 0xffff := by
  unfold EEPROM_RD_INT
  rw [h0, h1]

theorem EEPROM_RD_INT_eq_ffff {e : Eeprom} {a : Nat} (h : EEPROM_RD_INT e a = 0xffff) :
    EEPROM_read e a = 0xff ∧ EEPROM_read e (a + 1) = 0xff := by
  unfold EEPROM_RD_INT at h
  have h0 := EEPROM_read_lt e a
  have h1 := EEPROM_read_lt e (a + 1)
  omega

theorem VirginFrom.next_eq {e : Eeprom} {a : Nat} (hv : VirginFrom e a) :
    EEPROM_RD_INT e a = 0xffff :=
  EEPROM_RD_INT_of_ff (hv.2 a (Nat.le_refl _) (by have := hv.1; omega))
    (hv.2 (a + 1) (by omega) (by have := hv.1; omega))

theorem VirginFrom.data_eq {e : Eeprom} {a : Nat} (hv : VirginFrom e a) :
    EEPROM_RD_INT e (a + 2) = 0xffff :=
  EEPROM_RD_INT_of_ff (hv.2 (a + 2) (by omega) (by have := hv.1; omega))
    (hv.2 (a + 2 + 1) (by omega) (by have := hv.1; omega))

/-- A row of cells starts with room for a header before `EPR_END_FREE`. -/
theorem Layout.lt_end {e : Eeprom} {req : Nat → Option Nat} {a : Nat} (hl : Layout e req a) :
    a + 20 < EPR_END_FREE e := by
  induction hl with
  | tail hv => exact hv.1
  | live _ _ _ ih => omega
  | freed _ _ ih => omega

/-- The row of cells from `c` on holds the row of cells from every header that the chain leads
to from `c` inside the region. -/
theorem Layout.sub {e : Eeprom} {req : Nat → Option Nat} (hs : Sane e) {m h : Nat}
    (hin : h < EPR_END_FREE e) :
    ∀ {c : Nat}, ChainTo e m h c → Layout e req c → Layout e req h := by
  have hE : EPR_END_FREE e ≤ 4096 := Nat.le_trans hs.1 hs.2
  intro c hc
  induction hc with
  | here => exact id
  | step hm hrest ih =>
    intro hl
    cases hl with
    | tail hv =>
      have hle := hrest.le
      rw [hv.next_eq] at hle
      omega
    | live hlive hreq hnext => exact ih (by rw [hlive.1]; exact hnext)
    | freed hf hnext => exact ih (by rw [hf.2.1]; exact hnext)

/-- A row of cells from `c` on stays one when the medium and the requested sizes only change
from a header `h` of the chain on, and a row of cells starts at `h` afterwards. -/
theorem Layout.modify {e e1 : Eeprom} {req req1 : Nat → Option Nat} (hs : Sane e) {m h : Nat}
    (hin : h < EPR_END_FREE e) (hsame : SameBelow h e e1)
    (hreq : ∀ x, x < h → req1 x = req x) (hnew : Layout e1 req1 h) :
    ∀ {c : Nat}, ChainTo e m h c → Layout e req c → Layout e1 req1 c := by
  have hE : EPR_END_FREE e ≤ 4096 := Nat.le_trans hs.1 hs.2
  intro c hc
  induction hc with
  | here => exact fun _ => hnew
  | @step c hm hrest ih =>
    intro hl
    cases hl with
    | tail hv =>
      have hle := hrest.le
      rw [hv.next_eq] at hle
      omega
    | @live _ n hlive hr hnext =>
      have hle := hrest.le
      rw [hlive.1] at hle
      have g1 : EEPROM_RD_INT e1 c = EEPROM_RD_INT e c :=
        EEPROM_RD_INT_congr (hsame.readBelow _ (by omega)) (hsame.readBelow _ (by omega))
      have g2 : EEPROM_RD_INT e1 (c + 2) = EEPROM_RD_INT e (c + 2) :=
        EEPROM_RD_INT_congr (hsame.readBelow _ (by omega)) (hsame.readBelow _ (by omega))
      have h3 := ih (by rw [hlive.1]; exact hnext)
      rw [hlive.1] at h3
      exact Layout.live ⟨g1.trans hlive.1, g2.trans hlive.2⟩ ((hreq _ (by omega)).trans hr) h3
    | @freed _ N hf hnext =>
      have hle := hrest.le
      rw [hf.2.1] at hle
      have hN := hf.1
      have g1 : EEPROM_RD_INT e1 c = EEPROM_RD_INT e c :=
        EEPROM_RD_INT_congr (hsame.readBelow _ (by omega)) (hsame.readBelow _ (by omega))
      have g2 : EEPROM_RD_INT e1 (c + 2) = EEPROM_RD_INT e (c + 2) :=
        EEPROM_RD_INT_congr (hsame.readBelow _ (by omega)) (hsame.readBelow _ (by omega))
      have h3 := ih (by rw [hf.2.1]; exact hnext)
      rw [hf.2.1] at h3
      exact Layout.freed ⟨hf.1, g1.trans hf.2.1, g2.trans hf.2.2⟩ h3

/-- A row of cells from `c` on stays one when the medium only changes below `c` (and not in
the calibration sizes). -/
theorem Layout.above {e e1 : Eeprom} {req req1 : Nat → Option Nat} (hs : Sane e) {lo hi : Nat}
    (ho : Outside lo hi e e1) (hlo : 10 ≤ lo) :
    ∀ {c : Nat}, Layout e req c → hi ≤ c → (∀ x, c ≤ x → req1 x = req x) →
      Layout e1 req1 c := by
  have hE : EPR_END_FREE e ≤ 4096 := Nat.le_trans hs.1 hs.2
  have hend : EPR_END_FREE e1 = EPR_END_FREE e := (ho.sameBelow (Nat.le_refl lo)).endFree hlo
  intro c hl
  induction hl with
  | @tail c hv =>
    intro hc _
    refine Layout.tail ⟨by rw [hend]; exact hv.1, fun x hx1 hx2 => ?_⟩
    rw [hend] at hx2
    rw [ho.readOutside x (Or.inr (by omega))]
    exact hv.2 x hx1 hx2
  | @live c n hlive hr hnext ih =>
    intro hc hreq
    have hlt := hnext.lt_end
    have g1 : EEPROM_RD_INT e1 c = EEPROM_RD_INT e c :=
      EEPROM_RD_INT_congr (ho.readOutside _ (Or.inr (by omega)))
        (ho.readOutside _ (Or.inr (by omega)))
    have g2 : EEPROM_RD_INT e1 (c + 2) = EEPROM_RD_INT e (c + 2) :=
      EEPROM_RD_INT_congr (ho.readOutside _ (Or.inr (by omega)))
        (ho.readOutside _ (Or.inr (by omega)))
    exact Layout.live ⟨g1.trans hlive.1, g2.trans hlive.2⟩ ((hreq _ (Nat.le_refl _)).trans hr)
      (ih (by omega) (fun x hx => hreq x (by omega)))
  | @freed c N hf hnext ih =>
    intro hc hreq
    have hlt := hnext.lt_end
    have hN := hf.1
    have g1 : EEPROM_RD_INT e1 c = EEPROM_RD_INT e c :=
      EEPROM_RD_INT_congr (ho.readOutside _ (Or.inr (by omega)))
        (ho.readOutside _ (Or.inr (by omega)))
    have g2 : EEPROM_RD_INT e1 (c + 2) = EEPROM_RD_INT e (c + 2) :=
      EEPROM_RD_INT_congr (ho.readOutside _ (Or.inr (by omega)))
        (ho.readOutside _ (Or.inr (by omega)))
    exact Layout.freed ⟨hf.1, g1.trans hf.2.1, g2.trans hf.2.2⟩
      (ih (by omega) (fun x hx => hreq x (by omega)))

/-- On a row of cells the walk of `getPersistentHeaderAddress` returns 0 or a header address
that the chain leads to inside the region. -/
theorem lookup_on_layout {e : Eeprom} {req : Nat → Option Nat} (hs : Sane e) (name : List Nat) :
    ∀ {c : Nat}, Layout e req c → ∀ (fuel r : Nat),
      getPersistentHeaderAddress.loop e name fuel c = some r → r ≠ 0 →
      ChainTo e 20 r c ∧ r < EPR_END_FREE e := by
  have hE : EPR_END_FREE e ≤ 4096 := Nat.le_trans hs.1 hs.2
  intro c hl
  induction hl with
  | @tail c hv =>
    intro fuel r hr hr0
    have hlt := hv.1
    cases fuel with
    | zero => simp [getPersistentHeaderAddress.loop] at hr
    | succ k =>
      by_cases hcmp : persistentStrCmp e (c + 4) name = 0
      · rw [lookup_loop_hit e name k c (by omega) (by omega) hcmp] at hr
        cases hr
        exact ⟨ChainTo.here, by omega⟩
      · rw [lookup_loop_skip e name k c (by omega) (by omega) hcmp, hv.next_eq] at hr
        cases k with
        | zero => simp [getPersistentHeaderAddress.loop] at hr
        | succ k2 =>
          rw [lookup_loop_past e name k2 _ (by omega)] at hr
          cases hr
          exact absurd (Eq.refl 0) hr0
  | @live c n hlive hreq hnext ih =>
    intro fuel r hr hr0
    have hlt := hnext.lt_end
    cases fuel with
    | zero => simp [getPersistentHeaderAddress.loop] at hr
    | succ k =>
      by_cases hcmp : persistentStrCmp e (c + 4) name = 0
      · rw [lookup_loop_hit e name k c (by omega) (by omega) hcmp] at hr
        cases hr
        exact ⟨ChainTo.here, by omega⟩
      · rw [lookup_loop_skip e name k c (by omega) (by omega) hcmp, hlive.1,
          show (c + (20 + n)) % 4294967296 = c + (20 + n) by omega] at hr
        obtain ⟨h1, h2⟩ := ih k r hr hr0
        refine ⟨ChainTo.step (by rw [hlive.1]; omega) (by rw [hlive.1]; exact h1), h2⟩
  | @freed c N hf hnext ih =>
    intro fuel r hr hr0
    have hlt := hnext.lt_end
    have hN := hf.1
    cases fuel with
    | zero => simp [getPersistentHeaderAddress.loop] at hr
    | succ k =>
      by_cases hcmp : persistentStrCmp e (c + 4) name = 0
      · rw [lookup_loop_hit e name k c (by omega) (by omega) hcmp] at hr
        cases hr
        exact ⟨ChainTo.here, by omega⟩
      · rw [lookup_loop_skip e name k c (by omega) (by omega) hcmp, hf.2.1,
          show (c + N) % 4294967296 = c + N by omega] at hr
        obtain ⟨h1, h2⟩ := ih k r hr hr0
        refine ⟨ChainTo.step (by rw [hf.2.1]; omega) (by rw [hf.2.1]; exact h1), h2⟩

theorem find_loop_past (e : Eeprom) (n fuel c : Nat) (hdr : persistentAreaHeader)
    (hge : EPR_END_FREE e ≤ c) : findNewPersistentArea.loop e n (fuel + 1) c hdr = some 0 := by
  rw [find_loop_succ, if_neg (by omega)]

/-- On a row of cells the walk of `findNewPersistentArea` returns 0 or the data address of a
header that the chain leads to inside the region. -/
theorem find_on_layout {e : Eeprom} {req : Nat → Option Nat} (hs : Sane e) (n : Nat) :
    ∀ {c : Nat}, Layout e req c → ∀ (fuel : Nat) (hdr : persistentAreaHeader) (r : Nat),
      findNewPersistentArea.loop e n fuel c hdr = some r → r ≠ 0 →
      ∃ h, r = h + 20 ∧ ChainTo e 20 h c ∧ h < EPR_END_FREE e := by
  have hE : EPR_END_FREE e ≤ 4096 := Nat.le_trans hs.1 hs.2
  intro c hl
  induction hl with
  | @tail c hv =>
    intro fuel hdr r hr hr0
    have hlt := hv.1
    cases fuel with
    | zero => simp [findNewPersistentArea.loop] at hr
    | succ k =>
      rw [find_loop_succ, if_pos (by omega), persistentReadHeader_ok e c hdr hlt] at hr
      by_cases hu : Usable e n (headerOfBytes (persistentRead e c 20))
      · rw [if_pos hu, show (c + PERSISTENT_AREA_PREFIX_SIZE) % 4294967296 = c + 20 by
          unfold PERSISTENT_AREA_PREFIX_SIZE; omega] at hr
        cases hr
        exact ⟨c, Eq.refl _, ChainTo.here, by omega⟩
      · rw [if_neg hu] at hr
        dsimp only at hr
        rw [readHeader_next, hv.next_eq] at hr
        cases k with
        | zero => simp [findNewPersistentArea.loop] at hr
        | succ k2 =>
          rw [find_loop_past e n k2 _ _ (by omega)] at hr
          cases hr
          exact absurd (Eq.refl 0) hr0
  | @live c m hlive hreq hnext ih =>
    intro fuel hdr r hr hr0
    have hlt := hnext.lt_end
    cases fuel with
    | zero => simp [findNewPersistentArea.loop] at hr
    | succ k =>
      rw [find_loop_succ, if_pos (by omega), persistentReadHeader_ok e c hdr (by omega)] at hr
      by_cases hu : Usable e n (headerOfBytes (persistentRead e c 20))
      · rw [if_pos hu, show (c + PERSISTENT_AREA_PREFIX_SIZE) % 4294967296 = c + 20 by
          unfold PERSISTENT_AREA_PREFIX_SIZE; omega] at hr
        cases hr
        exact ⟨c, Eq.refl _, ChainTo.here, by omega⟩
      · rw [if_neg hu] at hr
        dsimp only at hr
        rw [readHeader_next, hlive.1,
          show (c + (20 + m)) % 4294967296 = c + (20 + m) by omega] at hr
        obtain ⟨h, h1, h2, h3⟩ := ih k _ r hr hr0
        exact ⟨h, h1, ChainTo.step (by rw [hlive.1]; omega) (by rw [hlive.1]; exact h2), h3⟩
  | @freed c N hf hnext ih =>
    intro fuel hdr r hr hr0
    have hlt := hnext.lt_end
    have hN := hf.1
    cases fuel with
    | zero => simp [findNewPersistentArea.loop] at hr
    | succ k =>
      rw [find_loop_succ, if_pos (by omega), persistentReadHeader_ok e c hdr (by omega)] at hr
      by_cases hu : Usable e n (headerOfBytes (persistentRead e c 20))
      · rw [if_pos hu, show (c + PERSISTENT_AREA_PREFIX_SIZE) % 4294967296 = c + 20 by
          unfold PERSISTENT_AREA_PREFIX_SIZE; omega] at hr
        cases hr
        exact ⟨c, Eq.refl _, ChainTo.here, by omega⟩
      · rw [if_neg hu] at hr
        dsimp only at hr
        rw [readHeader_next, hf.2.1,
          show (c + N) % 4294967296 = c + N by omega] at hr
        obtain ⟨h, h1, h2, h3⟩ := ih k _ r hr hr0
        exact ⟨h, h1, ChainTo.step (by rw [hf.2.1]; omega) (by rw [hf.2.1]; exact h2), h3⟩

/-- `freePersistentArea` of a name that resolves to a header whose `data` is 0xFFFF returns 2
and leaves the medium alone. -/
theorem freePersistentArea_freed (fuel : Nat) (e : Eeprom) (name : List Nat) (h : Nat)
    (hl : HeaderLocal) (hlook : getPersistentHeaderAddress fuel e name = some h) (h0 : h ≠ 0)
    (hdata : h + 20 < EPR_END_FREE e) (hD : EEPROM_RD_INT e (h + 2) = 0xffff) :
    freePersistentArea fuel e name hl = some (2, e) := by
  unfold freePersistentArea
  rw [persistentReadHeaderByName_ok fuel e name h hl.init hlook hdata, hlook]
  simp only [h0, if_false, readHeader_data, hD]
  rfl

/-- `persistentWriteArea` of `n` bytes to the area with the header at `h` changes no cell
outside `[h + 20, h + 20 + n)`. -/
theorem persistentWriteArea_outside (fuel : Nat) (e e1 : Eeprom) (name data : List Nat)
    (n h : Nat) (hl : HeaderLocal) (rc : Int) (hrel : Reliable e)
    (hlook : getPersistentHeaderAddress fuel e name = some h)
    (hdata : h + 20 < EPR_END_FREE e) (hfit : h + 20 + n ≤ 65536)
    (hw : persistentWriteArea fuel e name n data hl = some (rc, e1)) :
    Outside (h + 20) (h + 20 + n) e e1 := by
  obtain ⟨_, w2, _⟩ := persistentWriteArea_loop_spec (h + 20) n data n (h + 20) 0 e
    hrel (by omega) (Nat.le_refl _)
  unfold persistentWriteArea at hw
  rw [persistentReadHeaderByName_ok fuel e name h hl.init hlook hdata] at hw
  have hne : ¬ h + 20 = 0 := by omega
  have hm : (h + 20 + n) % 4294967296 = h + 20 + n := by omega
  have hm2 : ¬ n ≠ (h + 20 + n + 4294967296 - (h + 20)) % 4294967296 := by omega
  simp only [hne, if_false, hm, hm2] at hw
  rw [show h + 20 + n - (h + 20) = n by omega] at hw
  have := Option.some.inj hw
  rw [← (Prod.mk.inj this).2]
  exact w2

/-- Every medium reached from a virgin one by calls within their contracts is sound, in the
configuration the allocator is meant for, and its region is a row of cells where each live
header has `data` 20 and `next` 20 more than the size asked for. -/
theorem Reached.good {e : Eeprom} {req : Nat → Option Nat} (hr : Reached e req) :
    Reliable e ∧ Sane e ∧ Layout e req EPR_START_FREE := by
  induction hr with
  | virgin e hrel hs h30 hv =>
    exact ⟨hrel, hs, Layout.tail ⟨by unfold EPR_START_FREE; omega, hv⟩⟩
  | @alloc e req fuel name n h lf lh e1 _ hp halloc hroom hcap ih =>
    obtain ⟨hrel, hs, hlay⟩ := ih
    have hE : EPR_END_FREE e ≤ 4096 := Nat.le_trans hs.1 hs.2
    obtain ⟨_, hfind, hfree, he1⟩ := newPersistentArea_inv (by omega) halloc
    obtain ⟨h', hh', hchain, hin⟩ := find_on_layout hs n hlay fuel lf.init (h + 20) hfind (by omega)
    have hh : h' = h := by omega
    subst hh
    have h10 : 10 ≤ h' := hchain.le
    obtain ⟨_, o1, f1, f2, _⟩ :=
      newPersistentHeader_spec e hrel name h' n lh (by omega) hp.1 hp.2 hfree
    rw [← he1] at o1 f1 f2
    rw [show (20 + n) % 65536 = 20 + n by omega] at f1
    have hsame : SameBelow h' e e1 := o1.sameBelow (Nat.le_refl _)
    have hend : EPR_END_FREE e1 = EPR_END_FREE e := hsame.endFree h10
    refine ⟨o1.reliable hrel, hsame.sane h10 hs, ?_⟩
    have hq : ∀ x, x < h' → Function.update req h' (some n) x = req x :=
      fun x hx => Function.update_noteq (Nat.ne_of_lt hx) _ _
    refine Layout.modify hs hin hsame hq ?_ hchain hlay
    refine Layout.live ⟨f1, f2⟩ (Function.update_same _ _ _) ?_
    have hat := Layout.sub hs hin hchain hlay
    cases hat with
    | tail hv =>
      refine Layout.tail ⟨by rw [hend]; omega, fun x hx1 hx2 => ?_⟩
      rw [hend] at hx2
      rw [o1.readOutside x (Or.inr (by omega))]
      exact hv.2 x (by omega) hx2
    | @live _ m hlive _ _ =>
      have := hlive.2
      rw [hfree] at this
      omega
    | @freed _ N hf hnext =>
      have hlt := hnext.lt_end
      have hN : N = 20 + n := by
        have := hf.2.1
        rcases hcap with hc | hc
        · omega
        · omega
      subst hN
      exact Layout.above hs o1 h10 hnext (by omega)
        (fun x hx => Function.update_noteq (by omega) _ _)
  | @free e req fuel name h hl e1 _ hp hlook hfree hclr ih =>
    obtain ⟨hrel, hs, hlay⟩ := ih
    have hE : EPR_END_FREE e ≤ 4096 := Nat.le_trans hs.1 hs.2
    have h0 : h ≠ 0 := by
      intro hz
      subst hz
      unfold freePersistentArea at hfree
      rw [hlook] at hfree
      simp at hfree
    obtain ⟨hchain, hin⟩ := lookup_on_layout hs name hlay fuel h hlook h0
    have h10 : 10 ≤ h := hchain.le
    have hat := Layout.sub hs hin hchain hlay
    have hdata := hat.lt_end
    cases hat with
    | tail hv =>
      rw [freePersistentArea_freed fuel e name h hl hlook h0 hdata hv.data_eq] at hfree
      simp at hfree
    | @freed _ N hf hnext =>
      rw [freePersistentArea_freed fuel e name h hl hlook h0 hdata hf.2.2] at hfree
      simp at hfree
    | @live _ n hlive hreq hnext =>
      have hlt := hnext.lt_end
      obtain ⟨e1', g1, _, _, o1, f2, f1, f3⟩ := freePersistentArea_effect e hrel hs name fuel h hl
        hlook h10 hdata hlive.2 (by rw [hlive.1]; omega) (by rw [hlive.1]; omega) hp.1 hp.2
      rw [hfree] at g1
      have he : e1 = e1' := (Prod.mk.inj (Option.some.inj g1)).2
      subst he
      rw [hlive.1] at o1 f1 hclr
      have hsame : SameBelow h e e1 := o1.sameBelow (Nat.le_refl _)
      have hend : EPR_END_FREE e1 = EPR_END_FREE e := hsame.endFree h10
      refine ⟨o1.reliable hrel, hsame.sane h10 hs, ?_⟩
      have hq : ∀ x, x < h → Function.update req h none x = req x :=
        fun x hx => Function.update_noteq (Nat.ne_of_lt hx) _ _
      refine Layout.modify hs hin hsame hq ?_ hchain hlay
      cases hnext with
      | tail hv =>
        rw [hv.next_eq, if_pos (Eq.refl _)] at f1
        obtain ⟨b0, b1⟩ := EEPROM_RD_INT_eq_ffff f1
        obtain ⟨b2, b3⟩ := EEPROM_RD_INT_eq_ffff f2
        refine Layout.tail ⟨by rw [hend]; omega, fun x hx1 hx2 => ?_⟩
        rw [hend] at hx2
        by_cases c0 : x = h
        · rw [c0]; exact b0
        by_cases c1 : x = h + 1
        · rw [c1]; exact b1
        by_cases c2 : x = h + 2
        · rw [c2]; exact b2
        by_cases c3 : x = h + 2 + 1
        · rw [c3]; exact b3
        by_cases c4 : x < h + 20
        · have := f3 (x - (h + 4)) (by omega)
          rwa [show h + 4 + (x - (h + 4)) = x by omega] at this
        by_cases c5 : x < h + (20 + n)
        · exact hclr x (by omega) c5
        · rw [o1.readOutside x (Or.inr (by omega))]
          exact hv.2 x (by omega) hx2
      | @live _ m hlive2 hreq2 hnext2 =>
        have hlt2 := hnext2.lt_end
        rw [hlive2.1, if_neg (by omega)] at f1
        exact Layout.freed ⟨by omega, f1, f2⟩ (Layout.above hs o1 h10
          (Layout.live hlive2 hreq2 hnext2) (Nat.le_refl _)
          (fun x hx => Function.update_noteq (by omega) _ _))
      | @freed _ N hf2 hnext2 =>
        have hlt2 := hnext2.lt_end
        have hN2 := hf2.1
        rw [hf2.2.1, if_neg (by omega)] at f1
        exact Layout.freed ⟨by omega, f1, f2⟩ (Layout.above hs o1 h10
          (Layout.freed hf2 hnext2) (Nat.le_refl _)
          (fun x hx => Function.update_noteq (by omega) _ _))
  | @write e req fuel name n data h hl rc e1 _ hlook h0 hD hn hw ih =>
    obtain ⟨hrel, hs, hlay⟩ := ih
    have hE : EPR_END_FREE e ≤ 4096 := Nat.le_trans hs.1 hs.2
    obtain ⟨hchain, hin⟩ := lookup_on_layout hs name hlay fuel h hlook h0
    have h10 : 10 ≤ h := hchain.le
    have hat := Layout.sub hs hin hchain hlay
    have hdata := hat.lt_end
    cases hat with
    | tail hv => exact absurd hv.data_eq hD
    | @freed _ N hf hnext => exact absurd hf.2.2 hD
    | @live _ m hlive hreq hnext =>
      have hlt := hnext.lt_end
      rw [hlive.1, hlive.2] at hn
      have hm : m = n := by omega
      subst hm
      have o1 := persistentWriteArea_outside fuel e e1 name data m h hl rc hrel hlook hdata
        (by omega) hw
      have hsame : SameBelow (h + 20) e e1 := o1.sameBelow (Nat.le_refl _)
      have hsame0 : SameBelow h e e1 := o1.sameBelow (by omega)
      have hend : EPR_END_FREE e1 = EPR_END_FREE e := hsame0.endFree h10
      refine ⟨o1.reliable hrel, hsame0.sane h10 hs, ?_⟩
      refine Layout.modify hs hin hsame0 (fun x hx => Eq.refl _) ?_ hchain hlay
      have g1 : EEPROM_RD_INT e1 h = EEPROM_RD_INT e h :=
        EEPROM_RD_INT_congr (hsame.readBelow _ (by omega)) (hsame.readBelow _ (by omega))
      have g2 : EEPROM_RD_INT e1 (h + 2) = EEPROM_RD_INT e (h + 2) :=
        EEPROM_RD_INT_congr (hsame.readBelow _ (by omega)) (hsame.readBelow _ (by omega))
      exact Layout.live ⟨g1.trans hlive.1, g2.trans hlive.2⟩ hreq
        (Layout.above hs o1 (by omega) hnext (by omega) (fun x hx => Eq.refl _))

/-- `persistentStore` changes no cell outside `[addr, addr + k)`, whatever the medium does
with the writes. -/
theorem persistentStore_loop_outside (dataPtr : Nat) (data : List Nat) (size : Nat) :
    ∀ (k addr j : Nat) (e : Eeprom), addr + k ≤ 65536 →
      Outside addr (addr + k) e (persistentStore.loop dataPtr data size k addr j e).2 := by
  intro k
  induction k with
  | zero =>
    intro addr j e _
    exact Outside.refl _ _ _
  | succ k ih =>
    intro addr j e ha
    have hout := Outside_write e addr (data.getD j 0) (by omega)
    rw [persistentStore.loop]
    by_cases h1 : EEPROM_read e addr ≠ (dataPtr + j) % 65536
    · rw [if_pos h1]
      dsimp only
      by_cases h2 : EEPROM_read (EEPROM_write e addr (data.getD j 0)) addr ≠ data.getD j 0 % 256
      · rw [if_pos h2]
        exact hout.mono (Nat.le_refl _) (by omega)
      · rw [if_neg h2]
        exact (hout.mono (Nat.le_refl _) (by omega)).trans
          ((ih (addr + 1) (j + 1) _ (by omega)).mono (by omega) (by omega))
    · rw [if_neg h1]
      exact (ih addr j e (by omega)).mono (Nat.le_refl _) (by omega)

/-- `persistentClear` changes no cell outside `[addrWr, addrWr + k)`, whatever the medium does
with the writes. -/
theorem persistentClear_loop_outside (addr clearWith size : Nat) :
    ∀ (k addrWr : Nat) (e : Eeprom), addrWr + k ≤ 65536 →
      Outside addrWr (addrWr + k) e (persistentClear.loop addr clearWith size k addrWr e).2 := by
  intro k
  induction k with
  | zero =>
    intro addrWr e _
    exact Outside.refl _ _ _
  | succ k ih =>
    intro addrWr e ha
    have hout := Outside_write e addrWr clearWith (by omega)
    have hm : (addrWr + 1) % 4294967296 = addrWr + 1 := by omega
    rw [persistentClear.loop]
    by_cases h1 : EEPROM_read e addrWr ≠ clearWith % 256
    · rw [if_pos h1]
      dsimp only
      by_cases h2 : EEPROM_read (EEPROM_write e addrWr clearWith) addrWr ≠ clearWith % 256
      · rw [if_pos h2]
        exact hout.mono (Nat.le_refl _) (by omega)
      · rw [if_neg h2, hm]
        exact (hout.mono (Nat.le_refl _) (by omega)).trans
          ((ih (addrWr + 1) _ (by omega)).mono (by omega) (by omega))
    · rw [if_neg h1]
      exact (ih addrWr e (by omega)).mono (Nat.le_refl _) (by omega)

/-- Once the walk of `findNewPersistentArea` has passed the last header it can read (the data
address `a + 20` is outside the region) with a header that is not usable, it returns 0. -/
theorem find_loop_stale (e : Eeprom) (hs : Sane e) (n : Nat) :
    ∀ (fuel a : Nat) (hdr : persistentAreaHeader) (r : Nat), EPR_END_FREE e ≤ a + 20 →
      ¬ Usable e n hdr → hdr.next < 65536 →
      findNewPersistentArea.loop e n fuel a hdr = some r → r = 0 := by
  have hE : EPR_END_FREE e ≤ 4096 := Nat.le_trans hs.1 hs.2
  intro fuel
  induction fuel with
  | zero =>
    intro a hdr r _ _ _ hr
    simp [findNewPersistentArea.loop] at hr
  | succ k ih =>
    intro a hdr r ha hu hn hr
    rw [find_loop_succ] at hr
    by_cases hlt : a < EPR_END_FREE e
    · have hread : persistentReadHeader e ((a + PERSISTENT_AREA_PREFIX_SIZE) % 4294967296) hdr
          = (0, hdr) := by
        unfold persistentReadHeader PERSISTENT_AREA_PREFIX_SIZE
        rw [if_pos (Or.inr (by omega))]
      rw [if_pos hlt, hread, if_neg hu] at hr
      dsimp only at hr
      rw [show (a + hdr.next) % 4294967296 = a + hdr.next by omega] at hr
      exact ih _ hdr r (by omega) hu hn hr
    · rw [if_neg hlt] at hr
      exact (Option.some.inj hr).symm

/-- The walk of `findNewPersistentArea` returns 0 or the data address of the first header on
the chain that passes its test; the headers it has passed are occupied or freed cells that are
too small. -/
theorem find_loop_first_fit (e : Eeprom) (hs : Sane e) (n : Nat) :
    ∀ (fuel a : Nat) (hdr : persistentAreaHeader) (r : Nat), a + 20 < EPR_END_FREE e →
      findNewPersistentArea.loop e n fuel a hdr = some r → r ≠ 0 →
      ∃ h, r = h + 20 ∧ ChainTo e 0 h a ∧ h + 20 < EPR_END_FREE e ∧
        Usable e n (headerOfBytes (persistentRead e h 20)) ∧
        ∀ c, ChainTo e 0 c a → ChainTo e 0 h c → c ≠ h →
          ¬ (EEPROM_RD_INT e (c + 2) = 0xffff ∧ EEPROM_RD_INT e c ≥ 20 + n) := by
  have hE : EPR_END_FREE e ≤ 4096 := Nat.le_trans hs.1 hs.2
  intro fuel
  induction fuel with
  | zero =>
    intro a hdr r _ hr
    simp [findNewPersistentArea.loop] at hr
  | succ k ih =>
    intro a hdr r ha hr hr0
    rw [find_loop_succ, if_pos (by omega), persistentReadHeader_ok e a hdr ha] at hr
    by_cases hu : Usable e n (headerOfBytes (persistentRead e a 20))
    · rw [if_pos hu, show (a + PERSISTENT_AREA_PREFIX_SIZE) % 4294967296 = a + 20 by
        unfold PERSISTENT_AREA_PREFIX_SIZE; omega] at hr
      cases hr
      refine ⟨a, Eq.refl _, ChainTo.here, ha, hu, fun c h1 h2 hne => ?_⟩
      exact absurd (Nat.le_antisymm h2.le h1.le) hne
    · rw [if_neg hu] at hr
      dsimp only at hr
      have hnlt := EEPROM_RD_INT_lt e a
      rw [readHeader_next,
        show (a + EEPROM_RD_INT e a) % 4294967296 = a + EEPROM_RD_INT e a by omega] at hr
      by_cases hfresh : a + EEPROM_RD_INT e a + 20 < EPR_END_FREE e
      · obtain ⟨h, h1, h2, h3, h4, h5⟩ := ih _ _ r hfresh hr hr0
        refine ⟨h, h1, ChainTo.step (Nat.zero_le _) h2, h3, h4, fun c hc1 hc2 hne => ?_⟩
        cases hc1 with
        | here =>
          intro hfree
          apply hu
          unfold Usable
          rw [readHeader_data, readHeader_next]
          refine ⟨hfree.1, Or.inr ⟨by omega, ?_⟩⟩
          have := hfree.2
          unfold PERSISTENT_AREA_PREFIX_SIZE
          omega
        | step _ hrest => exact h5 c hrest hc2 hne
      · have := find_loop_stale e hs n k _ _ r (by omega) hu
          (by rw [readHeader_next]; exact hnlt) hr
        exact absurd this hr0

theorem toChar_diff_eq_zero (r y : Nat) (hr : r < 256) :
    toChar r - toChar y = 0 ↔ r = y % 256 := by
  unfold toChar
  split_ifs <;> omega

theorem toChar_sum_eq_zero (r y : Nat) (hr : r < 256) (h : r = y % 256) :
    toChar y + toChar r = 0 ↔ y % 256 = 0 := by
  unfold toChar
  split_ifs <;> omega

/-- When the loop of `persistentStrCmp`, `i` matching bytes into the name field, returns 0:
the stored name and the string go on to agree, byte for byte and without a zero byte, up to a
position where both hold a zero byte or up to the end of the 16 byte field. -/
theorem persistentStrCmp_loop_iff (e : Eeprom) (s2 : List Nat) (s : Nat) :
    ∀ (k i : Nat), k + i = 16 →
      (persistentStrCmp.loop e s2 k (s + i) i = 0 ↔
        ∃ m, i ≤ m ∧ m ≤ 16 ∧
          (∀ j, i ≤ j → j < m →
            EEPROM_read e (s + j) = s2.getD j 0 % 256 ∧ s2.getD j 0 % 256 ≠ 0) ∧
          (m = 16 ∨ (EEPROM_read e (s + m) = 0 ∧ s2.getD m 0 % 256 = 0))) := by
  intro k
  induction k with
  | zero =>
    intro i hi
    have h16 : i = 16 := by omega
    subst h16
    simp only [persistentStrCmp.loop, true_iff]
    exact ⟨16, Nat.le_refl _, Nat.le_refl _, fun j h1 h2 => by omega, Or.inl (Eq.refl _)⟩
  | succ k ih =>
    intro i hi
    have hr := EEPROM_read_lt e (s + i)
    have hd := toChar_diff_eq_zero (EEPROM_read e (s + i)) (s2.getD i 0) hr
    rw [persistentStrCmp.loop]
    unfold EEPROM_RD_BYTE
    by_cases hc : toChar (EEPROM_read e (s + i)) - toChar (s2.getD i 0) = 0 ∧
        toChar (s2.getD i 0) + toChar (EEPROM_read e (s + i)) ≠ 0
    · rw [if_pos hc]
      have heq := hd.mp hc.1
      have hnz : s2.getD i 0 % 256 ≠ 0 := fun hz =>
        hc.2 ((toChar_sum_eq_zero _ _ hr heq).mpr hz)
      by_cases h15 : i = 15
      · rw [if_pos h15]
        constructor
        · intro _
          refine ⟨16, by omega, Nat.le_refl _, fun j h1 h2 => ?_, Or.inl (Eq.refl _)⟩
          have hj : j = i := by omega
          subst hj
          exact ⟨heq, hnz⟩
        · intro _
          exact hc.1
      · rw [if_neg h15, show s + i + 1 = s + (i + 1) by omega, ih (i + 1) (by omega)]
        constructor
        · rintro ⟨m, h1, h2, h3, h4⟩
          refine ⟨m, by omega, h2, fun j hj1 hj2 => ?_, h4⟩
          by_cases hj : j = i
          · subst hj
            exact ⟨heq, hnz⟩
          · exact h3 j (by omega) hj2
        · rintro ⟨m, h1, h2, h3, h4⟩
          have hm : i + 1 ≤ m := by
            by_contra hlt
            have hmi : m = i := by omega
            subst hmi
            rcases h4 with h4 | h4
            · omega
            · exact hnz h4.2
          exact ⟨m, hm, h2, fun j hj1 hj2 => h3 j (by omega) hj2, h4⟩
    · rw [if_neg hc]
      constructor
      · intro hz
        have heq := hd.mp hz
        have hzero : s2.getD i 0 % 256 = 0 := by
          by_contra hnz
          exact hc ⟨hz, fun hsum => hnz ((toChar_sum_eq_zero _ _ hr heq).mp hsum)⟩
        exact ⟨i, Nat.le_refl _, by omega, fun j h1 h2 => by omega,
          Or.inr ⟨by omega, hzero⟩⟩
      · rintro ⟨m, h1, h2, h3, h4⟩
        by_cases hmi : m = i
        · subst hmi
          rcases h4 with h4 | h4
          · omega
          · exact hd.mpr (by omega)
        · obtain ⟨g1, g2⟩ := h3 i (Nat.le_refl _) (by omega)
          exfalso
          exact hc ⟨hd.mpr g1, fun hsum => g2 ((toChar_sum_eq_zero _ _ hr g1).mp hsum)⟩

theorem persistentStore_loop_stored (dataPtr : Nat) (data : List Nat) (size : Nat) :
    ∀ (k addr j : Nat) (e : Eeprom),
      (persistentStore.loop dataPtr data size k addr j e).2.stored = e.stored := by
  intro k
  induction k with
  | zero => intro addr j e; rfl
  | succ k ih =>
    intro addr j e
    rw [persistentStore.loop]
    by_cases h1 : EEPROM_read e addr ≠ (dataPtr + j) % 65536
    · rw [if_pos h1]
      dsimp only
      by_cases h2 : EEPROM_read (EEPROM_write e addr (data.getD j 0)) addr ≠ data.getD j 0 % 256
      · rw [if_pos h2]
        rfl
      · rw [if_neg h2, ih]
        rfl
    · rw [if_neg h1]
      exact ih addr j e

theorem persistentClear_loop_stored (addr clearWith size : Nat) :
    ∀ (k addrWr : Nat) (e : Eeprom),
      (persistentClear.loop addr clearWith size k addrWr e).2.stored = e.stored := by
  intro k
  induction k with
  | zero => intro addrWr e; rfl
  | succ k ih =>
    intro addrWr e
    rw [persistentClear.loop]
    by_cases h1 : EEPROM_read e addrWr ≠ clearWith % 256
    · rw [if_pos h1]
      dsimp only
      by_cases h2 : EEPROM_read (EEPROM_write e addrWr clearWith) addrWr ≠ clearWith % 256
      · rw [if_pos h2]
        rfl
      · rw [if_neg h2, ih]
        rfl
    · rw [if_neg h1]
      exact ih addrWr e

theorem newPersistentHeader_stored (e : Eeprom) (name : List Nat) (addr size : Nat)
    (hl : HeaderLocal) : (newPersistentHeader e name addr size hl).2.stored = e.stored := by
  unfold newPersistentHeader persistentStore
  dsimp only
  split_ifs <;> dsimp only <;> exact persistentStore_loop_stored _ _ _ _ _ _ _

/-- No `newPersistentArea` changes what the medium does with a write. -/
theorem newPersistentArea_reliable {fuel : Nat} {e e1 : Eeprom} {name : List Nat} {n a : Nat}
    {lf lh : HeaderLocal} (hrel : Reliable e)
    (h : newPersistentArea fuel e name n lf lh = some (a, e1)) : Reliable e1 := by
  have hst : e1.stored = e.stored := by
    unfold newPersistentArea at h
    cases hlook : getPersistentHeaderAddress fuel e name with
    | none => simp [hlook] at h
    | some x =>
      simp only [hlook] at h
      cases hfind : findNewPersistentArea fuel e n lf with
      | none =>
        simp only [hfind] at h
        split_ifs at h
        rw [← (Prod.mk.inj (Option.some.inj h)).2]
      | some y =>
        simp only [hfind] at h
        split_ifs at h
        all_goals rw [← (Prod.mk.inj (Option.some.inj h)).2]
        all_goals exact newPersistentHeader_stored _ _ _ _ _
  intro a old v
  rw [hst]
  exact hrel a old v

/-- No `freePersistentArea` changes what the medium does with a write. -/
theorem freePersistentArea_reliable {fuel : Nat} {e e1 : Eeprom} {name : List Nat} {rc : Int}
    {hl : HeaderLocal} (hrel : Reliable e)
    (h : freePersistentArea fuel e name hl = some (rc, e1)) : Reliable e1 := by
  have hst : e1.stored = e.stored := by
    unfold freePersistentArea persistentStore persistentClear at h
    cases hlook : getPersistentHeaderAddress fuel e name with
    | none => simp [hlook] at h
    | some x =>
      simp only [hlook] at h
      cases hread : persistentReadHeaderByName fuel e name hl.init with
      | none =>
        simp only [hread] at h
        split_ifs at h
        rw [← (Prod.mk.inj (Option.some.inj h)).2]
      | some p =>
        obtain ⟨p1, p2⟩ := p
        simp only [hread] at h
        split_ifs at h
        all_goals rw [← (Prod.mk.inj (Option.some.inj h)).2]
        all_goals first
          | exact persistentStore_loop_stored _ _ _ _ _ _ _
          | (rw [persistentClear_loop_stored]
             exact persistentStore_loop_stored _ _ _ _ _ _ _)
  intro a old v
  rw [hst]
  exact hrel a old v

/-- On a medium that reads 0xFF everywhere, the walk of `getPersistentHeaderAddress` for a name
that does not start with 0xFF moves on by 0xFFFF from header to header, wraps at 2^32 when the
region end lies beyond, and returns 0 when it leaves the region or comes by the address 0xFFFF;
`M` bounds the number of iterations left. -/
theorem lookup_loop_all_ff (e : Eeprom) (name : List Nat) (hff : ∀ i, EEPROM_read e i = 0xff)
    (hname : name.getD 0 0 % 256 ≠ 255) :
    ∀ (M c : Nat), c < 4294967296 → (c % 65535) * 65538 + (65537 - c / 65535) ≤ M →
      getPersistentHeaderAddress.loop e name (M + 1) c = some 0 := by
  have hend := EPR_END_FREE_lt e
  intro M
  induction M with
  | zero =>
    intro c hc hm
    exact lookup_loop_past e name 0 c (by omega)
  | succ M ih =>
    intro c hc hm
    by_cases hlt : c < EPR_END_FREE e
    · by_cases h16 : c = 0xffff
      · rw [getPersistentHeaderAddress.loop, if_pos hlt, if_pos h16]
      · have hnext : EEPROM_RD_INT e c = 0xffff := by
          unfold EEPROM_RD_INT
          rw [hff, hff]
        rw [lookup_loop_skip e name (M + 1) c hlt h16
          (persistentStrCmp_filler e name (c + 4) (hff _) hname), hnext]
        have hq : c / 65535 ≤ 65537 := by omega
        by_cases hw : c + 65535 < 4294967296
        · rw [Nat.mod_eq_of_lt hw]
          have h1 : (c + 65535) / 65535 = c / 65535 + 1 := by omega
          have h2 : (c + 65535) % 65535 = c % 65535 := by omega
          refine ih _ hw ?_
          rw [h1, h2]
          omega
        · have h0 : (c + 65535) % 4294967296 = c - 4294901761 := by omega
          have h1 : (c - 4294901761) / 65535 = 0 := by omega
          have h2 : (c - 4294901761) % 65535 + 1 = c % 65535 := by omega
          have h3 : c / 65535 = 65536 := by omega
          rw [h0]
          refine ih _ (by omega) ?_
          rw [h1]
          rw [h3] at hm
          omega
    · exact lookup_loop_past e name (M + 1) c (by omega)

theorem persistentClear_loop_stall (addr clearWith size : Nat) (e : Eeprom) (addrWr : Nat)
    (h : EEPROM_read e addrWr = clearWith % 256) :
    ∀ k, persistentClear.loop addr clearWith size k addrWr e = ((size : Int), e) := by
  intro k
  induction k with
  | zero => rfl
  | succ k ih =>
    rw [persistentClear.loop, if_neg (by rw [h]; exact fun hh => hh (Eq.refl _))]
    exact ih

/-- `freePersistentArea` of a name that resolves to a live header inside the region, when the
store of the header succeeds and the first payload byte already reads 0xFF afterwards:
`persistentClear` stays on that byte, and the call returns 1 having stored the header only. -/
theorem freePersistentArea_stalled (fuel : Nat) (e : Eeprom) (name : List Nat) (h : Nat)
    (hl : HeaderLocal) (N : Nat) (H : persistentAreaHeader)
    (hlook : getPersistentHeaderAddress fuel e name = some h) (h0 : h ≠ 0)
    (hdata : h + 20 < EPR_END_FREE e) (hlive : EEPROM_RD_INT e (h + 2) ≠ 0xffff)
    (hN : (if EEPROM_RD_INT e ((h + EEPROM_RD_INT e h) % 4294967296) = 0xffff
      then 0xffff else EEPROM_RD_INT e h) = N)
    (hH : H = { next := N, data := 0xffff, name := List.replicate 16 0xFF })
    (hst : (persistentStore e h hl.ptr (headerBytes H) 20).1 = 20)
    (hrd : EEPROM_read (persistentStore e h hl.ptr (headerBytes H) 20).2
      ((h + EEPROM_RD_INT e (h + 2)) % 4294967296) = 0xff % 256) :
    freePersistentArea fuel e name hl
      = some (1, (persistentStore e h hl.ptr (headerBytes H) 20).2) := by
  have hlt := EEPROM_RD_INT_lt e (h + 2)
  unfold freePersistentArea
  rw [hlook]
  simp only [h0, if_false, persistentReadHeaderByName_ok fuel e name h hl.init hlook hdata,
    readHeader_data, readHeader_next, PERSISTENT_AREA_PREFIX_SIZE, PERSISTENT_AREA_NAME_SIZE]
  rw [if_neg (by omega), hN, ← hH, if_neg (by rw [hst]; exact fun hh => hh (Eq.refl _))]
  unfold persistentClear
  rw [persistentClear_loop_stall _ 0xff _ _ _ hrd]
  rw [if_neg (fun hh => hh (Eq.refl _))]

/-- How `newPersistentArea` succeeds: the name does not resolve, `findNewPersistentArea`
returns an address other than 0, and `newPersistentHeader` returns the size asked for. -/
theorem newPersistentArea_of_parts (fuel : Nat) (e : Eeprom) (name : List Nat) (n a : Nat)
    (lf lh : HeaderLocal) (hlook : getPersistentHeaderAddress fuel e name = some 0)
    (hfind : findNewPersistentArea fuel e n lf = some a) (ha : a ≠ 0)
    (hrc : (newPersistentHeader e name a n lh).1 % 65536 = ((n % 65536 : Nat) : Int)) :
    newPersistentArea fuel e name n lf lh = some (a, (newPersistentHeader e name a n lh).2) := by
  unfold newPersistentArea
  rw [hlook]
  simp only [ne_eq, not_true_eq_false, if_false, hfind]
  rw [if_neg (by omega), if_pos hrc]

/-! ## The concrete media -/

theorem eq_some_stateAfter {α : Type} (x : Option (α × Eeprom)) (a : α)
    (h : x.map Prod.fst = some a) : x = some (a, stateAfter x) := by
  cases x with
  | none => simp at h
  | some p =>
    obtain ⟨p1, p2⟩ := p
    simp only [Option.map_some', Option.some.injEq] at h
    subst h
    rfl

theorem Reliable_areaA : Reliable areaA := fun _ _ _ => rfl

theorem Sane_areaA : Sane areaA := by
  unfold Sane
  decide

theorem Reliable_areaAB : Reliable areaAB := fun _ _ _ => rfl

theorem Sane_areaAB : Sane areaAB := by
  unfold Sane
  decide

theorem chain_areaA : ChainTo areaA 20 40 EPR_START_FREE := by
  have h30 : EEPROM_RD_INT areaA EPR_START_FREE = 30 := by decide
  refine ChainTo.step (by rw [h30]; decide) ?_
  rw [h30]
  exact ChainTo.here

theorem chain_areaAB : ChainTo areaAB 0 40 EPR_START_FREE := by
  have h30 : EEPROM_RD_INT areaAB EPR_START_FREE = 30 := by decide
  refine ChainTo.step (Nat.zero_le _) ?_
  rw [h30]
  exact ChainTo.here

theorem Sane_blank : Sane blank := by
  unfold Sane
  decide

theorem virgin_blank (x : Nat) (h1 : EPR_START_FREE ≤ x) (_h2 : x < EPR_END_FREE blank) :
    EEPROM_read blank x = 0xff := by
  have hE : EPR_END_FREE blank = 4096 := by decide
  rw [hE] at _h2
  unfold EPR_START_FREE at h1
  show (if 6 ≤ x % 65536 ∧ x % 65536 < 10 then 0 else 255) % 256 = 255
  rw [if_neg (by omega)]

theorem reached_blank : Reached blank (fun _ => none) :=
  Reached.virgin blank (fun _ _ _ => rfl) Sane_blank (by decide) virgin_blank

theorem reached_areaA : Reached areaA (Function.update (fun _ => none) 10 (some 10)) :=
  Reached.alloc 3 [65] 10 10 local0 local0 areaA reached_blank (by decide)
    (eq_some_stateAfter _ _ (by decide)) (by decide) (Or.inl (by decide))

theorem reached_areaAB : Reached areaAB
    (Function.update (Function.update (fun _ => none) 10 (some 10)) 40 (some 5)) :=
  Reached.alloc 4 [66] 5 40 local0 local0 areaAB reached_areaA (by decide)
    (eq_some_stateAfter _ _ (by decide)) (by decide) (Or.inl (by decide))

theorem reached_area0 : Reached area0 (Function.update (fun _ => none) 10 (some 0)) :=
  Reached.alloc 3 [65] 0 10 local0 local0 area0 reached_blank (by decide)
    (eq_some_stateAfter _ _ (by decide)) (by decide) (Or.inl (by decide))

theorem reached_freedA : Reached freedA
    (Function.update
      (Function.update (Function.update (fun _ => none) 10 (some 10)) 40 (some 5)) 10 none) :=
  Reached.free 4 [65] 10 local0 freedA reached_areaAB (by decide) (by decide)
    (eq_some_stateAfter _ _ (by decide))
    (fun x h1 h2 => by
      have h3 : EEPROM_RD_INT areaAB 10 = 30 := by decide
      rw [h3] at h2
      have h4 : x = 30 ∨ x = 31 ∨ x = 32 ∨ x = 33 ∨ x = 34 ∨ x = 35 ∨ x = 36 ∨ x = 37 ∨
          x = 38 ∨ x = 39 := by omega
      rcases h4 with h | h | h | h | h | h | h | h | h | h <;> subst h <;> decide)

theorem lookup_zeroNext (fuel : Nat) :
    getPersistentHeaderAddress.loop zeroNext [65] fuel 10 = none := by
  induction fuel with
  | zero => rfl
  | succ k ih =>
    rw [lookup_loop_skip zeroNext [65] k 10 (by decide) (by decide) (by decide),
      show (10 + EEPROM_RD_INT zeroNext 10) % 4294967296 = 10 by decide]
    exact ih

theorem areaLookup_zeroNext (fuel : Nat) :
    getPersistentAreaAddress.loop zeroNext [65] fuel 10 = none := by
  induction fuel with
  | zero => rfl
  | succ k ih =>
    rw [getPersistentAreaAddress.loop, if_pos (by decide), if_neg (by decide),
      if_neg (by decide), show (10 + EEPROM_RD_INT zeroNext 10) % 4294967296 = 10 by decide]
    exact ih

theorem find_zeroNext (fuel : Nat) :
    ∀ hdr : persistentAreaHeader, findNewPersistentArea.loop zeroNext 1 fuel 10 hdr = none := by
  induction fuel with
  | zero => intro hdr; rfl
  | succ k ih =>
    intro hdr
    rw [find_loop_succ, if_pos (by decide),
      persistentReadHeader_ok zeroNext 10 hdr (by decide), if_neg (by decide)]
    dsimp only
    rw [show (10 + (headerOfBytes (persistentRead zeroNext 10 20)).next) % 4294967296 = 10 by
      decide]
    exact ih _

theorem Reliable_areaX : Reliable areaX :=
  newPersistentArea_reliable (e := blank) (fun _ _ _ => rfl)
    (eq_some_stateAfter (newPersistentArea 3 blank [88] 65517 local0 local0) 30 (by decide))

theorem free_areaX :
    freePersistentArea 3 areaX [88] local0
      = some (1, (persistentStore areaX 10 local0.ptr
          (headerBytes { next := 1, data := 0xffff, name := List.replicate 16 0xFF }) 20).2) :=
  freePersistentArea_stalled 3 areaX [88] 10 local0 1 _ (by decide) (by decide) (by decide)
    (by decide) (by decide) (Eq.refl _) (by decide) (by decide)

theorem freedX_eq :
    freedX = (persistentStore areaX 10 local0.ptr
      (headerBytes { next := 1, data := 0xffff, name := List.replicate 16 0xFF }) 20).2 := by
  unfold freedX
  rw [free_areaX]
  rfl

theorem Reliable_freedX : Reliable freedX :=
  freePersistentArea_reliable Reliable_areaX
    (eq_some_stateAfter (freePersistentArea 3 areaX [88] local0) 1 (by rw [free_areaX]; rfl))

theorem Reliable_areaXB : Reliable areaXB :=
  newPersistentArea_reliable Reliable_freedX
    (eq_some_stateAfter (newPersistentArea 5 freedX [66] 5 local0 local0) 31
      (by rw [freedX_eq]; decide))

theorem virgin_wornFactory : isPersistentStorageVirgin wornFactory = true := by
  unfold isPersistentStorageVirgin
  rw [isPersistentStorageVirgin_loop_iff]
  intro j _
  rfl

theorem header_wornFactory :
    (newPersistentHeader wornFactory [65] 30 10 local0).2 = EEPROM_write wornFactory 10 30 := by
  rfl

theorem virgin_wornFactory_after :
    isPersistentStorageVirgin (newPersistentHeader wornFactory [65] 30 10 local0).2 = true := by
  rw [header_wornFactory]
  unfold isPersistentStorageVirgin
  rw [isPersistentStorageVirgin_loop_iff]
  intro j _
  show (if (0 + j) % 65536 = 10 % 65536 then _ else _) % 256 = 255
  split_ifs <;> rfl

theorem lookup_wornFactory : getPersistentHeaderAddress 720918 wornFactory [65] = some 0 :=
  lookup_loop_all_ff wornFactory [65] (fun _ => rfl) (by decide) 720917 10 (by omega)
    (by omega)

theorem alloc_wornFactory :
    newPersistentArea 720918 wornFactory [65] 10 local0 local0
      = some (30, (newPersistentHeader wornFactory [65] 30 10 local0).2) :=
  newPersistentArea_of_parts 720918 wornFactory [65] 10 30 local0 local0 lookup_wornFactory
    (by decide) (by decide) (by decide)

theorem chain_reusedC7 : ChainTo reusedC7 0 37 EPR_START_FREE := by
  have h27 : EEPROM_RD_INT reusedC7 EPR_START_FREE = 27 := by decide
  refine ChainTo.step (Nat.zero_le _) ?_
  rw [h27]
  exact ChainTo.here

/-! ## The claims -/

/-- Round trip on a well-formed chain. On a sound medium (every raw write reads back) in the configuration the
allocator is meant for, let `newPersistentArea(name, n)` have succeeded with the data address
`h + 20`, where the chain of cells, each at least a header long, leads from `EPR_START_FREE` to
the header `h`, the area `[h + 20, h + 20 + n)` lies inside the allocatable region, and the
local header of `newPersistentHeader` lives in SRAM (at 256 or above). Then
`persistentWriteArea(name, n, payload)` with a payload of `n` bytes writes all of it, and
`persistentReadArea(name, n, buf)` on the result returns 1 and leaves the payload, byte for byte,
in the first `n` bytes of `buf`. -/
theorem round_trip_on_well_formed_chain (fuel : Nat) (e e1 : Eeprom)
    (name payload buf : List Nat) (n h : Nat) (lf lh lw lr : HeaderLocal)
    (hrel : Reliable e) (hs : Sane e) (hchain : ChainTo e 20 h EPR_START_FREE)
    (hdata : h + 20 < EPR_END_FREE e) (hfit : h + 20 + n ≤ EPR_END_FREE e)
    (hp : 256 ≤ lh.ptr) (hp2 : lh.ptr + 20 ≤ 65536)
    (halloc : newPersistentArea fuel e name n lf lh = some (h + 20, e1))
    (hlen : payload.length = n) (hbytes : ∀ b ∈ payload, b < 256) :
    ∃ e2, persistentWriteArea fuel e1 name n payload lw = some (toInt16 n, e2) ∧
      persistentReadArea fuel e2 name n buf lr = some (1, payload ++ buf.drop n) := by
  have h10 : 10 ≤ h := hchain.le
  have hE : EPR_END_FREE e ≤ 4096 := Nat.le_trans hs.1 hs.2
  obtain ⟨hlook0, _, hfree, he1⟩ := newPersistentArea_inv (by omega) halloc
  obtain ⟨_, o1, f1, f2, f3⟩ :=
    newPersistentHeader_spec e hrel name h n lh (by omega) hp hp2 hfree
  rw [← he1] at o1 f1 f2 f3
  have hend1 : EPR_END_FREE e1 = EPR_END_FREE e := (o1.sameBelow (Nat.le_refl _)).endFree h10
  have hcmp1 : persistentStrCmp e1 (h + 4) name = 0 := persistentStrCmp_stored e1 name _ f3
  have hlook1 : getPersistentHeaderAddress fuel e1 name = some h :=
    lookup_resolves name hs hchain (by omega) fuel 0 hlook0 (Or.inl (Eq.refl _))
      (o1.sameBelow (Nat.le_refl _)) hcmp1
  obtain ⟨w1, w2, w3⟩ := persistentWriteArea_loop_spec (h + 20) n payload n (h + 20) 0 e1
    (o1.reliable hrel) (by omega) (Nat.le_refl _)
  refine ⟨(persistentWriteArea.loop (h + 20) n payload n (h + 20) 0 e1).2, ?_, ?_⟩
  · unfold persistentWriteArea
    rw [persistentReadHeaderByName_ok fuel e1 name h lw.init hlook1 (by omega)]
    have hne : ¬ h + 20 = 0 := by omega
    have hm : (h + 20 + n) % 4294967296 = h + 20 + n := by omega
    have hm2 : ¬ n ≠ (h + 20 + n + 4294967296 - (h + 20)) % 4294967296 := by omega
    simp only [hne, if_false, hm, hm2]
    rw [show h + 20 + n - (h + 20) = n by omega]
    rw [show h + 20 + n - (h + 20) = n by omega] at w1
    rw [← w1]
  · have hsame : SameBelow (h + 20) e1 (persistentWriteArea.loop (h + 20) n payload n (h + 20) 0 e1).2 :=
      w2.sameBelow (Nat.le_refl _)
    have hsame0 : SameBelow h e (persistentWriteArea.loop (h + 20) n payload n (h + 20) 0 e1).2 :=
      ((o1.mono (Nat.le_refl _) (q := h + 20 + n) (by omega)).trans
        (w2.mono (by omega) (Nat.le_refl _))).sameBelow (Nat.le_refl _)
    have hcmp2 : persistentStrCmp (persistentWriteArea.loop (h + 20) n payload n (h + 20) 0 e1).2
        (h + 4) name = 0 := by
      rw [persistentStrCmp_congr _ _ (fun t ht => hsame.readBelow _ (by omega))]
      exact hcmp1
    have hlook2 := lookup_resolves name hs hchain (by omega) fuel 0 hlook0 (Or.inl (Eq.refl _))
      hsame0 hcmp2
    have hend2 := hsame0.endFree h10
    unfold persistentReadArea
    rw [persistentReadHeaderByName_ok fuel _ name h lr.init hlook2 (by omega)]
    have hne : ¬ h + 20 = 0 := by omega
    have g1 : EEPROM_RD_INT (persistentWriteArea.loop (h + 20) n payload n (h + 20) 0 e1).2 h
        = (20 + n) % 65536 := by
      rw [EEPROM_RD_INT_congr (hsame.readBelow _ (by omega)) (hsame.readBelow _ (by omega))]
      exact f1
    have g2 : EEPROM_RD_INT (persistentWriteArea.loop (h + 20) n payload n (h + 20) 0 e1).2
        (h + 2) = 20 := by
      rw [EEPROM_RD_INT_congr (hsame.readBelow _ (by omega)) (hsame.readBelow _ (by omega))]
      exact f2
    have hsz : ¬ ((20 + n) % 65536 + 65536 - 20 % 65536) % 65536 ≠ n := by omega
    simp only [hne, if_false, readHeader_next, readHeader_data, g1, g2, hsz]
    have hpl := persistentRead_eq_payload
      (persistentWriteArea.loop (h + 20) n payload n (h + 20) 0 e1).2 (h + 20) payload hbytes
      (fun i hi => by
        have := w3 i (by omega)
        simpa using this)
    rw [hlen] at hpl
    rw [hpl]

/-- The round trip at a concrete input: on the medium that holds the area "A", allocate "B" with 3 bytes,
write the payload 1, 2, 200 and read it back into a buffer of 4 bytes. -/
theorem round_trip_on_well_formed_chain_witness :
    ∃ e2, persistentWriteArea 4
        (stateAfter (newPersistentArea 4 areaA [66] 3 local0 local0)) [66] 3 [1, 2, 200] local0
        = some (toInt16 3, e2) ∧
      persistentReadArea 4 e2 [66] 3 [0, 0, 0, 9] local0 = some (1, [1, 2, 200] ++ [9]) :=
  round_trip_on_well_formed_chain 4 areaA _ [66] [1, 2, 200] [0, 0, 0, 9] 3 40
    local0 local0 local0 local0 Reliable_areaA Sane_areaA chain_areaA (by decide) (by decide)
    (by decide) (by decide) (eq_some_stateAfter _ _ (by decide)) (by decide) (by decide)

/-- C1, what the code does: on the sound medium `blank`, `newPersistentArea("X", 65517)`
succeeds with the data address 30 and a `next` field of 1, `freePersistentArea("X")` returns 1,
and `newPersistentArea("B", 5)` succeeds with the data address 31, its header at 11 lying
over the cell at 10. On the medium `areaXB` this leaves, which is sound,
`persistentWriteArea("B", 5, {1, 2, 3, 4, 5})` returns 5 and `persistentReadArea("B", 5, buf)`
then returns -2 and leaves `buf` as it was. -/
theorem C1_round_trip_fails_after_wrapped_allocation :
    Reliable areaXB ∧
      (newPersistentArea 3 blank [88] 65517 local0 local0).map Prod.fst = some 30 ∧
      EEPROM_RD_INT areaX 10 = 1 ∧
      (freePersistentArea 3 areaX [88] local0).map Prod.fst = some 1 ∧
      (newPersistentArea 5 freedX [66] 5 local0 local0).map Prod.fst = some 31 ∧
      (persistentWriteArea 5 areaXB [66] 5 [1, 2, 3, 4, 5] local0).map Prod.fst = some 5 ∧
      persistentReadArea 5
          (stateAfter (persistentWriteArea 5 areaXB [66] 5 [1, 2, 3, 4, 5] local0)) [66] 5
          [0, 0, 0, 0, 0] local0
        = some (-2, [0, 0, 0, 0, 0]) :=
  ⟨Reliable_areaXB, by decide, by decide, by rw [free_areaX]; rfl,
    by rw [freedX_eq]; decide, by unfold areaXB; rw [freedX_eq]; decide,
    by unfold areaXB; rw [freedX_eq]; decide⟩

/-- A name on the chain is refused. In the configuration the allocator is meant for, when a header on the chain
of cells inside the region carries the name (live or not), `newPersistentArea(name, n)`
returns `(uint32_t)-1` for every size `n` once the walk has fuel enough to reach that header, and
leaves the medium as it was. -/
theorem name_on_chain_is_refused (e : Eeprom) (name : List Nat) (h : Nat) (hs : Sane e)
    (hchain : ChainTo e 0 h EPR_START_FREE) (hin : h < EPR_END_FREE e)
    (hname : persistentStrCmp e (h + 4) name = 0) :
    ∃ F, ∀ fuel, F ≤ fuel → ∀ (n : Nat) (lf lh : HeaderLocal),
      newPersistentArea fuel e name n lf lh = some (4294967295, e) := by
  obtain ⟨F, r, hr, hall⟩ := lookup_reaches name hs hin hname hchain (Nat.le_refl _)
  refine ⟨F, fun fuel hf n lf lh => ?_⟩
  unfold newPersistentArea getPersistentHeaderAddress
  rw [hall fuel hf]
  simp only [hr, ne_eq, not_false_eq_true, if_true]

/-- The refusal at a concrete input: on the medium that holds the areas "A" and "B", allocating "B"
again, with any size, is refused. -/
theorem name_on_chain_is_refused_witness :
    ∃ F, ∀ fuel, F ≤ fuel → ∀ (n : Nat) (lf lh : HeaderLocal),
      newPersistentArea fuel areaAB [66] n lf lh = some (4294967295, areaAB) :=
  name_on_chain_is_refused areaAB [66] 40 Sane_areaAB chain_areaAB (by decide) (by decide)

/-- C2, what the code does: `reusedC` is reached from the virgin `blank` by allocating "A"
(10 bytes) and "B" (5 bytes), freeing "A" and allocating "C" (5 bytes); the header of "B" at
40, never freed, is live and carries the name, its cell is as it was written. Yet
`getPersistentHeaderAddress("B")` returns 0 and `newPersistentArea("B", 5)` returns the data
address 55, not `(uint32_t)-1`. -/
theorem C2_live_name_is_allocated_again :
    Reached freedA
        (Function.update
          (Function.update (Function.update (fun _ => none) 10 (some 10)) 40 (some 5)) 10 none) ∧
      (newPersistentArea 4 freedA [67] 5 local0 local0).map Prod.fst = some 30 ∧
      EEPROM_RD_INT reusedC (40 + 2) = 20 ∧ persistentStrCmp reusedC (40 + 4) [66] = 0 ∧
      persistentRead reusedC 40 25 = persistentRead areaAB 40 25 ∧
      getPersistentHeaderAddress 4 reusedC [66] = some 0 ∧
      (newPersistentArea 4 reusedC [66] 5 local0 local0).map Prod.fst = some 55 :=
  ⟨reached_freedA, by decide, by decide, by decide, by decide, by decide, by decide⟩

/-- Freed-cell reuse on a well-formed chain. On a sound medium in the configuration the allocator is meant for,
let `newPersistentArea(A, n)` have succeeded with the data address `h + 20`, where the chain of
cells, each at least a header long, leads from `EPR_START_FREE` to the header `h`, the area
lies inside the allocatable region, and the local headers that get stored live in SRAM (at 256
or above). Then `freePersistentArea(A)` returns 1 and, provided `B` does not resolve on the
medium it leaves (`getPersistentHeaderAddress(B)` is 0 there), `newPersistentArea(B, n)`
succeeds and returns the same address `h + 20`. -/
theorem freed_cell_is_reused_on_well_formed_chain (fuel : Nat) (e e1 : Eeprom) (A B : List Nat) (n h : Nat)
    (lf lh l2 lf3 lh3 : HeaderLocal)
    (hrel : Reliable e) (hs : Sane e) (hchain : ChainTo e 20 h EPR_START_FREE)
    (hdata : h + 20 < EPR_END_FREE e) (hfit : h + 20 + n ≤ EPR_END_FREE e)
    (hp : 256 ≤ lh.ptr ∧ lh.ptr + 20 ≤ 65536) (hq : 256 ≤ l2.ptr ∧ l2.ptr + 20 ≤ 65536)
    (hr : 256 ≤ lh3.ptr ∧ lh3.ptr + 20 ≤ 65536)
    (halloc : newPersistentArea fuel e A n lf lh = some (h + 20, e1)) :
    ∃ e2, freePersistentArea fuel e1 A l2 = some (1, e2) ∧
      (getPersistentHeaderAddress fuel e2 B = some 0 →
        ∃ e3, newPersistentArea fuel e2 B n lf3 lh3 = some (h + 20, e3)) := by
  have h10 : 10 ≤ h := hchain.le
  have hE : EPR_END_FREE e ≤ 4096 := Nat.le_trans hs.1 hs.2
  obtain ⟨hlook0, hfind, hfree, he1⟩ := newPersistentArea_inv (by omega) halloc
  obtain ⟨_, o1, f1, f2, f3⟩ :=
    newPersistentHeader_spec e hrel A h n lh (by omega) hp.1 hp.2 hfree
  rw [← he1] at o1 f1 f2 f3
  have hsame1 : SameBelow h e e1 := o1.sameBelow (Nat.le_refl _)
  have hend1 : EPR_END_FREE e1 = EPR_END_FREE e := hsame1.endFree h10
  have hcmp1 : persistentStrCmp e1 (h + 4) A = 0 := persistentStrCmp_stored e1 A _ f3
  have hlook1 : getPersistentHeaderAddress fuel e1 A = some h :=
    lookup_resolves A hs hchain (by omega) fuel 0 hlook0 (Or.inl (Eq.refl _)) hsame1 hcmp1
  have hnx : EEPROM_RD_INT e1 h = 20 + n := by
    rw [f1]
    omega
  obtain ⟨e2, hfr, o2, d2, n2, _⟩ := freePersistentArea_spec e1 (o1.reliable hrel)
    (hsame1.sane h10 hs) A fuel h l2 hlook1 h10 (by omega) f2 (by omega) (by omega) hq.1 hq.2
  rw [hnx] at o2 n2
  refine ⟨e2, hfr, fun hB => ?_⟩
  have hsame2 : SameBelow h e e2 :=
    ((o1.mono (Nat.le_refl _) (q := h + (20 + n)) (by omega)).trans o2).sameBelow
      (Nat.le_refl _)
  have hend2 : EPR_END_FREE e2 = EPR_END_FREE e := hsame2.endFree h10
  have hrel2 : Reliable e2 := o2.reliable (o1.reliable hrel)
  -- the search stops at `h` again
  have hfind2 : findNewPersistentArea fuel e2 n lf3 = some (h + 20) := by
    obtain ⟨k, hk, hall⟩ := find_passes n hs hchain (Nat.le_refl _) (by omega) fuel lf.init
      (h + 20) hfind (Or.inr (Nat.le_refl _))
    obtain ⟨hdr1, hstep⟩ := hall e2 hsame2 (fuel - k) lf3.init
    rw [show k + (fuel - k) = fuel by omega] at hstep
    unfold findNewPersistentArea
    rw [hstep]
    obtain ⟨g, hg⟩ : ∃ g, fuel - k = g + 1 := ⟨fuel - k - 1, by omega⟩
    rw [hg]
    apply find_loop_hit e2 n g h hdr1 (by omega)
    unfold Usable
    rw [readHeader_data, readHeader_next, d2, n2, hend2]
    refine ⟨Eq.refl _, ?_⟩
    unfold PERSISTENT_AREA_PREFIX_SIZE
    split_ifs with hv
    · left
      exact ⟨Eq.refl _, by omega⟩
    · right
      exact ⟨by omega, by omega⟩
  obtain ⟨r1, _, _, _, _⟩ :=
    newPersistentHeader_spec e2 hrel2 B h n lh3 (by omega) hr.1 hr.2 d2
  refine ⟨(newPersistentHeader e2 B (h + 20) n lh3).2, ?_⟩
  unfold newPersistentArea
  rw [hB, hfind2]
  have hne : ¬ h + 20 ≤ 0 := by omega
  have hrc : (newPersistentHeader e2 B (h + 20) n lh3).1 % 65536 = ((n % 65536 : Nat) : Int) := by
    rw [r1, toInt16_emod]
    omega
  simp only [ne_eq, not_true_eq_false, if_false, hne, hrc, if_true]

/-- Freed-cell reuse at a concrete input: on the medium that holds "A", allocate "B" with 5 bytes (data
address 60), free it, and allocate "C" with 5 bytes: the address is 60 again. -/
theorem freed_cell_is_reused_on_well_formed_chain_witness :
    ∃ e2, freePersistentArea 4 areaAB [66] local0 = some (1, e2) ∧
      getPersistentHeaderAddress 4 e2 [67] = some 0 ∧
      ∃ e3, newPersistentArea 4 e2 [67] 5 local0 local0 = some (60, e3) := by
  obtain ⟨e2, hfr, himp⟩ := freed_cell_is_reused_on_well_formed_chain 4 areaA areaAB [66] [67] 5 40
    local0 local0 local0 local0 local0 Reliable_areaA Sane_areaA chain_areaA (by decide)
    (by decide) (by decide) (by decide) (by decide) (eq_some_stateAfter _ _ (by decide))
  have he2 : e2 = stateAfter (freePersistentArea 4 areaAB [66] local0) := by
    rw [hfr]
    rfl
  have hB : getPersistentHeaderAddress 4 e2 [67] = some 0 := by
    rw [he2]
    decide
  exact ⟨e2, hfr, hB, himp hB⟩

/-- C3, what the code does: on the sound medium `freedX`, reached from `blank` by
`newPersistentArea("X", 65517)` and `freePersistentArea("X")`, `newPersistentArea("B", 5)`
succeeds with the data address 31; `freePersistentArea("B")` then returns -1, and
`newPersistentArea("C", 5)` after it returns 0, not 31. -/
theorem C3_freed_cell_is_not_reused_after_wrapped_allocation :
    Reliable freedX ∧
      (newPersistentArea 3 blank [88] 65517 local0 local0).map Prod.fst = some 30 ∧
      (freePersistentArea 3 areaX [88] local0).map Prod.fst = some 1 ∧
      (newPersistentArea 5 freedX [66] 5 local0 local0).map Prod.fst = some 31 ∧
      (freePersistentArea 5 areaXB [66] local0).map Prod.fst = some (-1) ∧
      (newPersistentArea 5 (stateAfter (freePersistentArea 5 areaXB [66] local0)) [67] 5
        local0 local0).map Prod.fst = some 0 :=
  ⟨Reliable_freedX, by decide, by rw [free_areaX]; rfl, by rw [freedX_eq]; decide,
    by unfold areaXB; rw [freedX_eq]; decide, by unfold areaXB; rw [freedX_eq]; decide⟩

/-- C4, what the code does: the freed cell at 10 of `freedA` has `next` 30 and `data` 0xFFFF;
`newPersistentHeader("C", 30, 4)`, a size that fits, returns 4 and leaves `next` 24 in it. -/
theorem C4_claim_overwrites_next_of_freed_cell :
    EEPROM_RD_INT freedA 10 = 30 ∧ EEPROM_RD_INT freedA 12 = 0xffff ∧
      (newPersistentHeader freedA [67] 30 4 local0).1 = 4 ∧
      EEPROM_RD_INT (newPersistentHeader freedA [67] 30 4 local0).2 10 = 24 := by
  decide

/-- C5, what the code does: no header of `blank` carries "A", yet `persistentReadArea("A", 5)`
returns -2 and `persistentReadArea("A", 0)` returns 1; neither returns -1. -/
theorem C5_read_of_absent_name_is_not_reported :
    getPersistentHeaderAddress 3 blank [65] = some 0 ∧
      persistentReadArea 3 blank [65] 5 [1, 2, 3, 4, 5] local0 = some (-2, [1, 2, 3, 4, 5]) ∧
      persistentReadArea 3 blank [65] 0 [] local0 = some (1, []) := by
  decide

/-- C6, what the code does: no header of `areaA` carries "B", yet
`persistentWriteArea("B", 3, {1, 2, 3})` returns 3 and stores the bytes from address 20 on,
inside the name field of the cell of "A". -/
theorem C6_write_to_absent_name_writes :
    getPersistentHeaderAddress 3 areaA [66] = some 0 ∧ EEPROM_read areaA 20 = 0 ∧
      (persistentWriteArea 3 areaA [66] 3 [1, 2, 3] local0).map Prod.fst = some 3 ∧
      EEPROM_read (stateAfter (persistentWriteArea 3 areaA [66] 3 [1, 2, 3] local0)) 20 = 1 ∧
      EEPROM_read (stateAfter (persistentWriteArea 3 areaA [66] 3 [1, 2, 3] local0)) 22 = 3 := by
  decide

/-- C7, what the code does: the area "A" of `areaAB` holds 10 bytes and the header of "B"
follows it at 40 with `next` 25; `persistentWriteArea("A", 12, ...)` returns 12 and overwrites
the `next` field of "B". -/
theorem C7_write_with_wrong_size_writes :
    getPersistentHeaderAddress 4 areaAB [65] = some 10 ∧
      EEPROM_RD_INT areaAB 10 - EEPROM_RD_INT areaAB 12 = 10 ∧
      EEPROM_RD_INT areaAB 40 = 25 ∧
      (persistentWriteArea 4 areaAB [65] 12 [1, 2, 3, 4, 5, 6, 7, 8, 9, 10, 11, 12] local0).map
        Prod.fst = some 12 ∧
      EEPROM_RD_INT (stateAfter (persistentWriteArea 4 areaAB [65] 12
        [1, 2, 3, 4, 5, 6, 7, 8, 9, 10, 11, 12] local0)) 40 = 3083 := by
  decide

/-- C8 (size mismatch). When the name resolves to the header at `h` and the data address
`h + 20` lies inside the region, `persistentReadArea(name, wrongSize, buf)` with a size other
than the stored `next - data` returns -2 and leaves `buf` as it was. -/
theorem C8_read_with_wrong_size_is_refused (fuel : Nat) (e : Eeprom) (name : List Nat)
    (h wrongSize : Nat) (buf : List Nat) (hl : HeaderLocal)
    (hlook : getPersistentHeaderAddress fuel e name = some h)
    (hdata : h + 20 < EPR_END_FREE e)
    (hsize : wrongSize ≠ (EEPROM_RD_INT e h + 65536 - EEPROM_RD_INT e (h + 2)) % 65536) :
    persistentReadArea fuel e name wrongSize buf hl = some (-2, buf) := by
  unfold persistentReadArea
  rw [persistentReadHeaderByName_ok fuel e name h hl.init hlook hdata]
  have hne : ¬ h + 20 = 0 := by omega
  have hb := EEPROM_RD_INT_lt e (h + 2)
  have hsz : (EEPROM_RD_INT e h + 65536 - EEPROM_RD_INT e (h + 2) % 65536) % 65536
      ≠ wrongSize := by omega
  simp only [hne, if_false, readHeader_next, readHeader_data, hsz, ne_eq, not_false_eq_true,
    if_true]

/-- C8 at a concrete input: the area "A" of `areaA` holds 10 bytes; reading 9 is refused. -/
theorem C8_read_with_wrong_size_is_refused_witness :
    persistentReadArea 3 areaA [65] 9 [7, 7] local0 = some (-2, [7, 7]) :=
  C8_read_with_wrong_size_is_refused 3 areaA [65] 10 9 [7, 7] local0 (by decide) (by decide)
    (by decide)

/-- C9, what the code does: the freed cell at 10 of `freedA` has capacity 30, less than
20 + 11; `newPersistentHeader("C", 30, 11)` returns 11, not -4, and writes the header with
`next` 31 and `data` 20. -/
theorem C9_too_small_freed_cell_is_claimed :
    EEPROM_RD_INT freedA 10 = 30 ∧ EEPROM_RD_INT freedA 12 = 0xffff ∧
      (newPersistentHeader freedA [67] 30 11 local0).1 = 11 ∧
      EEPROM_RD_INT (newPersistentHeader freedA [67] 30 11 local0).2 10 = 31 ∧
      EEPROM_RD_INT (newPersistentHeader freedA [67] 30 11 local0).2 12 = 20 := by
  decide

/-- C10 as stated fails: on `areaAB` the first `freePersistentArea("A")` returns 1, and on
the medium it leaves the second one returns -1, not 2. -/
theorem C10_second_free_is_not_already_freed :
    (freePersistentArea 4 areaAB [65] local0).map Prod.fst = some 1 ∧
      (freePersistentArea 4 freedA [65] local0).map Prod.fst = some (-1) ∧
      (freePersistentArea 4 freedA [65] local0).map Prod.fst ≠ some 2 := by
  decide

/-- The second free of a name. On a sound medium in the configuration the
allocator is meant for, let `name`, which does not start with the byte 0xFF, resolve to the
live, well-formed header at `h` (`data` = 20 ≤ `next`, the cell inside the region, the chain
of cells, each at least a header long, leading to it), let no header after that cell carry the
name, and let the local header of the call live in SRAM (at 256 or above). Then
`freePersistentArea(name)` returns 1, and a second `freePersistentArea(name)`, given fuel for
its walk, returns -1, the code for a name that was not found, and leaves the medium, every
byte of it, as it was. -/
theorem second_free_reports_not_found (fuel : Nat) (e : Eeprom) (name : List Nat) (h : Nat)
    (l1 l2 : HeaderLocal) (hrel : Reliable e) (hs : Sane e)
    (hchain : ChainTo e 20 h EPR_START_FREE)
    (hlook : getPersistentHeaderAddress fuel e name = some h)
    (hdata : h + 20 < EPR_END_FREE e)
    (hD : EEPROM_RD_INT e (h + 2) = 20) (hN : 20 ≤ EEPROM_RD_INT e h)
    (hcell : h + EEPROM_RD_INT e h ≤ EPR_END_FREE e)
    (hname : name.getD 0 0 % 256 ≠ 255)
    (hrest : getPersistentHeaderAddress.loop e name fuel (h + EEPROM_RD_INT e h) = some 0)
    (hp : 256 ≤ l1.ptr ∧ l1.ptr + 20 ≤ 65536) :
    ∃ e1, freePersistentArea fuel e name l1 = some (1, e1) ∧
      ∃ F, ∀ f, F ≤ f → freePersistentArea f e1 name l2 = some (-1, e1) := by
  have h10 : 10 ≤ h := hchain.le
  have hE : EPR_END_FREE e ≤ 4096 := Nat.le_trans hs.1 hs.2
  have hNlt := EEPROM_RD_INT_lt e h
  obtain ⟨e1, hfr, o1, _, n1, c1⟩ := freePersistentArea_spec e hrel hs name fuel h l1 hlook h10
    hdata hD hN hcell hp.1 hp.2
  refine ⟨e1, hfr, ?_⟩
  have hsame : SameBelow h e e1 := o1.sameBelow (Nat.le_refl _)
  have hend : EPR_END_FREE e1 = EPR_END_FREE e := hsame.endFree h10
  obtain ⟨k, hk, hall⟩ := lookup_passes name hs hchain (Nat.le_refl _) (by omega) fuel h hlook
    (Or.inr (Nat.le_refl _))
  have hcmp : persistentStrCmp e1 (h + 4) name ≠ 0 := persistentStrCmp_filler e1 name _ c1 hname
  refine ⟨k + fuel + 2, fun f hf => ?_⟩
  have hl0 : getPersistentHeaderAddress f e1 name = some 0 := by
    have hstep := hall e1 hsame (f - k)
    rw [show k + (f - k) = f by omega] at hstep
    unfold getPersistentHeaderAddress
    rw [hstep]
    obtain ⟨g, hg⟩ : ∃ g, f - k = (g + fuel) + 1 := ⟨f - k - fuel - 1, by omega⟩
    rw [hg, lookup_loop_skip e1 name (g + fuel) h (by omega) (by omega) hcmp, n1]
    split_ifs with htail
    · obtain ⟨g2, hg2⟩ : ∃ g2, g + fuel = g2 + 1 := ⟨g + fuel - 1, by omega⟩
      rw [hg2]
      exact lookup_loop_past e1 name g2 _ (by omega)
    · rw [show (h + EEPROM_RD_INT e h) % 4294967296 = h + EEPROM_RD_INT e h by omega,
        lookup_loop_congr_above name o1 h10 hs (g + fuel) _ (Nat.le_refl _),
        Nat.add_comm g fuel]
      exact lookup_loop_mono e name fuel _ 0 hrest g
  unfold freePersistentArea
  rw [hl0]
  simp only [if_true]

/-- The second free at a concrete input: free "A" on `areaAB` twice. -/
theorem second_free_reports_not_found_witness :
    ∃ e1, freePersistentArea 4 areaAB [65] local0 = some (1, e1) ∧
      ∃ F, ∀ f, F ≤ f → freePersistentArea f e1 [65] local0 = some (-1, e1) :=
  second_free_reports_not_found 4 areaAB [65] 10 local0 local0 Reliable_areaAB Sane_areaAB
    ChainTo.here (by decide) (by decide) (by decide) (by decide) (by decide) (by decide)
    (by decide) (by decide)

/-- C11, what the code does: on `blank` the region ends at 4096 and the first cell is the
virgin tail at header address 10; for 4070 bytes the cell would end at 4100, yet
`findNewPersistentArea(4070)` returns its data address 30 and `newPersistentArea("A", 4070)`
returns 30 instead of 0. -/
theorem C11_virgin_tail_is_taken_past_the_end :
    EPR_END_FREE blank = 4096 ∧ EEPROM_RD_INT blank 10 = 0xffff ∧
      EEPROM_RD_INT blank 12 = 0xffff ∧
      EPR_END_FREE blank < 10 + PERSISTENT_AREA_PREFIX_SIZE + 4070 ∧
      findNewPersistentArea 3 blank 4070 local0 = some 30 ∧
      (newPersistentArea 3 blank [65] 4070 local0 local0).map Prod.fst = some 30 := by
  decide

/-- C12, what the code does: on `wornA` the store of the modified header of "A" fails its
read-back at address 12 and `persistentStore` returns -1, yet `freePersistentArea("A")`
returns 1; the header is left with `next` 0xFFFF and `data` 20, and "A" still resolves. -/
theorem C12_free_reports_success_on_write_error :
    (persistentStore wornA 10 local0.ptr
        (headerBytes { next := 0xffff, data := 0xffff, name := List.replicate 16 0xFF }) 20).1
        = -1 ∧
      (freePersistentArea 3 wornA [65] local0).map Prod.fst = some 1 ∧
      EEPROM_RD_INT (stateAfter (freePersistentArea 3 wornA [65] local0)) 10 = 0xffff ∧
      EEPROM_RD_INT (stateAfter (freePersistentArea 3 wornA [65] local0)) 12 = 20 ∧
      getPersistentHeaderAddress 3 (stateAfter (freePersistentArea 3 wornA [65] local0)) [65]
        = some 10 := by
  decide

/-- C13, what the code does: on `wornBlank` the store of the new header fails its read-back
at address 12 and `persistentStore` returns -1, yet `newPersistentHeader("A", 30, 10)` returns
10, not -3, and `newPersistentArea("A", 10)` returns the address 30 as allocated; the `data`
field is still 0xFFFF and "A" does not resolve. -/
theorem C13_write_error_is_reported_as_allocated :
    (persistentStore wornBlank 10 local0.ptr
        (headerBytes { next := 30, data := 20, name := strncpy [65] 16 }) 20).1 = -1 ∧
      (newPersistentHeader wornBlank [65] 30 10 local0).1 = 10 ∧
      (newPersistentArea 3 wornBlank [65] 10 local0 local0).map Prod.fst = some 30 ∧
      EEPROM_RD_INT (stateAfter (newPersistentArea 3 wornBlank [65] 10 local0 local0)) 12
        = 0xffff ∧
      getPersistentHeaderAddress 3
        (stateAfter (newPersistentArea 3 wornBlank [65] 10 local0 local0)) [65] = some 0 := by
  decide

/-- C14, what the code does: on the sound medium `area3w` the live area "A" holds the payload
1, 255, 2 at `[30, 33)`; `freePersistentArea("A")` returns 1 and leaves the byte 2 at address
32: `persistentClear` only moves on after a write, so the byte 0xFF at 31 holds it up until its
count runs out. -/
theorem C14_free_leaves_payload_bytes :
    Reliable area3w ∧ getPersistentHeaderAddress 3 area3w [65] = some 10 ∧
      EEPROM_RD_INT area3w 10 = 23 ∧ EEPROM_RD_INT area3w 12 = 20 ∧
      persistentRead area3w 30 3 = [1, 255, 2] ∧
      (freePersistentArea 3 area3w [65] local0).map Prod.fst = some 1 ∧
      EEPROM_read (stateAfter (freePersistentArea 3 area3w [65] local0)) 32 = 2 :=
  ⟨fun _ _ _ => rfl, by decide⟩

/-- C15, what the code does: the allocatable region `[10, 96)` of `calibrated` is all 0xFF;
`newPersistentArea("A", 66)` succeeds with the data address 30, the cell ending where the region
ends; `freePersistentArea("A")` returns 1 and leaves `next` 86, not 0xFFFF, in the cell. -/
theorem C15_freed_tail_keeps_next_at_region_end :
    EPR_END_FREE calibrated = 96 ∧
      (∀ a, a < 96 → 10 ≤ a → EEPROM_read calibrated a = 0xff) ∧
      (newPersistentArea 3 calibrated [65] 66 local0 local0).map Prod.fst = some 30 ∧
      (freePersistentArea 3 calibratedA [65] local0).map Prod.fst = some 1 ∧
      EEPROM_RD_INT (stateAfter (freePersistentArea 3 calibratedA [65] local0)) 10 = 86 := by
  decide

/-- Virgin detection. `isPersistentStorageVirgin()` returns true exactly when every byte
at the addresses below `EEPROM_SIZE` is 0xFF; so it returns true on a medium that holds 0xFF
everywhere; and on a sound medium it returns false after a `newPersistentArea` that succeeded
with a header inside the medium (the local header that gets stored lives in SRAM, at 256 or
above). -/
theorem virgin_detection :
    (∀ e : Eeprom, isPersistentStorageVirgin e = true ↔
        ∀ i, i < EEPROM_SIZE e → EEPROM_read e i = 0xff) ∧
      (∀ e : Eeprom, (∀ i, EEPROM_read e i = 0xff) → isPersistentStorageVirgin e = true) ∧
      (∀ (fuel : Nat) (e e1 : Eeprom) (name : List Nat) (n h : Nat) (lf lh : HeaderLocal),
        Reliable e → 256 ≤ lh.ptr ∧ lh.ptr + 20 ≤ 65536 → h + 20 ≤ EEPROM_SIZE e →
        newPersistentArea fuel e name n lf lh = some (h + 20, e1) →
        isPersistentStorageVirgin e1 = false) := by
  have hiff : ∀ e : Eeprom, isPersistentStorageVirgin e = true ↔
      ∀ i, i < EEPROM_SIZE e → EEPROM_read e i = 0xff := by
    intro e
    unfold isPersistentStorageVirgin
    rw [isPersistentStorageVirgin_loop_iff]
    simp only [Nat.zero_add]
  refine ⟨hiff, fun e hall => (hiff e).mpr (fun i _ => hall i), ?_⟩
  intro fuel e e1 name n h lf lh hrel hp hin halloc
  have hsz : EEPROM_SIZE e < 65536 := by
    unfold EEPROM_SIZE
    omega
  obtain ⟨hlen, hd⟩ := newPersistentArea_data_field hrel hp (by omega) halloc
  cases hv : isPersistentStorageVirgin e1 with
  | false => rfl
  | true =>
    exfalso
    have hall := (hiff e1).mp hv
    have hsz1 : EEPROM_SIZE e1 = EEPROM_SIZE e := by
      unfold EEPROM_SIZE
      rw [hlen]
    have h2 := hall (h + 2) (by omega)
    have h3 := hall (h + 3) (by omega)
    apply hd
    unfold EEPROM_RD_INT
    rw [show h + 2 + 1 = h + 3 by omega, h2, h3]

/-- Virgin detection at a concrete input: the medium `factory`, which holds 0xFF everywhere, is virgin, and
the medium `areaA`, left by `newPersistentArea("A", 10)` on `blank`, is not. -/
theorem virgin_detection_witness :
    isPersistentStorageVirgin factory = true ∧ isPersistentStorageVirgin areaA = false :=
  ⟨virgin_detection.2.1 factory (fun _ => rfl),
    virgin_detection.2.2 3 blank areaA [65] 10 10 local0 local0 (fun _ _ _ => rfl)
      (by decide) (by decide) (eq_some_stateAfter _ _ (by decide))⟩

/-- C16, what the code does: `wornFactory` holds 0xFF in every cell, so
`isPersistentStorageVirgin()` returns true; its cell at 10 is worn and keeps 0xFF. There
`newPersistentArea("A", 10)` returns the data address 30 as allocated, though the store of the
header failed at its first byte, and on the medium it leaves `isPersistentStorageVirgin()`
still returns true. -/
theorem C16_virgin_after_reported_allocation :
    isPersistentStorageVirgin wornFactory = true ∧
      (persistentStore wornFactory 10 local0.ptr
        (headerBytes { next := 30, data := 20, name := strncpy [65] 16 }) 20).1 = -1 ∧
      newPersistentArea 720918 wornFactory [65] 10 local0 local0
        = some (30, (newPersistentHeader wornFactory [65] 30 10 local0).2) ∧
      isPersistentStorageVirgin (newPersistentHeader wornFactory [65] 30 10 local0).2
        = true :=
  ⟨virgin_wornFactory, by decide, alloc_wornFactory, virgin_wornFactory_after⟩

/-- C17, what the code does: the area "A" of `areaA` holds ten bytes 0xFF; writing the same
ten bytes with `persistentWriteArea` returns 10 and makes ten raw writes. -/
theorem C17_identical_payload_is_rewritten :
    getPersistentHeaderAddress 3 areaA [65] = some 10 ∧
      persistentRead areaA 30 10 = List.replicate 10 0xff ∧
      (persistentWriteArea 3 areaA [65] 10 (List.replicate 10 0xff) local0).map Prod.fst
        = some 10 ∧
      (stateAfter (persistentWriteArea 3 areaA [65] 10 (List.replicate 10 0xff) local0)).writes
        = areaA.writes + 10 := by
  decide

/-- A freed name no longer resolves on a sound medium. On a sound medium in the configuration the
allocator is meant for, let `name`, which does not start with the byte 0xFF, resolve to the
live, well-formed header at `h` (`data` = 20 ≤ `next`, the cell inside the region, the chain of
cells, each at least a header long, leading to it), let no header after that cell carry the
name, and let the local header of the call live in SRAM (at 256 or above). Then
`freePersistentArea(name)` returns 1 and leaves the `data` field 0xFFFF and the 16 name bytes
0xFF in the header, and afterwards, given fuel for the walk, `getPersistentHeaderAddress(name)`
returns 0 and `hasPersistentArea(name)` is false. -/
theorem freed_name_no_longer_resolves_on_sound_medium (fuel : Nat) (e : Eeprom) (name : List Nat) (h : Nat)
    (hl : HeaderLocal) (hrel : Reliable e) (hs : Sane e)
    (hchain : ChainTo e 20 h EPR_START_FREE)
    (hlook : getPersistentHeaderAddress fuel e name = some h)
    (hdata : h + 20 < EPR_END_FREE e)
    (hD : EEPROM_RD_INT e (h + 2) = 20) (hN : 20 ≤ EEPROM_RD_INT e h)
    (hcell : h + EEPROM_RD_INT e h ≤ EPR_END_FREE e)
    (hname : name.getD 0 0 % 256 ≠ 255)
    (hrest : getPersistentHeaderAddress.loop e name fuel (h + EEPROM_RD_INT e h) = some 0)
    (hp : 256 ≤ hl.ptr ∧ hl.ptr + 20 ≤ 65536) :
    ∃ e1, freePersistentArea fuel e name hl = some (1, e1) ∧
      EEPROM_RD_INT e1 (h + 2) = 0xffff ∧
      (∀ i, i < 16 → EEPROM_read e1 (h + 4 + i) = 0xff) ∧
      ∃ F, ∀ f, F ≤ f →
        getPersistentHeaderAddress f e1 name = some 0 ∧
        hasPersistentArea f e1 name = some false := by
  obtain ⟨e1, hfr, _, _, o1, d1, n1, c1⟩ := freePersistentArea_effect e hrel hs name fuel h hl
    hlook hchain.le hdata hD hN hcell hp.1 hp.2
  obtain ⟨F, hF⟩ := lookup_after_free name fuel hs hchain hlook hdata hcell hname hrest o1 n1
    (by simpa using c1 0 (by omega))
  refine ⟨e1, hfr, d1, c1, F, fun f hf => ⟨hF f hf, ?_⟩⟩
  unfold hasPersistentArea
  rw [hF f hf]
  rfl

/-- The freed name at a concrete input: free "A" on the medium that holds "A" and "B". -/
theorem freed_name_no_longer_resolves_on_sound_medium_witness :
    ∃ e1, freePersistentArea 4 areaAB [65] local0 = some (1, e1) ∧
      EEPROM_RD_INT e1 (10 + 2) = 0xffff ∧
      (∀ i, i < 16 → EEPROM_read e1 (10 + 4 + i) = 0xff) ∧
      ∃ F, ∀ f, F ≤ f →
        getPersistentHeaderAddress f e1 [65] = some 0 ∧
        hasPersistentArea f e1 [65] = some false :=
  freed_name_no_longer_resolves_on_sound_medium 4 areaAB [65] 10 local0 Reliable_areaAB Sane_areaAB
    ChainTo.here (by decide) (by decide) (by decide) (by decide) (by decide) (by decide)
    (by decide) (by decide)

/-- C18, what the code does: on `wornA` the name "A" resolves to the one header that carries
it, the live header at 10; `freePersistentArea("A")` returns 1, yet the store of the header
failed at the worn cell 12, and afterwards "A" still resolves to 10, `hasPersistentArea("A")`
is true, the `data` field is 20 and the name field starts with 'A'. -/
theorem C18_name_resolves_after_reported_free :
    getPersistentHeaderAddress 3 wornA [65] = some 10 ∧ EEPROM_RD_INT wornA 12 = 20 ∧
      (freePersistentArea 3 wornA [65] local0).map Prod.fst = some 1 ∧
      getPersistentHeaderAddress 3 (stateAfter (freePersistentArea 3 wornA [65] local0)) [65]
        = some 10 ∧
      hasPersistentArea 3 (stateAfter (freePersistentArea 3 wornA [65] local0)) [65]
        = some true ∧
      EEPROM_RD_INT (stateAfter (freePersistentArea 3 wornA [65] local0)) 12 = 20 ∧
      EEPROM_read (stateAfter (freePersistentArea 3 wornA [65] local0)) 14 = 65 := by
  decide

/-- Allocation is observable by lookup on a well-formed chain. On a sound medium in the configuration the
allocator is meant for, let `newPersistentArea(name, n)` have returned the data address
`h + 20`, where the chain of cells, each at least a header long, leads from `EPR_START_FREE` to
the header `h`, the data address lies inside the region, `n` is below 65534 and the local
header that gets stored lives in SRAM (at 256 or above). Then `getPersistentHeaderAddress(name)`
returns `h`, `getPersistentAreaAddress(name)` returns `h + 20` and `hasPersistentArea(name)` is
true. -/
theorem allocation_is_observable_on_well_formed_chain (fuel : Nat) (e e1 : Eeprom) (name : List Nat) (n h : Nat)
    (lf lh : HeaderLocal) (hrel : Reliable e) (hs : Sane e)
    (hchain : ChainTo e 20 h EPR_START_FREE) (hdata : h + 20 < EPR_END_FREE e)
    (hn : n < 65534) (hp : 256 ≤ lh.ptr ∧ lh.ptr + 20 ≤ 65536)
    (halloc : newPersistentArea fuel e name n lf lh = some (h + 20, e1)) :
    getPersistentHeaderAddress fuel e1 name = some h ∧
      getPersistentAreaAddress fuel e1 name = some (h + 20) ∧
      hasPersistentArea fuel e1 name = some true := by
  have h10 : 10 ≤ h := hchain.le
  have hE : EPR_END_FREE e ≤ 4096 := Nat.le_trans hs.1 hs.2
  obtain ⟨hlook0, _, hrc, he1⟩ := newPersistentArea_inv_general (by omega) halloc
  have hfree : EEPROM_RD_INT e (h + 2) = 0xffff := by
    by_contra hlive
    rw [newPersistentHeader_inUse e name h n lh (by omega) hlive] at hrc
    omega
  obtain ⟨_, o1, _, _, f3⟩ :=
    newPersistentHeader_spec e hrel name h n lh (by omega) hp.1 hp.2 hfree
  rw [← he1] at o1 f3
  have hcmp1 : persistentStrCmp e1 (h + 4) name = 0 := persistentStrCmp_stored e1 name _ f3
  have hlook1 : getPersistentHeaderAddress fuel e1 name = some h :=
    lookup_resolves name hs hchain (by omega) fuel 0 hlook0 (Or.inl (Eq.refl _))
      (o1.sameBelow (Nat.le_refl _)) hcmp1
  refine ⟨hlook1, ?_, ?_⟩
  · unfold getPersistentAreaAddress
    unfold getPersistentHeaderAddress at hlook1
    rw [areaAddress_loop_of_headerAddress e1 name fuel _ h hlook1 (by omega)]
    unfold PERSISTENT_AREA_PREFIX_SIZE
    congr 1
    omega
  · unfold hasPersistentArea
    rw [hlook1]
    have : h ≠ 0 := by omega
    simp [this]

/-- The lookup after an allocation at a concrete input: allocate "B" with 5 bytes on the medium that holds "A". -/
theorem allocation_is_observable_on_well_formed_chain_witness :
    getPersistentHeaderAddress 4 areaAB [66] = some 40 ∧
      getPersistentAreaAddress 4 areaAB [66] = some 60 ∧
      hasPersistentArea 4 areaAB [66] = some true :=
  allocation_is_observable_on_well_formed_chain 4 areaA areaAB [66] 5 40 local0 local0 Reliable_areaA Sane_areaA
    chain_areaA (by decide) (by decide) (by decide) (eq_some_stateAfter _ _ (by decide))

/-- C19, what the code does: on the sound medium `freedX`, reached from `blank` by
`newPersistentArea("X", 65517)` and `freePersistentArea("X")`, `newPersistentArea("B", 5)`
returns the address 31, which is no error code; on the medium `areaXB` it leaves,
`hasPersistentArea("B")` is false and `getPersistentAreaAddress("B")` and
`getPersistentHeaderAddress("B")` return 0. -/
theorem C19_allocated_name_does_not_resolve :
    Reliable freedX ∧
      (newPersistentArea 3 blank [88] 65517 local0 local0).map Prod.fst = some 30 ∧
      (freePersistentArea 3 areaX [88] local0).map Prod.fst = some 1 ∧
      EEPROM_RD_INT freedX 10 = 1 ∧ EEPROM_RD_INT freedX 12 = 0xffff ∧
      (newPersistentArea 5 freedX [66] 5 local0 local0).map Prod.fst = some 31 ∧
      hasPersistentArea 5 areaXB [66] = some false ∧
      getPersistentAreaAddress 5 areaXB [66] = some 0 ∧
      getPersistentHeaderAddress 5 areaXB [66] = some 0 :=
  ⟨Reliable_freedX, by decide, by rw [free_areaX]; rfl, by rw [freedX_eq]; decide,
    by rw [freedX_eq]; decide, by rw [freedX_eq]; decide,
    by unfold areaXB; rw [freedX_eq]; decide, by unfold areaXB; rw [freedX_eq]; decide,
    by unfold areaXB; rw [freedX_eq]; decide⟩

/-- The requested size 0. The medium `area0` is reached from the virgin
medium `blank` by the successful call `newPersistentArea("A", 0)`; the header at 10 is on the
chain, inside the region and live, its `data` is 20 and the requested size is 0, but its `next`
is 20 as well, so `next > data` does not hold. -/
theorem size_zero_has_next_equal_to_data :
    Reached area0 (Function.update (fun _ => none) 10 (some 0)) ∧
    ChainTo area0 0 10 EPR_START_FREE ∧ 10 < EPR_END_FREE area0 ∧
    EEPROM_RD_INT area0 (10 + 2) ≠ 0xffff ∧
    EEPROM_RD_INT area0 (10 + 2) = PERSISTENT_AREA_PREFIX_SIZE ∧
    EEPROM_RD_INT area0 10 = 20 ∧
    ¬ (EEPROM_RD_INT area0 10 > EEPROM_RD_INT area0 (10 + 2)) :=
  ⟨reached_area0, ChainTo.here, by decide, by decide, by decide, by decide, by decide⟩

/-- The live-header invariant within the contracts. Let the medium `e` be reached from a sound medium
with a virgin allocatable region by `newPersistentArea`, `freePersistentArea` and
`persistentWriteArea` calls that succeed within their contracts (`Reached`), `req` recording
the payload size asked for at the allocation of each live area. Then every header `h` that the
chain from `EPR_START_FREE` leads to inside the region and that is live (`data` is not 0xFFFF)
belongs to an area that was allocated with some size `n` and not freed since, its `data` is
`PERSISTENT_AREA_PREFIX_SIZE`, its `next` is at least its `data`, `next - data` is the requested
size `n`, and `next > data` holds exactly when `n` is not 0. -/
theorem live_header_invariant_within_contracts {e : Eeprom} {req : Nat → Option Nat} (h : Nat)
    (hr : Reached e req) (hchain : ChainTo e 0 h EPR_START_FREE) (hin : h < EPR_END_FREE e)
    (hlive : EEPROM_RD_INT e (h + 2) ≠ 0xffff) :
    ∃ n, req h = some n ∧
      EEPROM_RD_INT e (h + 2) = PERSISTENT_AREA_PREFIX_SIZE ∧
      EEPROM_RD_INT e h ≥ EEPROM_RD_INT e (h + 2) ∧
      EEPROM_RD_INT e h - EEPROM_RD_INT e (h + 2) = n ∧
      (EEPROM_RD_INT e h > EEPROM_RD_INT e (h + 2) ↔ 0 < n) := by
  obtain ⟨_, hs, hlay⟩ := hr.good
  have hat := Layout.sub hs hin hchain hlay
  cases hat with
  | tail hv => exact absurd hv.data_eq hlive
  | @freed _ N hf _ => exact absurd hf.2.2 hlive
  | @live _ n hl hreq _ =>
    refine ⟨n, hreq, hl.2, ?_, ?_, ?_⟩
    · rw [hl.1, hl.2]; omega
    · rw [hl.1, hl.2]; omega
    · rw [hl.1, hl.2]; omega

/-- The live-header invariant at a concrete input: the medium `areaAB`, reached from `blank` by allocating "A" with
10 bytes and "B" with 5 bytes, and the header of "B" at 40. -/
theorem live_header_invariant_within_contracts_witness :
    Reached areaAB (Function.update (Function.update (fun _ => none) 10 (some 10)) 40 (some 5)) ∧
    ChainTo areaAB 0 40 EPR_START_FREE ∧ 40 < EPR_END_FREE areaAB ∧
    EEPROM_RD_INT areaAB (40 + 2) ≠ 0xffff ∧
    ∃ n, (Function.update (Function.update (fun _ => none) 10 (some 10)) 40 (some 5) :
        Nat → Option Nat) 40 = some n ∧
      EEPROM_RD_INT areaAB (40 + 2) = PERSISTENT_AREA_PREFIX_SIZE ∧
      EEPROM_RD_INT areaAB 40 ≥ EEPROM_RD_INT areaAB (40 + 2) ∧
      EEPROM_RD_INT areaAB 40 - EEPROM_RD_INT areaAB (40 + 2) = n ∧
      (EEPROM_RD_INT areaAB 40 > EEPROM_RD_INT areaAB (40 + 2) ↔ 0 < n) :=
  ⟨reached_areaAB, chain_areaAB, by decide, by decide,
    live_header_invariant_within_contracts 40 reached_areaAB chain_areaAB (by decide) (by decide)⟩

/-- C20, what the code does: `freedA` is reached from the virgin `blank` by allocating "A"
(10 bytes) and "B" (5 bytes) and freeing "A"; `newPersistentArea("C", 7)` succeeds there with
the data address 30 and stores 27 in the `next` field of the reused cell of 30 bytes. On the
medium `reusedC7` it leaves, the chain leads from `EPR_START_FREE` to the address 37, inside
the region, where the `data` field reads 6655: neither 0xFFFF nor
`PERSISTENT_AREA_PREFIX_SIZE`. Besides, the header that `newPersistentArea("A", 0)` writes on
`blank` has `next` = `data` = 20. -/
theorem C20_reuse_leaves_a_malformed_live_header :
    Reached freedA
        (Function.update
          (Function.update (Function.update (fun _ => none) 10 (some 10)) 40 (some 5)) 10 none) ∧
      (newPersistentArea 4 freedA [67] 7 local0 local0).map Prod.fst = some 30 ∧
      EEPROM_RD_INT reusedC7 10 = 27 ∧
      ChainTo reusedC7 0 37 EPR_START_FREE ∧ 37 < EPR_END_FREE reusedC7 ∧
      EEPROM_RD_INT reusedC7 (37 + 2) = 6655 ∧ EEPROM_RD_INT reusedC7 37 = 0xffff ∧
      (newPersistentArea 3 blank [65] 0 local0 local0).map Prod.fst = some 30 ∧
      EEPROM_RD_INT area0 (10 + 2) = 20 ∧ EEPROM_RD_INT area0 10 = 20 :=
  ⟨reached_freedA, by decide, by decide, chain_reusedC7, by decide, by decide, by decide,
    by decide, by decide, by decide⟩

/-- C21, what the code does: the media `calibratedA` and `calibratedFF` differ only in the
cells 96 and 97, which lie past `EPR_END_FREE` = 96; in both "A" resolves to the header at 10,
whose cell ends at 96; after `freePersistentArea("A")` the `next` field at 10 is 86 on the
first and 0xFFFF on the second, so the call has read the bytes at 96 and 97. -/
theorem C21_free_reads_past_the_region :
    EPR_END_FREE calibratedA = 96 ∧ EPR_END_FREE calibratedFF = 96 ∧
      Outside 96 98 calibratedA calibratedFF ∧
      getPersistentHeaderAddress 3 calibratedA [65] = some 10 ∧
      getPersistentHeaderAddress 3 calibratedFF [65] = some 10 ∧
      EEPROM_RD_INT calibratedA 10 = 86 ∧
      (freePersistentArea 3 calibratedA [65] local0).map Prod.fst = some 1 ∧
      (freePersistentArea 3 calibratedFF [65] local0).map Prod.fst = some 1 ∧
      EEPROM_RD_INT (stateAfter (freePersistentArea 3 calibratedA [65] local0)) 10 = 86 ∧
      EEPROM_RD_INT (stateAfter (freePersistentArea 3 calibratedFF [65] local0)) 10
        = 0xffff :=
  ⟨by decide, by decide,
    ⟨Eq.refl _, Eq.refl _, fun a ha => if_neg (by omega)⟩,
    by decide, by decide, by decide, by decide, by decide, by decide, by decide⟩

/-- C22, what the code does: `freedA` is reached from the virgin `blank` by allocating "A"
(10 bytes) and "B" (5 bytes) and freeing "A"; "B" is live and resolves to the data address 60.
`newPersistentArea("C", 5)` succeeds with the data address 30, reusing the freed cell of 30
bytes at 10, and stores 25 in its `next` field; afterwards "B" no longer resolves, though the
25 bytes of its cell at `[40, 65)` are unchanged. -/
theorem C22_reuse_cuts_off_the_following_area :
    Reached freedA
        (Function.update
          (Function.update (Function.update (fun _ => none) 10 (some 10)) 40 (some 5)) 10 none) ∧
      EEPROM_RD_INT freedA 10 = 30 ∧ EEPROM_RD_INT freedA 12 = 0xffff ∧
      EEPROM_RD_INT freedA 42 = 20 ∧ getPersistentAreaAddress 4 freedA [66] = some 60 ∧
      (newPersistentArea 4 freedA [67] 5 local0 local0).map Prod.fst = some 30 ∧
      EEPROM_RD_INT reusedC 10 = 25 ∧
      persistentRead reusedC 40 25 = persistentRead freedA 40 25 ∧
      getPersistentAreaAddress 4 reusedC [66] = some 0 :=
  ⟨reached_freedA, by decide, by decide, by decide, by decide, by decide, by decide, by decide,
    by decide⟩

/-- C23, what the code does: on the sound medium `area3w` the range `[30, 33)` holds 1, 255, 2;
`persistentClear(30, 0xFF, 3)` returns 3 and leaves 255, 255, 2. -/
theorem C23_clear_stalls_on_a_cleared_byte :
    Reliable area3w ∧ persistentRead area3w 30 3 = [1, 255, 2] ∧
      (persistentClear area3w 30 0xff 3).1 = 3 ∧
      persistentRead (persistentClear area3w 30 0xff 3).2 30 3 = [255, 255, 2] :=
  ⟨fun _ _ _ => rfl, by decide⟩

/-- C24, what the code does: on `areaA` the 20 bytes at `[10, 30)` are the header of "A";
`persistentStore(10, data, 20)` with these 20 bytes as `data`, in a buffer at 0x21E0, returns
20 and makes 20 raw writes. -/
theorem C24_store_rewrites_equal_bytes :
    persistentRead areaA 10 20 = [30, 0, 20, 0, 65, 0, 0, 0, 0, 0, 0, 0, 0, 0, 0, 0, 0, 0, 0, 0] ∧
      (persistentStore areaA 10 local0.ptr (persistentRead areaA 10 20) 20).1 = 20 ∧
      (persistentStore areaA 10 local0.ptr (persistentRead areaA 10 20) 20).2.writes
        = areaA.writes + 20 := by
  decide

/-- Free of a non-tail cell on a sound medium. On a sound medium in the configuration the allocator is
meant for, let `name` resolve to the header at `h`, in the region, of a live area with a
well-formed header (`data` = 20 ≤ `next`) whose cell lies inside the region, let the header
that follows at `h + next` have a `next` other than 0xFFFF, and let the local header of the call
live in SRAM (at 256 or above). Then `freePersistentArea(name)` returns 1 and leaves the `next`
field of the header at `h` as it was, its `data` field 0xFFFF and its 16 name bytes 0xFF; the
chain still leads from `h` to the header that followed it. -/
theorem free_of_a_non_tail_cell_on_sound_medium (fuel : Nat) (e : Eeprom) (name : List Nat) (h : Nat)
    (hl : HeaderLocal) (hrel : Reliable e) (hs : Sane e)
    (hlook : getPersistentHeaderAddress fuel e name = some h) (h10 : EPR_START_FREE ≤ h)
    (hdata : h + 20 < EPR_END_FREE e)
    (hD : EEPROM_RD_INT e (h + 2) = PERSISTENT_AREA_PREFIX_SIZE)
    (hN : PERSISTENT_AREA_PREFIX_SIZE ≤ EEPROM_RD_INT e h)
    (hcell : h + EEPROM_RD_INT e h ≤ EPR_END_FREE e)
    (hnext : EEPROM_RD_INT e (h + EEPROM_RD_INT e h) ≠ 0xffff)
    (hp : 256 ≤ hl.ptr ∧ hl.ptr + 20 ≤ 65536) :
    ∃ e1, freePersistentArea fuel e name hl = some (1, e1) ∧
      EEPROM_RD_INT e1 h = EEPROM_RD_INT e h ∧
      EEPROM_RD_INT e1 (h + 2) = 0xffff ∧
      (∀ i, i < 16 → EEPROM_read e1 (h + 4 + i) = 0xff) ∧
      ChainTo e1 20 (h + EEPROM_RD_INT e h) h := by
  obtain ⟨e1, hfr, _, _, _, d1, n1, c1⟩ := freePersistentArea_effect e hrel hs name fuel h hl
    hlook h10 hdata hD hN hcell hp.1 hp.2
  rw [if_neg hnext] at n1
  refine ⟨e1, hfr, n1, d1, c1, ?_⟩
  refine ChainTo.step ?_ ?_
  · rw [n1]
    exact hN
  · rw [n1]
    exact ChainTo.here

/-- Free of a non-tail cell at a concrete input: free "A" on the medium that holds "A" at 10 and "B" at 40. -/
theorem free_of_a_non_tail_cell_on_sound_medium_witness :
    ∃ e1, freePersistentArea 4 areaAB [65] local0 = some (1, e1) ∧
      EEPROM_RD_INT e1 10 = EEPROM_RD_INT areaAB 10 ∧
      EEPROM_RD_INT e1 (10 + 2) = 0xffff ∧
      (∀ i, i < 16 → EEPROM_read e1 (10 + 4 + i) = 0xff) ∧
      ChainTo e1 20 (10 + EEPROM_RD_INT areaAB 10) 10 :=
  free_of_a_non_tail_cell_on_sound_medium 4 areaAB [65] 10 local0 Reliable_areaAB Sane_areaAB (by decide)
    (by decide) (by decide) (by decide) (by decide) (by decide) (by decide) (by decide)

/-- C25, what the code does: on `wornAB` the name "A" resolves to the live header at 10 with
`next` = 30, and the header that follows at 40, that of "B", has `next` = 25, not 0xFFFF.
`freePersistentArea("A")` returns 1, yet the store of the header failed at the worn cell 12:
afterwards the `data` field at 12 is still 20 and the name field still starts with 'A'. -/
theorem C25_reported_free_leaves_data_and_name :
    getPersistentHeaderAddress 4 wornAB [65] = some 10 ∧ EEPROM_RD_INT wornAB 10 = 30 ∧
      EEPROM_RD_INT wornAB (10 + 2) = 20 ∧ EEPROM_RD_INT wornAB (10 + 30) = 25 ∧
      (freePersistentArea 4 wornAB [65] local0).map Prod.fst = some 1 ∧
      EEPROM_RD_INT (stateAfter (freePersistentArea 4 wornAB [65] local0)) (10 + 2) = 20 ∧
      EEPROM_read (stateAfter (freePersistentArea 4 wornAB [65] local0)) (10 + 4) = 65 := by
  decide

/-- C26 (free touches only its own cell). Let `name` resolve to the header at `h`, inside the
region, of a live area with a well-formed header (`data` = 20 ≤ `next`) whose cell
`[h, h + next)` lies in the 16 bit address space. Then `freePersistentArea(name)` returns, and
whatever it returns and whatever the medium does with the writes, no cell outside
`[h, h + next)` has changed. -/
theorem C26_free_touches_only_its_cell (fuel : Nat) (e : Eeprom) (name : List Nat) (h : Nat)
    (hl : HeaderLocal) (hlook : getPersistentHeaderAddress fuel e name = some h)
    (hdata : h + 20 < EPR_END_FREE e)
    (hD : EEPROM_RD_INT e (h + 2) = PERSISTENT_AREA_PREFIX_SIZE)
    (hN : PERSISTENT_AREA_PREFIX_SIZE ≤ EEPROM_RD_INT e h)
    (hcell : h + EEPROM_RD_INT e h ≤ 65536) :
    ∃ rc e1, freePersistentArea fuel e name hl = some (rc, e1) ∧
      Outside h (h + EEPROM_RD_INT e h) e e1 := by
  unfold PERSISTENT_AREA_PREFIX_SIZE at hD hN
  by_cases h0 : h = 0
  · subst h0
    refine ⟨-1, e, ?_, Outside.refl _ _ _⟩
    unfold freePersistentArea
    rw [hlook]
    rfl
  · have s2 : ∀ H : persistentAreaHeader, Outside h (h + EEPROM_RD_INT e h) e
        (persistentStore e h hl.ptr (headerBytes H) 20).2 := fun H =>
      (persistentStore_loop_outside hl.ptr (headerBytes H) 20 20 h 0 e (by omega)).mono
        (Nat.le_refl _) (by omega)
    have c2 : ∀ e2 : Eeprom, Outside h (h + EEPROM_RD_INT e h) e2
        (persistentClear e2 (h + 20) 0xff (EEPROM_RD_INT e h - 20)).2 := fun e2 =>
      (persistentClear_loop_outside (h + 20) 0xff (EEPROM_RD_INT e h - 20)
        (EEPROM_RD_INT e h - 20) (h + 20) e2 (by omega)).mono (by omega) (by omega)
    unfold freePersistentArea
    rw [hlook]
    simp only [h0, if_false, persistentReadHeaderByName_ok fuel e name h hl.init hlook hdata,
      readHeader_data, readHeader_next, hD, PERSISTENT_AREA_PREFIX_SIZE,
      PERSISTENT_AREA_NAME_SIZE]
    have hm1 : (h + EEPROM_RD_INT e h) % 4294967296 = h + EEPROM_RD_INT e h := by omega
    have hm2 : (h + 20) % 4294967296 = h + 20 := by omega
    have hm3 : (h + EEPROM_RD_INT e h + 4294967296 - (h + 20)) % 4294967296 % 65536
        = EEPROM_RD_INT e h - 20 := by omega
    have hd : ¬ (20 % 65536 = 65535) := by omega
    simp only [hm1, hm2, hm3, hd, if_false, readHeader_next]
    split_ifs <;>
      first
        | exact ⟨_, _, Eq.refl _, s2 _⟩
        | exact ⟨_, _, Eq.refl _, (s2 _).trans (c2 _)⟩

/-- C26 at a concrete input: free "A" on `wornA`, where the store of the header fails at the
worn cell 12. -/
theorem C26_free_touches_only_its_cell_witness :
    ∃ rc e1, freePersistentArea 3 wornA [65] local0 = some (rc, e1) ∧
      Outside 10 (10 + EEPROM_RD_INT wornA 10) wornA e1 :=
  C26_free_touches_only_its_cell 3 wornA [65] 10 local0 (by decide) (by decide) (by decide)
    (by decide) (by decide)

/-- The order of first fit. In the configuration the allocator is meant for, with room for a header
at the start of the region, whenever `findNewPersistentArea(n)` returns an address other than 0,
this is the data address `h + 20` of a header `h` that the chain leads to from
`EPR_START_FREE`, inside the region, whose cell is free (`data` is 0xFFFF) and passes the test
for `n` bytes, and no header that the chain passes before `h` is that of a free cell whose
`next` is at least `PERSISTENT_AREA_PREFIX_SIZE + n`: occupied cells are skipped. -/
theorem first_fit_order (fuel : Nat) (e : Eeprom) (n : Nat) (hl : HeaderLocal) (r : Nat)
    (hs : Sane e) (hroom : EPR_START_FREE + PERSISTENT_AREA_PREFIX_SIZE < EPR_END_FREE e)
    (hfind : findNewPersistentArea fuel e n hl = some r) (hr : r ≠ 0) :
    ∃ h, r = h + PERSISTENT_AREA_PREFIX_SIZE ∧ ChainTo e 0 h EPR_START_FREE ∧
      h + PERSISTENT_AREA_PREFIX_SIZE < EPR_END_FREE e ∧
      EEPROM_RD_INT e (h + 2) = 0xffff ∧
      Usable e n (headerOfBytes (persistentRead e h PERSISTENT_AREA_PREFIX_SIZE)) ∧
      ∀ c, ChainTo e 0 c EPR_START_FREE → ChainTo e 0 h c → c ≠ h →
        ¬ (EEPROM_RD_INT e (c + 2) = 0xffff ∧
          EEPROM_RD_INT e c ≥ PERSISTENT_AREA_PREFIX_SIZE + n) := by
  obtain ⟨h, h1, h2, h3, h4, h5⟩ :=
    find_loop_first_fit e hs n fuel EPR_START_FREE hl.init r hroom hfind hr
  refine ⟨h, h1, h2, h3, ?_, h4, h5⟩
  have := h4.1
  rwa [readHeader_data] at this

/-- The order of first fit at a concrete input: on `freedA`, which holds a freed cell of 30 bytes at 10 and the
area "B" at 40, `findNewPersistentArea(20)` passes both and returns the data address 85 of the
virgin tail at 65. -/
theorem first_fit_order_witness :
    ∃ h, 85 = h + PERSISTENT_AREA_PREFIX_SIZE ∧ ChainTo freedA 0 h EPR_START_FREE ∧
      h + PERSISTENT_AREA_PREFIX_SIZE < EPR_END_FREE freedA ∧
      EEPROM_RD_INT freedA (h + 2) = 0xffff ∧
      Usable freedA 20 (headerOfBytes (persistentRead freedA h PERSISTENT_AREA_PREFIX_SIZE)) ∧
      ∀ c, ChainTo freedA 0 c EPR_START_FREE → ChainTo freedA 0 h c → c ≠ h →
        ¬ (EEPROM_RD_INT freedA (c + 2) = 0xffff ∧
          EEPROM_RD_INT freedA c ≥ PERSISTENT_AREA_PREFIX_SIZE + 20) :=
  first_fit_order 4 freedA 20 local0 85 (by unfold Sane; decide) (by decide) (by decide)
    (by decide)

/-- C27, what the code does: on `blank` the region ends at 4096 and the first cell on the
chain is the virgin tail at 10; `findNewPersistentArea(4070)` returns its data address 30,
though a cell with 4070 bytes of payload would end at 4100, past the region: the cell returned
is not usable for 4070 bytes. -/
theorem C27_returned_cell_cannot_hold_the_payload :
    EPR_END_FREE blank = 4096 ∧ EEPROM_RD_INT blank 10 = 0xffff ∧
      EEPROM_RD_INT blank (10 + 2) = 0xffff ∧
      findNewPersistentArea 3 blank 4070 local0 = some (10 + PERSISTENT_AREA_PREFIX_SIZE) ∧
      EPR_END_FREE blank < 10 + PERSISTENT_AREA_PREFIX_SIZE + 4070 := by
  decide

/-- C28 as stated fails: the name field of `areaLong` at `[14, 30)` holds the 16 characters
"AAAAAAAAAAAAAAAA" and no terminator; the candidate "AAAAAAAAAAAAAAAAB" of 17 characters shares
these 16 non-zero bytes and goes on, and `persistentStrCmp` returns 0. -/
theorem C28_sixteen_shared_bytes_compare_equal :
    persistentRead areaLong 14 16 = List.replicate 16 65 ∧
      (List.replicate 16 65 ++ [66]).getD 16 0 = 66 ∧
      persistentStrCmp areaLong 14 (List.replicate 16 65 ++ [66]) = 0 := by
  decide

/-- C28 (name comparison), amended. `persistentStrCmp(s1, s2)` returns 0 exactly when the name
stored at `s1` and the string `s2` agree byte for byte, without a zero byte, up to a position
`m` of the 16 byte name field where both hold their terminator, or over all 16 bytes of the
field (`m` = 16), whatever follows these 16 bytes in `s2`. -/
theorem C28_name_comparison (e : Eeprom) (s1 : Nat) (s2 : List Nat) :
    persistentStrCmp e s1 s2 = 0 ↔
      ∃ m, m ≤ PERSISTENT_AREA_NAME_SIZE ∧
        (∀ j, j < m → EEPROM_read e (s1 + j) = s2.getD j 0 % 256 ∧ s2.getD j 0 % 256 ≠ 0) ∧
        (m = PERSISTENT_AREA_NAME_SIZE ∨
          (EEPROM_read e (s1 + m) = 0 ∧ s2.getD m 0 % 256 = 0)) := by
  unfold persistentStrCmp PERSISTENT_AREA_NAME_SIZE
  have := persistentStrCmp_loop_iff e s2 s1 16 0 (Eq.refl _)
  rw [Nat.add_zero] at this
  rw [this]
  constructor
  · rintro ⟨m, _, h2, h3, h4⟩
    exact ⟨m, h2, fun j hj => h3 j (Nat.zero_le _) hj, h4⟩
  · rintro ⟨m, h2, h3, h4⟩
    exact ⟨m, Nat.zero_le _, h2, fun j _ hj => h3 j hj, h4⟩

/-- C28 at a concrete input: the name "A" stored at 14 in `areaA` and the candidate "A" agree
in the first byte and both hold their terminator in the second. -/
theorem C28_name_comparison_witness : persistentStrCmp areaA 14 [65] = 0 :=
  (C28_name_comparison areaA 14 [65]).mpr
    ⟨1, by decide, fun j hj => by
      have hj0 : j = 0 := by omega
      subst hj0
      decide, Or.inr (by decide)⟩

/-- C29, what the code does: the header at 10 of `zeroNext` has `next` = 0, `data` = 0xFFFF and
a name field of 0xFF bytes. The walks of `getPersistentHeaderAddress("A")`,
`getPersistentAreaAddress("A")` and `findNewPersistentArea(1)` stay at the address 10, inside
the region, for ever: whatever the number of iterations granted, they have not returned.
A `next` of 0 is also what `newPersistentArea("C", 65516)` stores when it reuses the freed cell
of `freedA`. -/
theorem C29_walk_does_not_terminate :
    EEPROM_RD_INT zeroNext 10 = 0 ∧ 10 < EPR_END_FREE zeroNext ∧
      (∀ fuel, getPersistentHeaderAddress fuel zeroNext [65] = none) ∧
      (∀ fuel, getPersistentAreaAddress fuel zeroNext [65] = none) ∧
      (∀ fuel, findNewPersistentArea fuel zeroNext 1 local0 = none) ∧
      (newPersistentArea 4 freedA [67] 65516 local0 local0).map Prod.fst = some 30 ∧
      EEPROM_RD_INT (stateAfter (newPersistentArea 4 freedA [67] 65516 local0 local0)) 10 = 0 :=
  ⟨by decide, by decide, lookup_zeroNext, areaLookup_zeroNext,
    fun fuel => find_zeroNext fuel _, by decide, by decide⟩

end Persistence
